import Mathlib

/-
Verification of the boundary-tag memory allocator of this repository
(src/allocator.c, src/block.c, src/block.h, src/kernel.c).

Modelling choices, stated once here:
* Machine integers are natural numbers; the C computes in size_t, i.e.
  modulo 2 ^ 64.  An explicit percent SIZE_T_MOD appears wherever a C
  expression can actually wrap (the ROUND_BYTES macro, the size guard of
  block_dontneed); computations that are bounded inside one arena mapping
  cannot wrap and are written as plain naturals.
* An arena is modelled as the list of its block headers in address order.
  The C navigates between neighbouring headers by pointer arithmetic on
  size fields (block_next, block_prev); under the layout invariant the
  neighbour of the header at list position i is the header at position
  i + 1 or i - 1, which is how the list model expresses it.
* The process-wide size index (an AVL tree in the original project) lives
  in tree.h / tree.c, which are not part of src; it is modelled from the
  spec as an ordered multiset of (block location, key) entries.
* The page provider (kernel.c) returns fresh mappings or reports soft
  out-of-memory; a Boolean oracle oom decides the outcome of the single
  kernel_alloc call an operation can make.  kernel_free and kernel_reset
  are recorded as events; their failure is fatal in the C and never occurs
  in the model.
-/

namespace AllocModel

/-- Modelled from the spec: config.h is not in src.  ALIGN is the platform
maximum scalar alignment; the spec scenarios fix ALIGN = 16. -/
def ALIGN : Nat := 16

/-- Modelled from the spec: config.h is not in src.  The spec scenarios fix
ALLOCATOR_PAGE_SIZE = 4096. -/
def ALLOCATOR_PAGE_SIZE : Nat := 4096

/-- Modelled from the spec: config.h is not in src.  The spec scenarios fix
ALLOCATOR_ARENA_PAGES = 16. -/
def ALLOCATOR_ARENA_PAGES : Nat := 16

/-- ARENA_SIZE from allocator.c line 14. -/
def ARENA_SIZE : Nat := ALLOCATOR_ARENA_PAGES * ALLOCATOR_PAGE_SIZE

/-- The modulus of size_t arithmetic on the LP64 platform the spec scenarios
assume (a 32-byte header made of three 8-byte size_t fields). -/
def SIZE_T_MOD : Nat := 2 ^ 64

/-- SIZE_MAX of limits.h: the largest size_t value. -/
def SIZE_MAX : Nat := SIZE_T_MOD - 1

/-- Modelled from the spec: allocator_impl.h is not in src.  ROUND_BYTES
rounds up to a multiple of ALIGN; the C text is (x + ALIGN - 1) masked by
the complement of ALIGN - 1, computed in size_t.  Clearing the low four
bits of a natural below 2 ^ 64 is division and multiplication by 16. -/
def ROUND_BYTES (x : Nat) : Nat :=
  (x + (ALIGN - 1)) % SIZE_T_MOD / ALIGN * ALIGN

/-- Block header of block.h: size_curr carries the two flag bits (bit 0
busy, bit 1 last) in its low bits exactly as the C packs them. -/
structure Block where
  size_curr : Nat
  size_prev : Nat
  offset : Nat
deriving Repr, DecidableEq

/-- Default header used for out-of-range list reads; theorems only read in
range, under their well-formedness hypotheses. -/
def dummy : Block := ⟨0, 0, 0⟩

/-- BLOCK_STRUCT_SIZE of block.h: sizeof of the three size_t fields is 24,
rounded up to ALIGN. -/
def BLOCK_STRUCT_SIZE : Nat := ROUND_BYTES 24

/-- Modelled from the spec: tree.h is not in src.  The size of the index
node embedded in the payload of a free block; a representative value (the
claims do not depend on it). -/
def sizeof_tree_node : Nat := 40

/-- BLOCK_SIZE_MIN of block.h: the index node size rounded up to ALIGN. -/
def BLOCK_SIZE_MIN : Nat := ROUND_BYTES sizeof_tree_node

/-- BLOCK_SIZE_MAX from allocator.c line 15. -/
def BLOCK_SIZE_MAX : Nat := ARENA_SIZE - BLOCK_STRUCT_SIZE

/-- block_get_size_curr: size_curr with both flag bits masked off.
Clearing bits 0 and 1 of a natural is subtraction of its remainder mod 4. -/
def block_get_size_curr (b : Block) : Nat :=
  b.size_curr - b.size_curr % 4

/-- block_get_flag_busy: bit 0 of size_curr. -/
def block_get_flag_busy (b : Block) : Bool :=
  b.size_curr % 2 == 1

/-- block_get_flag_last: bit 1 of size_curr. -/
def block_get_flag_last (b : Block) : Bool :=
  b.size_curr / 2 % 2 == 1

/-- block_get_flag_first: derived, size_prev equal to zero. -/
def block_get_flag_first (b : Block) : Bool :=
  b.size_prev == 0

/-- block_get_size_prev accessor. -/
def block_get_size_prev (b : Block) : Nat := b.size_prev

/-- block_get_offset accessor. -/
def block_get_offset (b : Block) : Nat := b.offset

/-- block_set_size_prev accessor. -/
def block_set_size_prev (b : Block) (s : Nat) : Block :=
  { b with size_prev := s }

/-- block_set_offset accessor. -/
def block_set_offset (b : Block) (o : Nat) : Block :=
  { b with offset := o }

/-- block_set_size_curr: the C keeps the two flag bits (size_curr mod 4)
and installs the new size with a bitwise or.  Every call site passes a size
that is a multiple of 4 (sizes are ALIGN-aligned and the header size is 32),
where the bitwise or is addition. -/
def block_set_size_curr (b : Block) (s : Nat) : Block :=
  { b with size_curr := s + b.size_curr % 4 }

/-- block_set_flag_busy: set bit 0. -/
def block_set_flag_busy (b : Block) : Block :=
  { b with size_curr := b.size_curr - b.size_curr % 2 + 1 }

/-- block_clr_flag_busy: clear bit 0. -/
def block_clr_flag_busy (b : Block) : Block :=
  { b with size_curr := b.size_curr - b.size_curr % 2 }

/-- block_set_flag_last: set bit 1. -/
def block_set_flag_last (b : Block) : Block :=
  { b with size_curr :=
      if b.size_curr / 2 % 2 == 1 then b.size_curr else b.size_curr + 2 }

/-- block_clr_flag_last: clear bit 1. -/
def block_clr_flag_last (b : Block) : Block :=
  { b with size_curr :=
      if b.size_curr / 2 % 2 == 1 then b.size_curr - 2 else b.size_curr }

/-- arena_init of block.h: a sole block spanning the whole arena payload,
first (size_prev 0, offset 0) and last; the busy flag is not set. -/
def arena_init (size : Nat) : Block :=
  block_set_flag_last ⟨size, 0, 0⟩

/-- Applies a function to the head of a list, if any; used for the C writes
through block_next into the following header. -/
def patchFirst (f : Block → Block) : List Block → List Block
  | [] => []
  | x :: xs => f x :: xs

/-- block_split of block.c, on the arena viewed as its list of headers.
Position i plays the role of the pointer to the block B; the element after
the freshly written remainder header plays block_next of the remainder.
The remainder header is created by block_init (both flags cleared) followed
by the size, size_prev and offset writes, hence the literal record.
Returns the updated arena and the remainder header when one was created. -/
def block_split (bs : List Block) (i : Nat) (s : Nat) :
    List Block × Option Block :=
  let B := bs.getD i dummy
  let B1 := block_set_flag_busy B
  let size_rest := block_get_size_curr B1 - s
  if BLOCK_STRUCT_SIZE + BLOCK_SIZE_MIN ≤ size_rest then
    let rest := size_rest - BLOCK_STRUCT_SIZE
    let B2 := block_set_size_curr B1 s
    let Br : Block := ⟨rest, s, block_get_offset B2 + s + BLOCK_STRUCT_SIZE⟩
    if block_get_flag_last B2 then
      (bs.take i ++ [block_clr_flag_last B2, block_set_flag_last Br]
        ++ bs.drop (i + 1),
       some (block_set_flag_last Br))
    else
      (bs.take i ++ [B2, Br]
        ++ patchFirst (fun n => block_set_size_prev n rest) (bs.drop (i + 1)),
       some Br)
  else
    (bs.take i ++ [B1] ++ bs.drop (i + 1), none)

/-- block_merge of block.c, on the arena list; merges the block at i with
its right neighbour at i + 1.  The asserts of the C (right neighbour not
busy and adjacent) become hypotheses of the theorems about it. -/
def block_merge (bs : List Block) (i : Nat) : List Block :=
  let B := bs.getD i dummy
  let Br := bs.getD (i + 1) dummy
  let size := block_get_size_curr B + block_get_size_curr Br
    + BLOCK_STRUCT_SIZE
  let B1 := block_set_size_curr B size
  if block_get_flag_last Br then
    bs.take i ++ [block_set_flag_last B1] ++ bs.drop (i + 2)
  else
    bs.take i ++ [B1]
      ++ patchFirst (fun n => block_set_size_prev n size) (bs.drop (i + 2))

/-- block_dontneed of block.c.  Returns the page range handed to
kernel_reset as a pair of byte offsets from the arena start, or none when
the function returns without a kernel_reset call.  The size guard subtracts
in size_t and can wrap, which the explicit modulus keeps; the offset sums
stay inside the arena mapping for every well-formed block and are written
as plain naturals. -/
def block_dontneed (b : Block) : Option (Nat × Nat) :=
  let size_curr := block_get_size_curr b
  if (size_curr + (SIZE_T_MOD - sizeof_tree_node)) % SIZE_T_MOD
      < ALLOCATOR_PAGE_SIZE then
    none
  else
    let offset := block_get_offset b
    let offset1 := (offset + BLOCK_STRUCT_SIZE + sizeof_tree_node
        + (ALLOCATOR_PAGE_SIZE - 1)) / ALLOCATOR_PAGE_SIZE
        * ALLOCATOR_PAGE_SIZE
    let offset2 := (offset + size_curr + BLOCK_STRUCT_SIZE)
        / ALLOCATOR_PAGE_SIZE * ALLOCATOR_PAGE_SIZE
    if offset1 == offset2 then none
    else some (offset1, offset2)

/-- Location of a block: index of its arena in the state, and the byte
offset of its header inside the arena.  This is the model of a header
address; offsets of untouched blocks never change, exactly as addresses
never change in the C. -/
abbrev BlockLoc := Nat × Nat

/-- Entry of the size index: the node handle (block location) and the key
the node was inserted with (the block size at insertion time). -/
structure TreeEntry where
  loc : BlockLoc
  key : Nat
deriving Repr, DecidableEq

/-- Modelled from the spec: tree.h is not in src.  tree_find_best returns a
node of minimal key at least s, or none; among equal keys the model picks
the earliest inserted one (the spec allows any). -/
def tree_find_best (t : List TreeEntry) (s : Nat) : Option TreeEntry :=
  t.foldl (fun acc e =>
    if s ≤ e.key then
      match acc with
      | none => some e
      | some b => if e.key < b.key then some e else acc
    else acc) none

/-- Modelled from the spec: tree.h is not in src.  Insertion into the
ordered multiset; list order only resolves ties of tree_find_best. -/
def tree_add (t : List TreeEntry) (e : TreeEntry) : List TreeEntry :=
  t ++ [e]

/-- Modelled from the spec: tree.h is not in src.  Removal by node handle,
here by block location; in every reachable state a block is in the index at
most once. -/
def tree_remove (t : List TreeEntry) (loc : BlockLoc) : List TreeEntry :=
  t.filter (fun e => e.loc ≠ loc)

/-- The allocator state: the arenas obtained from the page provider (a
released arena becomes none, so later indices keep their meaning) and the
process-wide size index blocks_tree of allocator.c. -/
structure AllocState where
  arenas : List (Option (List Block))
  tree : List TreeEntry
deriving Repr, DecidableEq

/-- Page provider and memcpy events of one operation, in program order. -/
inductive KEvent
  | kalloc (size : Nat) (ok : Bool)
  | kfree (size : Nat)
  | kreset (len : Nat)
  | kcopy (len : Nat)
deriving Repr, DecidableEq

/-- A pointer value returned to the caller.  bogus is block_to_payload
applied to a null block pointer: the C computes the non-null invalid
address BLOCK_STRUCT_SIZE (undefined behaviour), which mem_alloc produces
on its oversized path when the mapping fails. -/
inductive Ptr
  | null
  | bogus
  | mk (arena : Nat) (off : Nat)
deriving Repr, DecidableEq

/-- Result of one allocator operation: returned pointer, next state, and
the provider and copy events the operation performed. -/
structure OpResult where
  ret : Ptr
  st : AllocState
  events : List KEvent
deriving Repr, DecidableEq

/-- payload_to_block of block.h: the position of the header with the given
offset inside an arena list. -/
def blockIdx (bs : List Block) (off : Nat) : Nat :=
  bs.findIdx (fun b => b.offset == off)

/-- arena_alloc of allocator.c: one kernel_alloc of either the requested
size (when it exceeds BLOCK_SIZE_MAX) or the full default ARENA_SIZE, then
arena_init over the payload.  Returns the blocks of the fresh arena, or
none on soft out-of-memory, together with the provider event. -/
def arena_alloc (oom : Bool) (size : Nat) : Option (List Block) × KEvent :=
  if BLOCK_SIZE_MAX < size then
    if oom then (none, .kalloc size false)
    else (some [arena_init (size - BLOCK_STRUCT_SIZE)], .kalloc size true)
  else
    if oom then (none, .kalloc ARENA_SIZE false)
    else (some [arena_init (ARENA_SIZE - BLOCK_STRUCT_SIZE)],
      .kalloc ARENA_SIZE true)

/-- mem_alloc of allocator.c.  On the oversized path the C computes
arena_size by rounding ROUND_BYTES of the request DOWN to a multiple of the
page size and adding one header, and returns block_to_payload of the
arena_alloc result without a null check, hence the bogus pointer on a
failed mapping.  The normal path clamps to BLOCK_SIZE_MIN, aligns, asks the
index for a best fit, falls back to a fresh default arena, splits, and
indexes the remainder. -/
def mem_alloc (st : AllocState) (oom : Bool) (size : Nat) : OpResult :=
  if BLOCK_SIZE_MAX < size then
    if SIZE_MAX - (ALIGN - 1) < size then
      ⟨.null, st, []⟩
    else
      let arena_size := ROUND_BYTES size / ALLOCATOR_PAGE_SIZE
        * ALLOCATOR_PAGE_SIZE + BLOCK_STRUCT_SIZE
      match arena_alloc oom arena_size with
      | (none, ev) => ⟨.bogus, st, [ev]⟩
      | (some bs, ev) =>
        ⟨.mk st.arenas.length 0,
         { st with arenas := st.arenas ++ [some bs] }, [ev]⟩
  else
    let size1 := if size < BLOCK_SIZE_MIN then BLOCK_SIZE_MIN else size
    let aligned_size := ROUND_BYTES size1
    match tree_find_best st.tree aligned_size with
    | none =>
      match arena_alloc oom aligned_size with
      | (none, ev) => ⟨.null, st, [ev]⟩
      | (some bs0, ev) =>
        let a := st.arenas.length
        let pr := block_split bs0 0 aligned_size
        let t1 := match pr.2 with
          | some r => tree_add st.tree ⟨(a, r.offset), block_get_size_curr r⟩
          | none => st.tree
        ⟨.mk a 0, ⟨st.arenas ++ [some pr.1], t1⟩, [ev]⟩
    | some e =>
      let t0 := tree_remove st.tree e.loc
      let a := e.loc.1
      let off := e.loc.2
      let bs := (st.arenas.getD a none).getD []
      let i := blockIdx bs off
      let pr := block_split bs i aligned_size
      let t1 := match pr.2 with
        | some r => tree_add t0 ⟨(a, r.offset), block_get_size_curr r⟩
        | none => t0
      ⟨.mk a off, ⟨st.arenas.set a (some pr.1), t1⟩, []⟩

/-- The right-coalescing phase of mem_free: merge with the next block
when the current block is not last in its arena and that neighbour is
free, dropping the neighbour from the size index. -/
def free_step1 (a : Nat) (t : List TreeEntry) (B0 : Block)
    (bs1 : List Block) (i : Nat) : List Block × List TreeEntry :=
  if !block_get_flag_last B0 then
    let Br := bs1.getD (i + 1) dummy
    if !block_get_flag_busy Br then
      (block_merge bs1 i, tree_remove t (a, Br.offset))
    else (bs1, t)
  else (bs1, t)

/-- The left-coalescing phase of mem_free: merge with the previous block
when the current block is not first in its arena and the previous block is
free, dropping that neighbour from the index and moving the working index
one to the left. -/
def free_step2 (a : Nat) (s : List Block × List TreeEntry)
    (i : Nat) : List Block × List TreeEntry × Nat :=
  if !block_get_flag_first (s.1.getD i dummy) then
    let Bl := s.1.getD (i - 1) dummy
    if !block_get_flag_busy Bl then
      (block_merge s.1 (i - 1), tree_remove s.2 (a, Bl.offset), i - 1)
    else (s.1, s.2, i)
  else (s.1, s.2, i)

/-- The final phase of mem_free: a block that is both first and last has
its whole arena returned to the page provider; any other block is
page-trimmed by block_dontneed and inserted into the size index. -/
def free_final (st : AllocState) (a : Nat)
    (q : List Block × List TreeEntry × Nat) : OpResult :=
  let B := q.1.getD q.2.2 dummy
  if block_get_flag_first B && block_get_flag_last B then
    ⟨.null, ⟨st.arenas.set a none, q.2.1⟩, [.kfree ARENA_SIZE]⟩
  else
    let ev := match block_dontneed B with
      | some r => [KEvent.kreset (r.2 - r.1)]
      | none => []
    ⟨.null,
     ⟨st.arenas.set a (some q.1),
      tree_add q.2.1 ⟨(a, B.offset), block_get_size_curr B⟩⟩, ev⟩

/-- mem_free of allocator.c.  A null pointer is a no-op; the bogus pointer
and a pointer into a released arena are undefined behaviour in the C and
are modelled as no-ops (no theorem relies on those cases).  Otherwise the
busy flag is cleared, an oversized block returns its whole mapping, and a
normal block goes through the right-merge, left-merge and release-or-index
phases spelled out by free_step1, free_step2 and free_final above. -/
def mem_free (st : AllocState) (p : Ptr) : OpResult :=
  match p with
  | .null => ⟨.null, st, []⟩
  | .bogus => ⟨.null, st, []⟩
  | .mk a off =>
    match st.arenas.getD a none with
    | none => ⟨.null, st, []⟩
    | some bs =>
      let i := blockIdx bs off
      let B0 := block_clr_flag_busy (bs.getD i dummy)
      if BLOCK_SIZE_MAX < block_get_size_curr B0 then
        ⟨.null, ⟨st.arenas.set a none, st.tree⟩,
         [.kfree (block_get_size_curr B0 + BLOCK_STRUCT_SIZE)]⟩
      else
        let bs1 := bs.take i ++ [B0] ++ bs.drop (i + 1)
        free_final st a (free_step2 a (free_step1 a st.tree B0 bs1 i) i)

/-- The move path of mem_realloc (label move_large_block of allocator.c):
allocate a block of the already normalised size, and unless the result
compares equal to the null pointer, copy the smaller of the old and new
sizes and free the old pointer.  The C checks only against null, so the
bogus pointer of a failed oversized mapping passes the check. -/
def movePath (st : AllocState) (p : Ptr) (oom : Bool)
    (size size_curr : Nat) : OpResult :=
  let r := mem_alloc st oom size
  if r.ret == Ptr.null then ⟨Ptr.null, r.st, r.events⟩
  else
    let f := mem_free r.st p
    ⟨r.ret, f.st,
     r.events ++ [KEvent.kcopy (if size_curr < size then size_curr else size)]
       ++ f.events⟩

/-- The request normalisation at the top of mem_realloc: clamp to
BLOCK_SIZE_MIN, then ROUND_BYTES (which wraps in size_t for requests within
ALIGN - 1 of SIZE_MAX, exactly as the C does). -/
def normalizeSize (size : Nat) : Nat :=
  ROUND_BYTES (if size < BLOCK_SIZE_MIN then BLOCK_SIZE_MIN else size)

/-- mem_realloc of allocator.c.  Null input delegates to mem_alloc of the
normalised size.  A shrink of a non-last block splits and, when a remainder
exists, merges it into a free right neighbour, indexes it and returns the
input pointer; a shrink of a last block, or one whose split yields no
remainder, falls through to the move path.  A grow merges a sufficient free
right neighbour and splits; otherwise it moves.  The bogus pointer and a
pointer into a released arena are undefined behaviour, modelled as no-ops. -/
def mem_realloc (st : AllocState) (p : Ptr) (oom : Bool)
    (size0 : Nat) : OpResult :=
  let size := normalizeSize size0
  match p with
  | .null => mem_alloc st oom size
  | .bogus => ⟨.null, st, []⟩
  | .mk a off =>
    match st.arenas.getD a none with
    | none => ⟨.null, st, []⟩
    | some bs =>
      let i := blockIdx bs off
      let block1 := bs.getD i dummy
      let size_curr := block_get_size_curr block1
      if BLOCK_SIZE_MAX < size_curr then
        if size == size_curr then ⟨p, st, []⟩
        else movePath st p oom size size_curr
      else
        if size == size_curr then ⟨p, st, []⟩
        else
          if size < size_curr && !block_get_flag_last block1 then
            let pr := block_split bs i size
            match pr.2 with
            | some _ =>
              let bn := pr.1.getD (i + 2) dummy
              let step :=
                if !block_get_flag_busy bn then
                  (block_merge pr.1 (i + 1), tree_remove st.tree (a, bn.offset))
                else (pr.1, st.tree)
              let br2 := step.1.getD (i + 1) dummy
              ⟨p, ⟨st.arenas.set a (some step.1),
                   tree_add step.2 ⟨(a, br2.offset), block_get_size_curr br2⟩⟩,
               []⟩
            | none =>
              movePath ⟨st.arenas.set a (some pr.1), st.tree⟩ p oom
                size size_curr
          else
            if size_curr < size && !block_get_flag_last block1 then
              let br := bs.getD (i + 1) dummy
              if !block_get_flag_busy br then
                let total_size := size_curr + block_get_size_curr br
                  + BLOCK_STRUCT_SIZE
                if size ≤ total_size then
                  let t0 := tree_remove st.tree (a, br.offset)
                  let bs1 := block_merge bs i
                  let pr := block_split bs1 i size
                  let t1 := match pr.2 with
                    | some bn =>
                      tree_add t0 ⟨(a, bn.offset), block_get_size_curr bn⟩
                    | none => t0
                  ⟨p, ⟨st.arenas.set a (some pr.1), t1⟩, []⟩
                else movePath st p oom size size_curr
              else movePath st p oom size size_curr
            else movePath st p oom size size_curr

/-- The initial allocator state: no arenas, empty size index. -/
def emptyState : AllocState := ⟨[], []⟩

/-- Spec invariant 3: no two adjacent free blocks inside one arena. -/
def noAdjB : List Block → Bool
  | a :: b :: r =>
    (block_get_flag_busy a || block_get_flag_busy b) && noAdjB (b :: r)
  | _ => true

/-- Layout well-formedness of the tail of an arena starting at byte offset
off, after a block of masked size sp (0 for the arena start): offsets are
contiguous, size_prev is the boundary tag of the left neighbour, exactly
the final block carries the last flag, and every size is at least
BLOCK_SIZE_MIN. -/
def wfChain : Nat → Nat → List Block → Bool
  | _, _, [] => false
  | off, sp, [b] =>
    (b.offset == off) && (b.size_prev == sp) && block_get_flag_last b
      && decide (BLOCK_SIZE_MIN ≤ block_get_size_curr b)
  | off, sp, b :: c :: r =>
    (b.offset == off) && (b.size_prev == sp) && !block_get_flag_last b
      && decide (BLOCK_SIZE_MIN ≤ block_get_size_curr b)
      && wfChain (off + BLOCK_STRUCT_SIZE + block_get_size_curr b)
          (block_get_size_curr b) (c :: r)

/-- A non-last segment of an arena: like wfChain but every block is
interior, and the byte offset and boundary tag expected by the rest of the
arena are returned through the last two arguments. -/
def wfSeg : Nat → Nat → List Block → Nat → Nat → Bool
  | off, sp, [], off2, sp2 => (off2 == off) && (sp2 == sp)
  | off, sp, b :: r, off2, sp2 =>
    (b.offset == off) && (b.size_prev == sp) && !block_get_flag_last b
      && decide (BLOCK_SIZE_MIN ≤ block_get_size_curr b)
      && wfSeg (off + BLOCK_STRUCT_SIZE + block_get_size_curr b)
          (block_get_size_curr b) r off2 sp2

/-- End offset of an arena: one past the payload of its final block. -/
def endOffset (bs : List Block) : Nat :=
  match bs.getLast? with
  | some b => b.offset + BLOCK_STRUCT_SIZE + block_get_size_curr b
  | none => 0

/-- Well-formedness of one arena slot: a released arena is fine; a live
one is a well-formed chain from offset 0 with no adjacent free blocks, and
it is either filled to the default ARENA_SIZE or a sole-block arena whose
block has the busy flag clear: the oversized path hands those out (its
arena_init never sets busy), including the undersized ones produced by the
round-down slip. -/
def invArena (obs : Option (List Block)) : Bool :=
  match obs with
  | none => true
  | some bs =>
    wfChain 0 0 bs && noAdjB bs
      && (endOffset bs == ARENA_SIZE
          || (bs.length == 1
              && !block_get_flag_busy (bs.getD 0 dummy)))

/-- Validity of one index entry: it resolves to a live block whose offset
matches, whose busy flag is clear, and whose masked size is the stored key,
at most BLOCK_SIZE_MAX (spec invariants 4 and 5); moreover the arena it
lives in is a full default arena (the allocator only ever indexes blocks of
such arenas). -/
def treeEntryOK (st : AllocState) (e : TreeEntry) : Bool :=
  match st.arenas.getD e.loc.1 none with
  | none => false
  | some bs =>
    decide (blockIdx bs e.loc.2 < bs.length)
      && ((bs.getD (blockIdx bs e.loc.2) dummy).offset == e.loc.2)
      && !block_get_flag_busy (bs.getD (blockIdx bs e.loc.2) dummy)
      && (block_get_size_curr (bs.getD (blockIdx bs e.loc.2) dummy) == e.key)
      && decide (e.key ≤ BLOCK_SIZE_MAX)
      && (endOffset bs == ARENA_SIZE)

/-- The inductive allocator invariant: every arena slot is well formed and
every index entry is valid. -/
def inv (st : AllocState) : Bool :=
  st.arenas.all invArena && st.tree.all (treeEntryOK st)

/-- A caller pointer fit for free or realloc: null, or resolving inside a
live arena to a block whose busy flag is set (a pointer into a released
arena is also accepted: the model treats it as a no-op). -/
def ptrBusy (st : AllocState) (p : Ptr) : Bool :=
  match p with
  | .mk a off =>
    match st.arenas.getD a none with
    | none => true
    | some bs =>
      decide (blockIdx bs off < bs.length)
        && ((bs.getD (blockIdx bs off) dummy).offset == off)
        && block_get_flag_busy (bs.getD (blockIdx bs off) dummy)
  | _ => true

/-- The conclusion of spec invariant 3 over a whole state. -/
def noAdjAll (st : AllocState) : Bool :=
  st.arenas.all (fun obs =>
    match obs with
    | none => true
    | some bs => noAdjB bs)

/-! Helper lemmas about the packed header accessors. -/

theorem block_get_size_curr_mod4 (b : Block) :
    block_get_size_curr b % 4 = 0 := by
  simp only [block_get_size_curr]; omega

@[simp] theorem get_set_flag_busy (b : Block) :
    block_get_size_curr (block_set_flag_busy b) = block_get_size_curr b := by
  simp only [block_get_size_curr, block_set_flag_busy]; omega

@[simp] theorem busy_set_flag_busy (b : Block) :
    block_get_flag_busy (block_set_flag_busy b) = true := by
  simp only [block_get_flag_busy, block_set_flag_busy, beq_iff_eq]; omega

@[simp] theorem last_set_flag_busy (b : Block) :
    block_get_flag_last (block_set_flag_busy b) = block_get_flag_last b := by
  simp only [block_get_flag_last, block_set_flag_busy]
  congr 1
  omega

@[simp] theorem sp_set_flag_busy (b : Block) :
    (block_set_flag_busy b).size_prev = b.size_prev := rfl

@[simp] theorem off_set_flag_busy (b : Block) :
    (block_set_flag_busy b).offset = b.offset := rfl

@[simp] theorem get_clr_flag_busy (b : Block) :
    block_get_size_curr (block_clr_flag_busy b) = block_get_size_curr b := by
  simp only [block_get_size_curr, block_clr_flag_busy]; omega

@[simp] theorem busy_clr_flag_busy (b : Block) :
    block_get_flag_busy (block_clr_flag_busy b) = false := by
  simp only [block_get_flag_busy, block_clr_flag_busy]
  simp only [beq_eq_false_iff_ne, ne_eq]
  omega

@[simp] theorem last_clr_flag_busy (b : Block) :
    block_get_flag_last (block_clr_flag_busy b) = block_get_flag_last b := by
  simp only [block_get_flag_last, block_clr_flag_busy]
  congr 1
  omega

@[simp] theorem sp_clr_flag_busy (b : Block) :
    (block_clr_flag_busy b).size_prev = b.size_prev := rfl

@[simp] theorem off_clr_flag_busy (b : Block) :
    (block_clr_flag_busy b).offset = b.offset := rfl

@[simp] theorem get_set_flag_last (b : Block) :
    block_get_size_curr (block_set_flag_last b) = block_get_size_curr b := by
  simp only [block_get_size_curr, block_set_flag_last]
  split
  · rfl
  · rename_i h
    simp only [beq_iff_eq] at h
    omega

@[simp] theorem busy_set_flag_last (b : Block) :
    block_get_flag_busy (block_set_flag_last b) = block_get_flag_busy b := by
  simp only [block_get_flag_busy, block_set_flag_last]
  split
  · rfl
  · congr 1
    omega

@[simp] theorem last_set_flag_last (b : Block) :
    block_get_flag_last (block_set_flag_last b) = true := by
  simp only [block_get_flag_last, block_set_flag_last]
  split
  · assumption
  · rename_i h
    simp only [beq_iff_eq] at h ⊢
    omega

@[simp] theorem sp_set_flag_last (b : Block) :
    (block_set_flag_last b).size_prev = b.size_prev := rfl

@[simp] theorem off_set_flag_last (b : Block) :
    (block_set_flag_last b).offset = b.offset := rfl

@[simp] theorem get_clr_flag_last (b : Block) :
    block_get_size_curr (block_clr_flag_last b) = block_get_size_curr b := by
  simp only [block_get_size_curr, block_clr_flag_last]
  split
  · rename_i h
    simp only [beq_iff_eq] at h
    omega
  · rfl

@[simp] theorem busy_clr_flag_last (b : Block) :
    block_get_flag_busy (block_clr_flag_last b) = block_get_flag_busy b := by
  simp only [block_get_flag_busy, block_clr_flag_last]
  split
  · rename_i h
    simp only [beq_iff_eq] at h
    congr 1
    omega
  · rfl

@[simp] theorem last_clr_flag_last (b : Block) :
    block_get_flag_last (block_clr_flag_last b) = false := by
  simp only [block_get_flag_last, block_clr_flag_last]
  split
  · rename_i h
    simp only [beq_iff_eq] at h
    simp only [beq_eq_false_iff_ne, ne_eq]
    omega
  · rename_i h
    simpa using h

@[simp] theorem sp_clr_flag_last (b : Block) :
    (block_clr_flag_last b).size_prev = b.size_prev := rfl

@[simp] theorem off_clr_flag_last (b : Block) :
    (block_clr_flag_last b).offset = b.offset := rfl

theorem get_set_size_curr (b : Block) (s : Nat) (h4 : s % 4 = 0) :
    block_get_size_curr (block_set_size_curr b s) = s := by
  simp only [block_get_size_curr, block_set_size_curr]; omega

theorem busy_set_size_curr (b : Block) (s : Nat) (h4 : s % 4 = 0) :
    block_get_flag_busy (block_set_size_curr b s) = block_get_flag_busy b := by
  simp only [block_get_flag_busy, block_set_size_curr]
  congr 1
  omega

theorem last_set_size_curr (b : Block) (s : Nat) (h4 : s % 4 = 0) :
    block_get_flag_last (block_set_size_curr b s) = block_get_flag_last b := by
  simp only [block_get_flag_last, block_set_size_curr]
  congr 1
  omega

@[simp] theorem sp_set_size_curr (b : Block) (s : Nat) :
    (block_set_size_curr b s).size_prev = b.size_prev := rfl

@[simp] theorem off_set_size_curr (b : Block) (s : Nat) :
    (block_set_size_curr b s).offset = b.offset := rfl

@[simp] theorem get_set_size_prev (b : Block) (s : Nat) :
    block_get_size_curr (block_set_size_prev b s) = block_get_size_curr b :=
  rfl

@[simp] theorem busy_set_size_prev (b : Block) (s : Nat) :
    block_get_flag_busy (block_set_size_prev b s) = block_get_flag_busy b :=
  rfl

@[simp] theorem last_set_size_prev (b : Block) (s : Nat) :
    block_get_flag_last (block_set_size_prev b s) = block_get_flag_last b :=
  rfl

@[simp] theorem sp_set_size_prev (b : Block) (s : Nat) :
    (block_set_size_prev b s).size_prev = s := rfl

@[simp] theorem off_set_size_prev (b : Block) (s : Nat) :
    (block_set_size_prev b s).offset = b.offset := rfl

theorem get_arena_init (s : Nat) (h4 : s % 4 = 0) :
    block_get_size_curr (arena_init s) = s := by
  rw [arena_init, get_set_flag_last]
  simp only [block_get_size_curr]
  omega

theorem busy_arena_init (s : Nat) (h4 : s % 4 = 0) :
    block_get_flag_busy (arena_init s) = false := by
  rw [arena_init, busy_set_flag_last]
  simp only [block_get_flag_busy, beq_eq_false_iff_ne, ne_eq]
  omega

@[simp] theorem last_arena_init (s : Nat) :
    block_get_flag_last (arena_init s) = true := by
  simp only [arena_init, last_set_flag_last]

@[simp] theorem sp_arena_init (s : Nat) : (arena_init s).size_prev = 0 :=
  rfl

@[simp] theorem off_arena_init (s : Nat) : (arena_init s).offset = 0 := rfl

/-! List access lemmas used by the arena surgery proofs. -/

theorem getD_append_add {α : Type} (u w : List α) (k : Nat) (d : α) :
    (u ++ w).getD (u.length + k) d = w.getD k d := by
  induction u with
  | nil => simp
  | cons a u ih =>
    simp only [List.cons_append, List.length_cons]
    rw [Nat.add_right_comm, List.getD_cons_succ, ih]

theorem getD_append_len {α : Type} (u w : List α) (d : α) :
    (u ++ w).getD u.length d = w.getD 0 d := by
  have := getD_append_add u w 0 d
  simpa using this

theorem getD_append_lt {α : Type} (u w : List α) (n : Nat) (d : α)
    (h : n < u.length) : (u ++ w).getD n d = u.getD n d := by
  induction u generalizing n with
  | nil => simp at h
  | cons a u ih =>
    cases n with
    | zero => simp
    | succ n =>
      simp only [List.cons_append, List.getD_cons_succ]
      exact ih n (by simpa using h)

theorem take_append_len {α : Type} (u w : List α) :
    (u ++ w).take u.length = u := by
  induction u with
  | nil => simp
  | cons a u ih => simp [ih]

theorem drop_append_len {α : Type} (u w : List α) :
    (u ++ w).drop u.length = w := by
  induction u with
  | nil => simp
  | cons a u ih => simp [ih]

theorem drop_append_succ {α : Type} (u : List α) (B : α) (w : List α) :
    (u ++ B :: w).drop (u.length + 1) = w := by
  induction u with
  | nil => simp
  | cons a u ih =>
    simp only [List.cons_append, List.length_cons]
    rw [Nat.add_right_comm, List.drop_succ_cons, ih]

theorem set_flag_busy_id (b : Block) (h : block_get_flag_busy b = true) :
    block_set_flag_busy b = b := by
  cases b with
  | mk sc sp o =>
    simp only [block_get_flag_busy, beq_iff_eq] at h
    simp only [block_set_flag_busy, Block.mk.injEq]
    refine ⟨by omega, by trivial, by trivial⟩

theorem getD_lt_length {α : Type} (l : List (Option α)) (a : Nat) (x : α)
    (h : l.getD a none = some x) : a < l.length := by
  by_contra hc
  rw [List.getD_eq_default] at h
  · cases h
  · omega

theorem set_getD_self {α : Type} (l : List α) (a : Nat) (d : α)
    (h : a < l.length) : l.set a (l.getD a d) = l := by
  induction l generalizing a with
  | nil => simp at h
  | cons x xs ih =>
    cases a with
    | zero => simp
    | succ a =>
      simp only [List.getD_cons_succ, List.set_cons_succ, List.cons.injEq,
        true_and]
      exact ih a (by simpa using h)

theorem busy_mk (sc sp o : Nat) :
    block_get_flag_busy ⟨sc, sp, o⟩ = (sc % 2 == 1) := rfl

theorem last_mk (sc sp o : Nat) :
    block_get_flag_last ⟨sc, sp, o⟩ = (sc / 2 % 2 == 1) := rfl

theorem get_mk (sc sp o : Nat) :
    block_get_size_curr ⟨sc, sp, o⟩ = sc - sc % 4 := rfl

theorem drop_append_add {α : Type} (u w : List α) (k : Nat) :
    (u ++ w).drop (u.length + k) = w.drop k := by
  induction u with
  | nil => simp
  | cons a u ih =>
    simp only [List.cons_append, List.length_cons]
    rw [Nat.add_right_comm, List.drop_succ_cons, ih]

theorem decompose_at {α : Type} (bs : List α) (i : Nat) (d : α)
    (h : i < bs.length) :
    bs = bs.take i ++ bs.getD i d :: bs.drop (i + 1) := by
  induction bs generalizing i with
  | nil => simp at h
  | cons a u ih =>
    cases i with
    | zero => simp
    | succ i =>
      simp only [List.take_succ_cons, List.getD_cons_succ,
        List.drop_succ_cons, List.cons_append, List.cons.injEq, true_and]
      exact ih i (by simpa using h)

theorem patchFirst_getD_zero (f : Block → Block) (w : List Block)
    (hw : w ≠ []) (d : Block) :
    (patchFirst f w).getD 0 d = f (w.getD 0 d) := by
  cases w with
  | nil => exact absurd rfl hw
  | cons x xs => rfl

theorem patchFirst_getD_succ (f : Block → Block) (w : List Block)
    (k : Nat) (d : Block) :
    (patchFirst f w).getD (k + 1) d = w.getD (k + 1) d := by
  cases w with
  | nil => rfl
  | cons x xs => rfl

theorem patchFirst_length (f : Block → Block) (w : List Block) :
    (patchFirst f w).length = w.length := by
  cases w <;> rfl

theorem getD_mem_of_lt {α : Type} (l : List α) (j : Nat) (d : α)
    (h : j < l.length) : l.getD j d ∈ l := by
  induction l generalizing j with
  | nil => simp at h
  | cons a l ih =>
    cases j with
    | zero => simp
    | succ j =>
      simp only [List.getD_cons_succ]
      exact List.mem_cons_of_mem a (ih j (by simpa using h))

theorem getD_set_ne {α : Type} (l : List α) (a b : Nat) (x : α) (d : α)
    (h : a ≠ b) : (l.set a x).getD b d = l.getD b d := by
  induction l generalizing a b with
  | nil => simp
  | cons y l ih =>
    cases a with
    | zero =>
      cases b with
      | zero => exact absurd rfl h
      | succ b => rfl
    | succ a =>
      cases b with
      | zero => rfl
      | succ b =>
        simp only [List.set_cons_succ, List.getD_cons_succ]
        exact ih a b (by omega)

theorem getD_set_self {α : Type} (l : List α) (a : Nat) (x : α) (d : α)
    (h : a < l.length) : (l.set a x).getD a d = x := by
  induction l generalizing a with
  | nil => simp at h
  | cons y l ih =>
    cases a with
    | zero => rfl
    | succ a =>
      simp only [List.set_cons_succ, List.getD_cons_succ]
      exact ih a (by simpa using h)

theorem noAdjB_cons_cons (a b : Block) (r : List Block) :
    noAdjB (a :: b :: r) = true
      ↔ (block_get_flag_busy a = true ∨ block_get_flag_busy b = true)
        ∧ noAdjB (b :: r) = true := by
  simp [noAdjB, Bool.and_eq_true, Bool.or_eq_true]

theorem noAdjB_append_iff (u v : List Block) :
    noAdjB (u ++ v) = true
      ↔ noAdjB u = true ∧ noAdjB v = true
        ∧ (∀ x, u.getLast? = some x → ∀ y, v.head? = some y →
            block_get_flag_busy x = true ∨ block_get_flag_busy y = true) := by
  induction u with
  | nil => simp [noAdjB]
  | cons a u ih =>
    cases u with
    | nil =>
      cases v with
      | nil => simp [noAdjB]
      | cons b v' =>
        rw [show ([a] ++ b :: v' : List Block) = a :: b :: v' by simp]
        rw [noAdjB_cons_cons]
        constructor
        · rintro ⟨h1, h2⟩
          refine ⟨rfl, h2, ?_⟩
          intro x hx y hy
          rw [List.getLast?_singleton] at hx
          rw [List.head?_cons] at hy
          injection hx with hx
          injection hy with hy
          rw [← hx, ← hy]
          exact h1
        · rintro ⟨_, h2, h3⟩
          refine ⟨?_, h2⟩
          exact h3 a (by rw [List.getLast?_singleton]) b
            (by rw [List.head?_cons])
    | cons c u' =>
      simp only [List.cons_append, noAdjB_cons_cons] at *
      rw [ih]
      simp only [List.getLast?_cons_cons]
      tauto

theorem wfChain_single_iff (off sp : Nat) (b : Block) :
    wfChain off sp [b] = true
      ↔ b.offset = off ∧ b.size_prev = sp ∧ block_get_flag_last b = true
        ∧ BLOCK_SIZE_MIN ≤ block_get_size_curr b := by
  simp [wfChain, Bool.and_eq_true]
  tauto

theorem wfChain_cons_ne (off sp : Nat) (b : Block) (l : List Block)
    (hl : l ≠ []) :
    wfChain off sp (b :: l) = true
      ↔ b.offset = off ∧ b.size_prev = sp ∧ block_get_flag_last b = false
        ∧ BLOCK_SIZE_MIN ≤ block_get_size_curr b
        ∧ wfChain (off + BLOCK_STRUCT_SIZE + block_get_size_curr b)
            (block_get_size_curr b) l = true := by
  cases l with
  | nil => exact absurd rfl hl
  | cons c r =>
    simp [wfChain, Bool.and_eq_true]
    tauto

theorem wfSeg_nil_iff (off sp off2 sp2 : Nat) :
    wfSeg off sp [] off2 sp2 = true ↔ off2 = off ∧ sp2 = sp := by
  simp [wfSeg, Bool.and_eq_true]

theorem wfSeg_cons_iff (off sp off2 sp2 : Nat) (b : Block)
    (r : List Block) :
    wfSeg off sp (b :: r) off2 sp2 = true
      ↔ b.offset = off ∧ b.size_prev = sp ∧ block_get_flag_last b = false
        ∧ BLOCK_SIZE_MIN ≤ block_get_size_curr b
        ∧ wfSeg (off + BLOCK_STRUCT_SIZE + block_get_size_curr b)
            (block_get_size_curr b) r off2 sp2 = true := by
  simp [wfSeg, Bool.and_eq_true]
  tauto

theorem wfChain_append_iff (u v : List Block) (off sp : Nat)
    (hv : v ≠ []) :
    wfChain off sp (u ++ v) = true
      ↔ ∃ off2 sp2, wfSeg off sp u off2 sp2 = true
          ∧ wfChain off2 sp2 v = true := by
  induction u generalizing off sp with
  | nil =>
    simp only [List.nil_append, wfSeg_nil_iff]
    constructor
    · intro h
      exact ⟨off, sp, ⟨rfl, rfl⟩, h⟩
    · rintro ⟨o2, s2, ⟨rfl, rfl⟩, h⟩
      exact h
  | cons b u ih =>
    have hne : u ++ v ≠ [] := by
      intro h
      rcases List.append_eq_nil.mp h with ⟨_, h2⟩
      exact hv h2
    rw [List.cons_append, wfChain_cons_ne _ _ _ _ hne]
    constructor
    · rintro ⟨ho, hsp, hl, hm, hch⟩
      rcases (ih _ _).mp hch with ⟨o2, s2, hseg, hch2⟩
      exact ⟨o2, s2, (wfSeg_cons_iff _ _ _ _ _ _).mpr
        ⟨ho, hsp, hl, hm, hseg⟩, hch2⟩
    · rintro ⟨o2, s2, hseg, hch2⟩
      rcases (wfSeg_cons_iff _ _ _ _ _ _).mp hseg with
        ⟨ho, hsp, hl, hm, hseg2⟩
      exact ⟨ho, hsp, hl, hm, (ih _ _).mpr ⟨o2, s2, hseg2, hch2⟩⟩

theorem wfChain_ne_nil (off sp : Nat) (bs : List Block)
    (h : wfChain off sp bs = true) : bs ≠ [] := by
  intro hbs
  subst hbs
  simp [wfChain] at h

theorem wfChain_offset_le (off sp : Nat) (bs : List Block)
    (h : wfChain off sp bs = true) : ∀ b ∈ bs, off ≤ b.offset := by
  induction bs generalizing off sp with
  | nil => intro b hb; simp at hb
  | cons a l ih =>
    intro b hb
    rcases List.mem_cons.mp hb with rfl | hb2
    · cases l with
      | nil => exact ((wfChain_single_iff _ _ _).mp h).1 ▸ Nat.le_refl _
      | cons c r => exact ((wfChain_cons_ne _ _ _ _ (by simp)).mp h).1
          ▸ Nat.le_refl _
    · have hl : l ≠ [] := by
        intro h2
        subst h2
        simp at hb2
      rcases (wfChain_cons_ne _ _ _ _ hl).mp h with ⟨_, _, _, _, hch⟩
      have := ih _ _ hch b hb2
      omega

theorem wfChain_mem_min (off sp : Nat) (bs : List Block)
    (h : wfChain off sp bs = true) :
    ∀ b ∈ bs, BLOCK_SIZE_MIN ≤ block_get_size_curr b := by
  induction bs generalizing off sp with
  | nil => intro b hb; simp at hb
  | cons a l ih =>
    intro b hb
    rcases List.mem_cons.mp hb with rfl | hb2
    · cases l with
      | nil => exact ((wfChain_single_iff _ _ _).mp h).2.2.2
      | cons c r => exact ((wfChain_cons_ne _ _ _ _ (by simp)).mp h).2.2.2.1
    · have hl : l ≠ [] := by
        intro h2; subst h2; simp at hb2
      rcases (wfChain_cons_ne _ _ _ _ hl).mp h with ⟨_, _, _, _, hch⟩
      exact ih _ _ hch b hb2

theorem blockIdx_getD (off sp : Nat) (bs : List Block)
    (h : wfChain off sp bs = true) (j : Nat) (hj : j < bs.length) :
    blockIdx bs ((bs.getD j dummy).offset) = j := by
  induction bs generalizing off sp j with
  | nil => simp at hj
  | cons a l ih =>
    cases j with
    | zero =>
      simp [blockIdx, List.findIdx_cons]
    | succ j =>
      have hjl : j < l.length := by simpa using hj
      have hl : l ≠ [] := by
        intro h2
        subst h2
        simp at hjl
      rcases (wfChain_cons_ne _ _ _ _ hl).mp h with ⟨ho, _, _, _, hch⟩
      have hmem : l.getD j dummy ∈ l := getD_mem_of_lt l j dummy hjl
      have hlb := wfChain_offset_le _ _ l hch _ hmem
      have hne : (a.offset == ((a :: l).getD (j + 1) dummy).offset)
          = false := by
        simp only [List.getD_cons_succ]
        have hBSS : (0 : Nat) < BLOCK_STRUCT_SIZE := by decide
        simp only [beq_eq_false_iff_ne, ne_eq]
        omega
      simp only [blockIdx, List.findIdx_cons, List.getD_cons_succ] at *
      rw [hne]
      simp only [cond_false]
      rw [ih _ _ hch j hjl]

theorem wfChain_end_le (off sp : Nat) (bs : List Block)
    (h : wfChain off sp bs = true) :
    ∀ j, j < bs.length →
      (bs.getD j dummy).offset + BLOCK_STRUCT_SIZE
        + block_get_size_curr (bs.getD j dummy) ≤ endOffset bs := by
  induction bs generalizing off sp with
  | nil => intro j hj; simp at hj
  | cons a l ih =>
    intro j hj
    cases l with
    | nil =>
      have hj0 : j = 0 := by simp at hj; omega
      subst hj0
      simp [endOffset]
    | cons c r =>
      rcases (wfChain_cons_ne _ _ _ _ (by simp)).mp h with
        ⟨ho, _, _, _, hch⟩
      have hend : endOffset (a :: c :: r) = endOffset (c :: r) := by
        simp [endOffset, List.getLast?_cons_cons]
      rw [hend]
      cases j with
      | zero =>
        have hc0 : (c :: r).getD 0 dummy = c := rfl
        have h0 := ih _ _ hch 0 (by simp)
        rcases List.mem_cons.mp (List.mem_cons_self c r) with _ | _
        all_goals
          have hcoff : c.offset = off + BLOCK_STRUCT_SIZE
              + block_get_size_curr a := by
            cases r with
            | nil => exact ((wfChain_single_iff _ _ _).mp hch).1
            | cons d r' => exact ((wfChain_cons_ne _ _ _ _ (by simp)).mp
                hch).1
          simp only [List.getD_cons_zero] at *
          omega
      | succ j =>
        exact ih _ _ hch j (by simpa using hj)

theorem wfChain_last_iff (off sp : Nat) (bs : List Block)
    (h : wfChain off sp bs = true) :
    ∀ j, j < bs.length →
      (block_get_flag_last (bs.getD j dummy) = true
        ↔ j = bs.length - 1) := by
  induction bs generalizing off sp with
  | nil => intro j hj; simp at hj
  | cons a l ih =>
    intro j hj
    cases l with
    | nil =>
      have hj0 : j = 0 := by simp at hj; omega
      subst hj0
      simp only [List.getD_cons_zero, List.length_singleton]
      exact ⟨fun _ => trivial, fun _ => ((wfChain_single_iff _ _ _).mp h).2.2.1⟩
    | cons c r =>
      rcases (wfChain_cons_ne _ _ _ _ (by simp)).mp h with
        ⟨_, _, hlast, _, hch⟩
      cases j with
      | zero =>
        simp only [List.getD_cons_zero, hlast, List.length_cons]
        constructor
        · intro hx
          cases hx
        · intro hx
          exfalso
          omega
      | succ j =>
        have hthis := ih _ _ hch j (by simpa using hj)
        simp only [List.getD_cons_succ, List.length_cons] at hthis ⊢
        rw [hthis]
        omega

theorem wfChain_interior_sp (off sp : Nat) (bs : List Block)
    (h : wfChain off sp bs = true) :
    ∀ j, 0 < j → j < bs.length →
      BLOCK_SIZE_MIN ≤ (bs.getD j dummy).size_prev := by
  induction bs generalizing off sp with
  | nil => intro j _ hj; simp at hj
  | cons a l ih =>
    intro j hj0 hj
    have hjl : j - 1 < l.length := by simp at hj; omega
    have hl : l ≠ [] := by
      intro h2; subst h2; simp at hjl
    rcases (wfChain_cons_ne _ _ _ _ hl).mp h with ⟨_, _, _, hmin, hch⟩
    cases j with
    | zero => omega
    | succ j =>
      simp only [List.getD_cons_succ]
      cases j with
      | zero =>
        cases l with
        | nil => exact absurd rfl hl
        | cons c r =>
          have hcsp : c.size_prev = block_get_size_curr a := by
            cases r with
            | nil => exact ((wfChain_single_iff _ _ _).mp hch).2.1
            | cons d r' =>
              exact ((wfChain_cons_ne _ _ _ _ (by simp)).mp hch).2.1
          simp only [List.getD_cons_zero, hcsp]
          exact hmin
      | succ j =>
        exact ih _ _ hch (j + 1) (by omega) (by simpa using hj)

theorem wfChain_head_sp (off sp : Nat) (bs : List Block)
    (h : wfChain off sp bs = true) : (bs.getD 0 dummy).size_prev = sp := by
  cases bs with
  | nil => simp [wfChain] at h
  | cons a l =>
    cases l with
    | nil => exact ((wfChain_single_iff _ _ _).mp h).2.1
    | cons c r => exact ((wfChain_cons_ne _ _ _ _ (by simp)).mp h).2.1

theorem wfChain_head_off (off sp : Nat) (bs : List Block)
    (h : wfChain off sp bs = true) : (bs.getD 0 dummy).offset = off := by
  cases bs with
  | nil => simp [wfChain] at h
  | cons a l =>
    cases l with
    | nil => exact ((wfChain_single_iff _ _ _).mp h).1
    | cons c r => exact ((wfChain_cons_ne _ _ _ _ (by simp)).mp h).1

theorem tree_find_best_mem (t : List TreeEntry) (s : Nat) (e : TreeEntry)
    (h : tree_find_best t s = some e) : e ∈ t ∧ s ≤ e.key := by
  have haux : ∀ (l : List TreeEntry) acc x,
      (l.foldl (fun acc e =>
        if s ≤ e.key then
          match acc with
          | none => some e
          | some b => if e.key < b.key then some e else acc
        else acc) acc) = some x
      → acc = some x ∨ (x ∈ l ∧ s ≤ x.key) := by
    intro l
    induction l with
    | nil => intro acc x h2; exact Or.inl h2
    | cons a l ih =>
      intro acc x h2
      simp only [List.foldl_cons] at h2
      rcases ih _ x h2 with h1 | h3
      · by_cases hs : s ≤ a.key
        · rw [if_pos hs] at h1
          cases acc with
          | none =>
            dsimp only at h1
            injection h1 with h1
            subst h1
            exact Or.inr ⟨List.mem_cons_self _ _, hs⟩
          | some b =>
            dsimp only at h1
            by_cases hk : a.key < b.key
            · rw [if_pos hk] at h1
              injection h1 with h1
              subst h1
              exact Or.inr ⟨List.mem_cons_self _ _, hs⟩
            · rw [if_neg hk] at h1
              exact Or.inl h1
        · rw [if_neg hs] at h1
          exact Or.inl h1
      · exact Or.inr ⟨List.mem_cons_of_mem _ h3.1, h3.2⟩
  rw [tree_find_best] at h
  rcases haux t none e h with h1 | h2
  · cases h1
  · exact h2

theorem tree_remove_mem (t : List TreeEntry) (loc : BlockLoc)
    (e : TreeEntry) (h : e ∈ tree_remove t loc) : e ∈ t ∧ e.loc ≠ loc := by
  rw [tree_remove, List.mem_filter] at h
  simpa using h

theorem tree_add_mem (t : List TreeEntry) (x e : TreeEntry)
    (h : e ∈ tree_add t x) : e ∈ t ∨ e = x := by
  rw [tree_add, List.mem_append] at h
  simpa using h

theorem treeEntryOK_of_resolve (ar : List (Option (List Block)))
    (t : List TreeEntry) (e : TreeEntry) (bs' : List Block) (j : Nat)
    (harena : ar.getD e.loc.1 none = some bs')
    (hwf : wfChain 0 0 bs' = true)
    (hj : j < bs'.length)
    (hoff : (bs'.getD j dummy).offset = e.loc.2)
    (hbusy : block_get_flag_busy (bs'.getD j dummy) = false)
    (hkey : block_get_size_curr (bs'.getD j dummy) = e.key)
    (hmax : e.key ≤ BLOCK_SIZE_MAX)
    (hendb : endOffset bs' = ARENA_SIZE) :
    treeEntryOK ⟨ar, t⟩ e = true := by
  have hidx : blockIdx bs' e.loc.2 = j := by
    rw [← hoff]
    exact blockIdx_getD 0 0 bs' hwf j hj
  simp only [treeEntryOK, harena, hidx]
  simp only [Bool.and_eq_true, decide_eq_true_eq, beq_iff_eq,
    Bool.not_eq_true']
  exact ⟨⟨⟨⟨⟨hj, hoff⟩, hbusy⟩, hkey⟩, hmax⟩, hendb⟩

theorem treeEntryOK_elim (st : AllocState) (e : TreeEntry)
    (h : treeEntryOK st e = true) :
    ∃ bs, st.arenas.getD e.loc.1 none = some bs
      ∧ blockIdx bs e.loc.2 < bs.length
      ∧ (bs.getD (blockIdx bs e.loc.2) dummy).offset = e.loc.2
      ∧ block_get_flag_busy (bs.getD (blockIdx bs e.loc.2) dummy) = false
      ∧ block_get_size_curr (bs.getD (blockIdx bs e.loc.2) dummy) = e.key
      ∧ e.key ≤ BLOCK_SIZE_MAX
      ∧ endOffset bs = ARENA_SIZE := by
  cases hbs : st.arenas.getD e.loc.1 none with
  | none =>
    unfold treeEntryOK at h
    rw [hbs] at h
    dsimp only at h
    cases h
  | some bs =>
    refine ⟨bs, rfl, ?_⟩
    unfold treeEntryOK at h
    rw [hbs] at h
    dsimp only at h
    simp only [Bool.and_eq_true, decide_eq_true_eq, beq_iff_eq,
      Bool.not_eq_true'] at h
    tauto

theorem inv_elim (st : AllocState) (h : inv st = true) :
    (∀ oa ∈ st.arenas, invArena oa = true)
      ∧ (∀ e ∈ st.tree, treeEntryOK st e = true) := by
  rw [inv, Bool.and_eq_true, List.all_eq_true, List.all_eq_true] at h
  exact h

theorem inv_intro (st : AllocState)
    (h1 : ∀ oa ∈ st.arenas, invArena oa = true)
    (h2 : ∀ e ∈ st.tree, treeEntryOK st e = true) : inv st = true := by
  rw [inv, Bool.and_eq_true, List.all_eq_true, List.all_eq_true]
  exact ⟨h1, h2⟩

theorem invArena_some_iff (bs : List Block) :
    invArena (some bs) = true
      ↔ wfChain 0 0 bs = true ∧ noAdjB bs = true
        ∧ (endOffset bs = ARENA_SIZE
          ∨ (bs.length = 1
            ∧ block_get_flag_busy (bs.getD 0 dummy) = false)) := by
  simp [invArena, Bool.and_eq_true, Bool.or_eq_true]
  tauto

theorem treeEntryOK_set_arenas (st : AllocState) (a : Nat)
    (x : Option (List Block)) (t' : List TreeEntry) (e : TreeEntry)
    (hne : e.loc.1 ≠ a)
    (h : treeEntryOK st e = true) :
    treeEntryOK ⟨st.arenas.set a x, t'⟩ e = true := by
  simp only [treeEntryOK] at h ⊢
  rw [getD_set_ne _ a e.loc.1 x none (by omega)]
  exact h

theorem treeEntryOK_append_arenas (st : AllocState)
    (x : Option (List Block)) (t' : List TreeEntry) (e : TreeEntry)
    (h : treeEntryOK st e = true) :
    treeEntryOK ⟨st.arenas ++ [x], t'⟩ e = true := by
  rcases treeEntryOK_elim st e h with ⟨bs, hbs, _⟩
  have hlt := getD_lt_length _ _ _ hbs
  simp only [treeEntryOK] at h ⊢
  rw [getD_append_lt _ _ _ _ hlt]
  exact h

theorem inv_update_arena (st : AllocState) (a : Nat) (bs3 : List Block)
    (t3 : List TreeEntry)
    (hInv : inv st = true)
    (harena3 : invArena (some bs3) = true)
    (htree3 : ∀ e ∈ t3,
      treeEntryOK ⟨st.arenas.set a (some bs3), t3⟩ e = true) :
    inv ⟨st.arenas.set a (some bs3), t3⟩ = true := by
  apply inv_intro
  · intro oa hoa
    rcases List.mem_or_eq_of_mem_set hoa with h1 | h2
    · exact (inv_elim st hInv).1 oa h1
    · rw [h2]
      exact harena3
  · exact htree3

theorem inv_release_arena (st : AllocState) (a : Nat)
    (t3 : List TreeEntry)
    (hInv : inv st = true)
    (htree3 : ∀ e ∈ t3, treeEntryOK ⟨st.arenas.set a none, t3⟩ e = true) :
    inv ⟨st.arenas.set a none, t3⟩ = true := by
  apply inv_intro
  · intro oa hoa
    rcases List.mem_or_eq_of_mem_set hoa with h1 | h2
    · exact (inv_elim st hInv).1 oa h1
    · rw [h2]
      rfl
  · exact htree3

theorem wfChain_head_congr (off sp : Nat) (B B' : Block) (v : List Block)
    (hoff : B'.offset = B.offset) (hsp : B'.size_prev = B.size_prev)
    (hlast : block_get_flag_last B' = block_get_flag_last B)
    (hget : block_get_size_curr B' = block_get_size_curr B)
    (h : wfChain off sp (B :: v) = true) :
    wfChain off sp (B' :: v) = true := by
  cases v with
  | nil =>
    rw [wfChain_single_iff] at h ⊢
    refine ⟨by rw [hoff]; exact h.1, by rw [hsp]; exact h.2.1,
      by rw [hlast]; exact h.2.2.1, by rw [hget]; exact h.2.2.2⟩
  | cons c r =>
    rw [wfChain_cons_ne _ _ _ _ (by simp)] at h ⊢
    refine ⟨by rw [hoff]; exact h.1, by rw [hsp]; exact h.2.1,
      by rw [hlast]; exact h.2.2.1, by rw [hget]; exact h.2.2.2.1,
      by rw [hget]; exact h.2.2.2.2⟩

theorem noAdjB_tail (B : Block) (v : List Block)
    (h : noAdjB (B :: v) = true) : noAdjB v = true := by
  cases v with
  | nil => rfl
  | cons c r => exact ((noAdjB_cons_cons _ _ _).mp h).2

theorem noAdjB_cons_of_busy (B' : Block) (v : List Block)
    (hb : block_get_flag_busy B' = true) (h : noAdjB v = true) :
    noAdjB (B' :: v) = true := by
  cases v with
  | nil => rfl
  | cons c r => exact (noAdjB_cons_cons _ _ _).mpr ⟨Or.inl hb, h⟩

theorem noAdjB_head_congr (B B' : Block) (v : List Block)
    (hb : block_get_flag_busy B' = block_get_flag_busy B)
    (h : noAdjB (B :: v) = true) : noAdjB (B' :: v) = true := by
  cases v with
  | nil => rfl
  | cons c r =>
    rcases (noAdjB_cons_cons _ _ _).mp h with ⟨h1, h2⟩
    exact (noAdjB_cons_cons _ _ _).mpr ⟨by rw [hb]; exact h1, h2⟩

theorem endOffset_append (u w : List Block) (hw : w ≠ []) :
    endOffset (u ++ w) = endOffset w := by
  unfold endOffset
  rw [List.getLast?_append_of_ne_nil u hw]

theorem endOffset_cons (b : Block) (l : List Block) (hl : l ≠ []) :
    endOffset (b :: l) = endOffset l := by
  have := endOffset_append [b] l hl
  simpa using this

theorem endOffset_single (b : Block) :
    endOffset [b] = b.offset + BLOCK_STRUCT_SIZE + block_get_size_curr b :=
  rfl

theorem endOffset_head_congr (B B' : Block) (v : List Block)
    (hoff : B'.offset = B.offset)
    (hget : block_get_size_curr B' = block_get_size_curr B) :
    endOffset (B' :: v) = endOffset (B :: v) := by
  cases v with
  | nil =>
    rw [endOffset_single, endOffset_single, hoff, hget]
  | cons c r =>
    rw [endOffset_cons B' (c :: r) (by simp), endOffset_cons B (c :: r)
      (by simp)]

theorem wfChain_patch_sp (off sp sp' : Nat) (n : Block)
    (v' : List Block) (h : wfChain off sp (n :: v') = true) :
    wfChain off sp' (block_set_size_prev n sp' :: v') = true := by
  cases v' with
  | nil =>
    rw [wfChain_single_iff] at h ⊢
    exact ⟨by rw [off_set_size_prev]; exact h.1, by rw [sp_set_size_prev],
      by rw [last_set_size_prev]; exact h.2.2.1,
      by rw [get_set_size_prev]; exact h.2.2.2⟩
  | cons c r =>
    rw [wfChain_cons_ne _ _ _ _ (by simp)] at h ⊢
    exact ⟨by rw [off_set_size_prev]; exact h.1, by rw [sp_set_size_prev],
      by rw [last_set_size_prev]; exact h.2.2.1,
      by rw [get_set_size_prev]; exact h.2.2.2.1,
      by rw [get_set_size_prev]; exact h.2.2.2.2⟩

theorem split_state_norem (u v : List Block) (B : Block) (s : Nat)
    (hwf : wfChain 0 0 (u ++ B :: v) = true)
    (hnadj : noAdjB (u ++ B :: v) = true)
    (hcond : block_get_size_curr B - s
      < BLOCK_STRUCT_SIZE + BLOCK_SIZE_MIN) :
    block_split (u ++ B :: v) u.length s
      = (u ++ block_set_flag_busy B :: v, none)
    ∧ wfChain 0 0 (u ++ block_set_flag_busy B :: v) = true
    ∧ noAdjB (u ++ block_set_flag_busy B :: v) = true
    ∧ endOffset (u ++ block_set_flag_busy B :: v)
      = endOffset (u ++ B :: v)
    ∧ (u ++ block_set_flag_busy B :: v).length
      = (u ++ B :: v).length := by
  have hgetB : (u ++ B :: v).getD u.length dummy = B := by
    rw [getD_append_len]; rfl
  have htake : (u ++ B :: v).take u.length = u := take_append_len u _
  have hdrop : (u ++ B :: v).drop (u.length + 1) = v := drop_append_succ u B v
  refine ⟨?_, ?_, ?_, ?_, by simp⟩
  · simp only [block_split, hgetB, get_set_flag_busy]
    rw [if_neg (by omega), htake, hdrop]
    simp
  · rcases (wfChain_append_iff u (B :: v) 0 0 (by simp)).mp hwf with
      ⟨o2, s2, hseg, hch⟩
    exact (wfChain_append_iff u _ 0 0 (by simp)).mpr
      ⟨o2, s2, hseg, wfChain_head_congr o2 s2 B _ v rfl rfl
        (last_set_flag_busy B) (get_set_flag_busy B) hch⟩
  · rcases (noAdjB_append_iff u (B :: v)).mp hnadj with ⟨h1, h2, _⟩
    refine (noAdjB_append_iff u _).mpr ⟨h1, ?_, ?_⟩
    · exact noAdjB_cons_of_busy _ v (busy_set_flag_busy B)
        (noAdjB_tail B v h2)
    · intro x _ y hy
      simp only [List.head?_cons] at hy
      injection hy with hy
      right
      rw [← hy]
      exact busy_set_flag_busy B
  · rw [endOffset_append u _ (by simp), endOffset_append u _ (by simp)]
    exact endOffset_head_congr B _ v rfl (get_set_flag_busy B)

theorem split_state_rem (u v : List Block) (B : Block) (s : Nat)
    (hwf : wfChain 0 0 (u ++ B :: v) = true)
    (s4 : s % 4 = 0) (hmin : BLOCK_SIZE_MIN ≤ s)
    (hcond : BLOCK_STRUCT_SIZE + BLOCK_SIZE_MIN
      ≤ block_get_size_curr B - s) :
    ∃ B2 Br,
      block_split (u ++ B :: v) u.length s
        = (u ++ B2 :: Br :: patchFirst
            (fun n => block_set_size_prev n
              (block_get_size_curr B - s - BLOCK_STRUCT_SIZE)) v,
           some Br)
      ∧ block_get_flag_busy B2 = true
      ∧ B2.offset = B.offset
      ∧ B2.size_prev = B.size_prev
      ∧ block_get_size_curr B2 = s
      ∧ block_get_flag_busy Br = false
      ∧ block_get_size_curr Br
        = block_get_size_curr B - s - BLOCK_STRUCT_SIZE
      ∧ Br.offset = B.offset + s + BLOCK_STRUCT_SIZE
      ∧ Br.size_prev = s
      ∧ wfChain 0 0 (u ++ B2 :: Br :: patchFirst
          (fun n => block_set_size_prev n
            (block_get_size_curr B - s - BLOCK_STRUCT_SIZE)) v) = true
      ∧ endOffset (u ++ B2 :: Br :: patchFirst
          (fun n => block_set_size_prev n
            (block_get_size_curr B - s - BLOCK_STRUCT_SIZE)) v)
        = endOffset (u ++ B :: v)
      ∧ (u ++ B2 :: Br :: patchFirst
          (fun n => block_set_size_prev n
            (block_get_size_curr B - s - BLOCK_STRUCT_SIZE)) v).length
        = (u ++ B :: v).length + 1 := by
  have hgetB : (u ++ B :: v).getD u.length dummy = B := by
    rw [getD_append_len]; rfl
  have htake : (u ++ B :: v).take u.length = u := take_append_len u _
  have hdrop : (u ++ B :: v).drop (u.length + 1) = v := drop_append_succ u B v
  have hB4 := block_get_size_curr_mod4 B
  have hBSS : BLOCK_STRUCT_SIZE = 32 := rfl
  have hMIN : BLOCK_SIZE_MIN = 48 := rfl
  have hrest4 : (block_get_size_curr B - s - BLOCK_STRUCT_SIZE) % 4 = 0 := by
    omega
  have hrestmin : BLOCK_SIZE_MIN
      ≤ block_get_size_curr B - s - BLOCK_STRUCT_SIZE := by omega
  rcases (wfChain_append_iff u (B :: v) 0 0 (by simp)).mp hwf with
    ⟨o2, s2, hseg, hch⟩
  cases hL : block_get_flag_last B with
  | true =>
    -- B is last, hence v is empty under the chain invariant
    have hv0 : v = [] := by
      cases v with
      | nil => rfl
      | cons c r =>
        rcases (wfChain_cons_ne o2 s2 B _ (by simp)).mp hch with
          ⟨_, _, hlf, _, _⟩
        rw [hL] at hlf
        cases hlf
    subst hv0
    rcases (wfChain_single_iff o2 s2 B).mp hch with ⟨hBo, hBsp, _, _⟩
    refine ⟨block_clr_flag_last (block_set_size_curr
        (block_set_flag_busy B) s),
      block_set_flag_last ⟨block_get_size_curr B - s - BLOCK_STRUCT_SIZE,
        s, block_get_offset (block_set_size_curr (block_set_flag_busy B) s)
          + s + BLOCK_STRUCT_SIZE⟩, ?_, ?_, ?_, ?_,
      ?_, ?_, ?_, ?_, ?_, ?_, ?_, ?_⟩
    · simp only [block_split, hgetB, get_set_flag_busy]
      rw [if_pos (by omega), htake, hdrop]
      rw [if_pos (by
        rw [last_set_size_curr _ _ s4, last_set_flag_busy]
        exact hL)]
      simp [patchFirst]
    · simp only [busy_clr_flag_last, busy_set_size_curr _ _ s4,
        busy_set_flag_busy]
    · rfl
    · rfl
    · rw [get_clr_flag_last, get_set_size_curr _ _ s4]
    · rw [busy_set_flag_last, busy_mk]
      simp only [beq_eq_false_iff_ne, ne_eq]
      omega
    · rw [get_set_flag_last, get_mk]
      omega
    · rfl
    · rfl
    · refine (wfChain_append_iff u _ 0 0 (by simp)).mpr ⟨o2, s2, hseg, ?_⟩
      rw [wfChain_cons_ne _ _ _ _ (by simp [patchFirst])]
      refine ⟨by simpa using hBo, by simpa using hBsp,
        by simp [last_clr_flag_last], ?_, ?_⟩
      · rw [get_clr_flag_last, get_set_size_curr _ _ s4]
        exact hmin
      · rw [get_clr_flag_last, get_set_size_curr _ _ s4]
        simp only [patchFirst]
        rw [wfChain_single_iff]
        refine ⟨?_, rfl, by rw [last_set_flag_last], ?_⟩
        · show block_get_offset (block_set_size_curr
            (block_set_flag_busy B) s) + s + BLOCK_STRUCT_SIZE
              = o2 + BLOCK_STRUCT_SIZE + s
          show B.offset + s + BLOCK_STRUCT_SIZE
            = o2 + BLOCK_STRUCT_SIZE + s
          omega
        · rw [get_set_flag_last, get_mk]
          omega
    · rw [endOffset_append u _ (by simp), endOffset_append u _ (by simp)]
      simp only [patchFirst]
      rw [endOffset_cons _ _ (by simp), endOffset_single, endOffset_single]
      simp only [get_set_flag_last, off_set_flag_last, get_mk,
        off_set_size_curr, off_set_flag_busy, get_clr_flag_last,
        get_set_size_curr _ _ s4, block_get_offset]
      simp only [block_get_size_curr] at hcond ⊢
      omega
    · simp [patchFirst]
  | false =>
    have hvne : v ≠ [] := by
      intro h0
      subst h0
      rcases (wfChain_single_iff o2 s2 B).mp hch with ⟨_, _, hlf, _⟩
      rw [hL] at hlf
      cases hlf
    cases v with
    | nil => exact absurd rfl hvne
    | cons n v' =>
      rcases (wfChain_cons_ne o2 s2 B _ (by simp)).mp hch with
        ⟨hBo, hBsp, _, _, hchn⟩
      refine ⟨block_set_size_curr (block_set_flag_busy B) s,
        ⟨block_get_size_curr B - s - BLOCK_STRUCT_SIZE, s,
          block_get_offset (block_set_size_curr (block_set_flag_busy B) s)
            + s + BLOCK_STRUCT_SIZE⟩, ?_, ?_, ?_, ?_,
        ?_, ?_, ?_, ?_, ?_, ?_, ?_, ?_⟩
      · simp only [block_split, hgetB, get_set_flag_busy]
        rw [if_pos (by omega), htake, hdrop]
        rw [if_neg (by
          rw [last_set_size_curr _ _ s4, last_set_flag_busy, hL]
          simp)]
        simp [List.append_assoc, List.cons_append]
      · rw [busy_set_size_curr _ _ s4, busy_set_flag_busy]
      · rfl
      · rfl
      · rw [get_set_size_curr _ _ s4]
      · rw [busy_mk]
        simp only [beq_eq_false_iff_ne, ne_eq]
        omega
      · rw [get_mk]
        omega
      · rfl
      · rfl
      · refine (wfChain_append_iff u _ 0 0 (by simp)).mpr ⟨o2, s2, hseg, ?_⟩
        rw [wfChain_cons_ne _ _ _ _ (by simp)]
        refine ⟨by simpa using hBo, by simpa using hBsp,
          by rw [last_set_size_curr _ _ s4, last_set_flag_busy, hL], ?_, ?_⟩
        · rw [get_set_size_curr _ _ s4]
          exact hmin
        · rw [get_set_size_curr _ _ s4]
          rw [wfChain_cons_ne _ _ _ _ (by simp [patchFirst])]
          refine ⟨?_, rfl, ?_, ?_, ?_⟩
          · show block_get_offset (block_set_size_curr
              (block_set_flag_busy B) s) + s + BLOCK_STRUCT_SIZE
                = o2 + BLOCK_STRUCT_SIZE + s
            show B.offset + s + BLOCK_STRUCT_SIZE
              = o2 + BLOCK_STRUCT_SIZE + s
            omega
          · rw [last_mk]
            simp only [beq_eq_false_iff_ne, ne_eq]
            omega
          · rw [get_mk]
            omega
          · rw [get_mk, hrest4, Nat.sub_zero]
            have harith : o2 + BLOCK_STRUCT_SIZE + s + BLOCK_STRUCT_SIZE
                + (block_get_size_curr B - s - BLOCK_STRUCT_SIZE)
                = o2 + BLOCK_STRUCT_SIZE + block_get_size_curr B := by
              omega
            rw [harith]
            exact wfChain_patch_sp _ _ _ n v' hchn
      · rw [endOffset_append u _ (by simp), endOffset_append u _ (by simp)]
        rw [show patchFirst (fun x => block_set_size_prev x
            (block_get_size_curr B - s - BLOCK_STRUCT_SIZE)) (n :: v')
            = block_set_size_prev n (block_get_size_curr B
              - s - BLOCK_STRUCT_SIZE) :: v' from rfl]
        rw [endOffset_cons _ _ (by simp), endOffset_cons _ _ (by simp)]
        rw [endOffset_cons B (n :: v') (by simp)]
        exact endOffset_head_congr n _ v' (off_set_size_prev n _)
          (get_set_size_prev n _)
      · simp only [patchFirst, List.length_append, List.length_cons]
        omega

theorem merge_state (u : List Block) (X N : Block) (v2 : List Block)
    (hwf : wfChain 0 0 (u ++ X :: N :: v2) = true) :
    ∃ X', block_merge (u ++ X :: N :: v2) u.length
        = u ++ X' :: patchFirst (fun m => block_set_size_prev m
            (block_get_size_curr X + block_get_size_curr N
              + BLOCK_STRUCT_SIZE)) v2
      ∧ X'.offset = X.offset
      ∧ X'.size_prev = X.size_prev
      ∧ block_get_flag_busy X' = block_get_flag_busy X
      ∧ block_get_size_curr X'
        = block_get_size_curr X + block_get_size_curr N + BLOCK_STRUCT_SIZE
      ∧ (block_get_flag_last X' = true ↔ v2 = [])
      ∧ wfChain 0 0 (u ++ X' :: patchFirst (fun m => block_set_size_prev m
            (block_get_size_curr X + block_get_size_curr N
              + BLOCK_STRUCT_SIZE)) v2) = true
      ∧ endOffset (u ++ X' :: patchFirst (fun m => block_set_size_prev m
            (block_get_size_curr X + block_get_size_curr N
              + BLOCK_STRUCT_SIZE)) v2)
        = endOffset (u ++ X :: N :: v2)
      ∧ (u ++ X' :: patchFirst (fun m => block_set_size_prev m
            (block_get_size_curr X + block_get_size_curr N
              + BLOCK_STRUCT_SIZE)) v2).length + 1
        = (u ++ X :: N :: v2).length := by
  have hgetX : (u ++ X :: N :: v2).getD u.length dummy = X := by
    rw [getD_append_len]; rfl
  have hgetN : (u ++ X :: N :: v2).getD (u.length + 1) dummy = N := by
    rw [getD_append_add]; rfl
  have htake : (u ++ X :: N :: v2).take u.length = u := take_append_len u _
  have hdrop : (u ++ X :: N :: v2).drop (u.length + 2) = v2 := by
    rw [drop_append_add]
    simp
  have hX4 := block_get_size_curr_mod4 X
  have hN4 := block_get_size_curr_mod4 N
  have hBSS : BLOCK_STRUCT_SIZE = 32 := rfl
  have hsz4 : (block_get_size_curr X + block_get_size_curr N
      + BLOCK_STRUCT_SIZE) % 4 = 0 := by omega
  rcases (wfChain_append_iff u (X :: N :: v2) 0 0 (by simp)).mp hwf with
    ⟨o2, s2, hseg, hch⟩
  rcases (wfChain_cons_ne o2 s2 X _ (by simp)).mp hch with
    ⟨hXo, hXsp, hXl, hXm, hchN⟩
  cases v2 with
  | nil =>
    rcases (wfChain_single_iff _ _ N).mp hchN with ⟨hNo, hNsp, hNl, hNm⟩
    refine ⟨block_set_flag_last (block_set_size_curr X
        (block_get_size_curr X + block_get_size_curr N
          + BLOCK_STRUCT_SIZE)),
      ?_, ?_, ?_, ?_, ?_, ?_, ?_, ?_, ?_⟩
    · simp only [block_merge, hgetX, hgetN, htake, hdrop]
      rw [if_pos (by exact hNl)]
      simp [patchFirst]
    · rfl
    · rfl
    · rw [busy_set_flag_last, busy_set_size_curr _ _ hsz4]
    · rw [get_set_flag_last, get_set_size_curr _ _ hsz4]
    · simp [last_set_flag_last, patchFirst]
    · refine (wfChain_append_iff u _ 0 0 (by simp)).mpr ⟨o2, s2, hseg, ?_⟩
      simp only [patchFirst]
      rw [wfChain_single_iff]
      refine ⟨by simpa using hXo, by simpa using hXsp,
        by rw [last_set_flag_last], ?_⟩
      rw [get_set_flag_last, get_set_size_curr _ _ hsz4]
      omega
    · rw [endOffset_append u _ (by simp), endOffset_append u _ (by simp)]
      simp only [patchFirst]
      rw [endOffset_single, endOffset_cons _ _ (by simp), endOffset_single]
      rw [get_set_flag_last, get_set_size_curr _ _ hsz4]
      simp only [off_set_flag_last, off_set_size_curr]
      omega
    · simp [patchFirst]
  | cons m v3 =>
    rcases (wfChain_cons_ne _ _ N _ (by simp)).mp hchN with
      ⟨hNo, hNsp, hNl, hNm, hchm⟩
    refine ⟨block_set_size_curr X
        (block_get_size_curr X + block_get_size_curr N
          + BLOCK_STRUCT_SIZE),
      ?_, ?_, ?_, ?_, ?_, ?_, ?_, ?_, ?_⟩
    · simp only [block_merge, hgetX, hgetN, htake, hdrop]
      rw [if_neg (by rw [hNl]; simp)]
      simp [List.append_assoc, List.cons_append, patchFirst]
    · rfl
    · rfl
    · rw [busy_set_size_curr _ _ hsz4]
    · rw [get_set_size_curr _ _ hsz4]
    · rw [last_set_size_curr _ _ hsz4, hXl]
      simp
    · refine (wfChain_append_iff u _ 0 0 (by simp)).mpr ⟨o2, s2, hseg, ?_⟩
      rw [wfChain_cons_ne _ _ _ _ (by simp [patchFirst])]
      refine ⟨by simpa using hXo, by simpa using hXsp,
        by rw [last_set_size_curr _ _ hsz4]; exact hXl, ?_, ?_⟩
      · rw [get_set_size_curr _ _ hsz4]
        omega
      · rw [get_set_size_curr _ _ hsz4]
        simp only [patchFirst]
        have harith : o2 + BLOCK_STRUCT_SIZE + (block_get_size_curr X
            + block_get_size_curr N + BLOCK_STRUCT_SIZE)
            = o2 + BLOCK_STRUCT_SIZE + block_get_size_curr X
              + BLOCK_STRUCT_SIZE + block_get_size_curr N := by omega
        rw [harith]
        exact wfChain_patch_sp _ _ _ m v3 hchm
    · rw [endOffset_append u _ (by simp), endOffset_append u _ (by simp)]
      simp only [patchFirst]
      rw [endOffset_cons _ _ (by simp), endOffset_cons X _ (by simp),
        endOffset_cons N _ (by simp)]
      exact endOffset_head_congr m _ v3 (off_set_size_prev m _)
        (get_set_size_prev m _)
    · simp only [patchFirst, List.length_append, List.length_cons]
      omega

theorem noAdjB_mid (u w : List Block) (Y : Block)
    (hu : noAdjB u = true) (hw : noAdjB w = true)
    (hbl : ∀ x, u.getLast? = some x →
      block_get_flag_busy x = true ∨ block_get_flag_busy Y = true)
    (hbr : ∀ y, w.head? = some y →
      block_get_flag_busy Y = true ∨ block_get_flag_busy y = true) :
    noAdjB (u ++ Y :: w) = true := by
  refine (noAdjB_append_iff u _).mpr ⟨hu, ?_, ?_⟩
  · cases w with
    | nil => rfl
    | cons c r =>
      refine (noAdjB_cons_cons _ _ _).mpr ⟨?_, hw⟩
      exact hbr c (by rw [List.head?_cons])
  · intro x hx y hy
    simp only [List.head?_cons] at hy
    injection hy with hy
    rw [← hy]
    exact hbl x hx

theorem noAdjB_split_shape (u w : List Block) (B2 Br : Block)
    (hnu : noAdjB u = true) (hB2 : block_get_flag_busy B2 = true)
    (hw : noAdjB w = true)
    (hhead : ∀ y, w.head? = some y →
      block_get_flag_busy Br = true ∨ block_get_flag_busy y = true) :
    noAdjB (u ++ B2 :: Br :: w) = true := by
  refine noAdjB_mid u (Br :: w) B2 hnu ?_
    (fun x _ => Or.inr hB2) (fun y _ => Or.inl hB2)
  cases w with
  | nil => rfl
  | cons c r =>
    refine (noAdjB_cons_cons _ _ _).mpr ⟨?_, hw⟩
    exact hhead c (by rw [List.head?_cons])

theorem noAdjB_patchFirst (f : Block → Block)
    (hf : ∀ b, block_get_flag_busy (f b) = block_get_flag_busy b)
    (w : List Block) (h : noAdjB w = true) :
    noAdjB (patchFirst f w) = true := by
  cases w with
  | nil => rfl
  | cons c r =>
    simp only [patchFirst]
    exact noAdjB_head_congr c (f c) r (hf c) h

theorem head_busy_patchFirst (f : Block → Block)
    (hf : ∀ b, block_get_flag_busy (f b) = block_get_flag_busy b)
    (w : List Block)
    (hw : ∀ y, w.head? = some y → block_get_flag_busy y = true) :
    ∀ y, (patchFirst f w).head? = some y → block_get_flag_busy y = true := by
  intro y hy
  cases w with
  | nil => cases hy
  | cons c r =>
    simp only [patchFirst, List.head?_cons] at hy
    injection hy with hy
    rw [← hy, hf]
    exact hw c (by rw [List.head?_cons])

theorem zone_split (u mid w : List Block) (j : Nat)
    (hj : j < (u ++ (mid ++ w)).length) :
    (j < u.length)
    ∨ (∃ k, k < mid.length ∧ j = u.length + k
        ∧ (u ++ (mid ++ w)).getD j dummy = mid.getD k dummy)
    ∨ (∃ k, k < w.length ∧ j = u.length + mid.length + k
        ∧ (u ++ (mid ++ w)).getD j dummy = w.getD k dummy) := by
  simp only [List.length_append] at hj
  by_cases h1 : j < u.length
  · exact Or.inl h1
  · by_cases h2 : j < u.length + mid.length
    · refine Or.inr (Or.inl ⟨j - u.length, by omega, by omega, ?_⟩)
      rw [show j = u.length + (j - u.length) from by omega,
        getD_append_add]
      rw [getD_append_lt _ _ _ _ (by omega)]
      congr 1
      omega
    · refine Or.inr (Or.inr ⟨j - u.length - mid.length, by omega,
        by omega, ?_⟩)
      rw [show j = u.length + (mid.length + (j - u.length - mid.length))
        from by omega, getD_append_add]
      rw [getD_append_add]
      congr 1
      omega

theorem entry_transport (st : AllocState) (a : Nat) (bs bs3 : List Block)
    (t3 : List TreeEntry) (e : TreeEntry)
    (hbs : st.arenas.getD a none = some bs)
    (hwf3 : wfChain 0 0 bs3 = true)
    (hend3 : endOffset bs3 = ARENA_SIZE)
    (hold : treeEntryOK st e = true) (hea : e.loc.1 = a)
    (hmap : ∀ j, j < bs.length → (bs.getD j dummy).offset = e.loc.2 →
        block_get_flag_busy (bs.getD j dummy) = false →
        block_get_size_curr (bs.getD j dummy) = e.key →
        ∃ j', j' < bs3.length
          ∧ (bs3.getD j' dummy).offset = e.loc.2
          ∧ block_get_flag_busy (bs3.getD j' dummy) = false
          ∧ block_get_size_curr (bs3.getD j' dummy) = e.key) :
    treeEntryOK ⟨st.arenas.set a (some bs3), t3⟩ e = true := by
  rcases treeEntryOK_elim st e hold with
    ⟨bs0, hbs0, hlt, hoff, hbusy, hkey, hmax, _⟩
  rw [hea, hbs] at hbs0
  injection hbs0 with hbs0
  subst hbs0
  rcases hmap _ hlt hoff hbusy hkey with ⟨j', hj', ho', hb', hk'⟩
  refine treeEntryOK_of_resolve _ t3 e bs3 j' ?_ hwf3 hj' ho' hb' hk' hmax
    hend3
  rw [hea]
  exact getD_set_self _ _ _ _ (getD_lt_length _ _ _ hbs)

theorem first_clr_flag_busy (b : Block) :
    block_get_flag_first (block_clr_flag_busy b) = block_get_flag_first b :=
  rfl

theorem OpResult_st_ite (c : Prop) [Decidable c] (r1 r2 : OpResult) :
    (if c then r1 else r2).st = if c then r1.st else r2.st := by
  by_cases h : c
  · rw [if_pos h, if_pos h]
  · rw [if_neg h, if_neg h]

theorem getD_prefix_eq (p x y : List Block) (j : Nat) (hj : j < p.length) :
    (p ++ x).getD j dummy = (p ++ y).getD j dummy := by
  rw [getD_append_lt _ _ _ _ hj, getD_append_lt _ _ _ _ hj]

theorem endOffset_mid_congr (u v : List Block) (B B2 : Block)
    (hoff : B2.offset = B.offset)
    (hget : block_get_size_curr B2 = block_get_size_curr B) :
    endOffset (u ++ B2 :: v) = endOffset (u ++ B :: v) := by
  rw [endOffset_append u _ (by simp), endOffset_append u _ (by simp)]
  exact endOffset_head_congr B B2 v hoff hget

theorem wfChain_mid_congr (u v : List Block) (B B2 : Block)
    (hoff : B2.offset = B.offset) (hsp : B2.size_prev = B.size_prev)
    (hlast : block_get_flag_last B2 = block_get_flag_last B)
    (hget : block_get_size_curr B2 = block_get_size_curr B)
    (h : wfChain 0 0 (u ++ B :: v) = true) :
    wfChain 0 0 (u ++ B2 :: v) = true := by
  rcases (wfChain_append_iff u _ 0 0 (by simp)).mp h with ⟨o2, s2, hseg, hch⟩
  exact (wfChain_append_iff u _ 0 0 (by simp)).mpr
    ⟨o2, s2, hseg, wfChain_head_congr o2 s2 B B2 v hoff hsp hlast hget hch⟩

theorem tree_no_entry_at (st : AllocState) (a : Nat) (bs : List Block)
    (j : Nat) (C : Block)
    (hInv : inv st = true) (hbs : st.arenas.getD a none = some bs)
    (hwf : wfChain 0 0 bs = true) (hj : j < bs.length)
    (hC : bs.getD j dummy = C)
    (hbusy : block_get_flag_busy C = true) :
    ∀ e ∈ st.tree, e.loc ≠ (a, C.offset) := by
  intro e he hne
  have hOK := (inv_elim st hInv).2 e he
  rcases treeEntryOK_elim st e hOK with
    ⟨bs0, hbs0, hjlt, hoff0, hbusy0, _, _, _⟩
  have hl1 : e.loc.1 = a := by rw [hne]
  rw [hl1, hbs] at hbs0
  injection hbs0 with hbs0
  subst hbs0
  have hl2 : e.loc.2 = C.offset := by rw [hne]
  have hidx : blockIdx bs e.loc.2 = j := by
    rw [hl2, ← hC]
    exact blockIdx_getD 0 0 bs hwf j hj
  rw [hidx, hC] at hbusy0
  rw [hbusy0] at hbusy
  cases hbusy

theorem patchFirst_getD_pres (f : Block → Block)
    (hoff : ∀ b, (f b).offset = b.offset)
    (hbusy : ∀ b, block_get_flag_busy (f b) = block_get_flag_busy b)
    (hget : ∀ b, block_get_size_curr (f b) = block_get_size_curr b)
    (w : List Block) (k : Nat) :
    ((patchFirst f w).getD k dummy).offset = (w.getD k dummy).offset
    ∧ block_get_flag_busy ((patchFirst f w).getD k dummy)
      = block_get_flag_busy (w.getD k dummy)
    ∧ block_get_size_curr ((patchFirst f w).getD k dummy)
      = block_get_size_curr (w.getD k dummy) := by
  cases w with
  | nil => exact ⟨rfl, rfl, rfl⟩
  | cons b l =>
    cases k with
    | zero => exact ⟨hoff b, hbusy b, hget b⟩
    | succ k => exact ⟨rfl, rfl, rfl⟩

theorem free_entry_map (bs u0 w0 : List Block) (Y : Block)
    (lo c : Nat) (ex : List Nat)
    (hpre : ∀ j, j < u0.length →
      (u0 ++ Y :: w0).getD j dummy = bs.getD j dummy)
    (hsuf : ∀ k, lo + k < bs.length →
      c + k < w0.length
      ∧ (w0.getD (c + k) dummy).offset = (bs.getD (lo + k) dummy).offset
      ∧ block_get_flag_busy (w0.getD (c + k) dummy)
        = block_get_flag_busy (bs.getD (lo + k) dummy)
      ∧ block_get_size_curr (w0.getD (c + k) dummy)
        = block_get_size_curr (bs.getD (lo + k) dummy))
    (hmid : ∀ j, u0.length ≤ j → j < lo → j < bs.length →
      block_get_flag_busy (bs.getD j dummy) = true
        ∨ (bs.getD j dummy).offset ∈ ex)
    (j off0 key0 : Nat)
    (hj : j < bs.length)
    (hoffj : (bs.getD j dummy).offset = off0)
    (hbusyj : block_get_flag_busy (bs.getD j dummy) = false)
    (hkeyj : block_get_size_curr (bs.getD j dummy) = key0)
    (hexx : off0 ∉ ex) :
    ∃ j2, j2 < (u0 ++ Y :: w0).length
      ∧ ((u0 ++ Y :: w0).getD j2 dummy).offset = off0
      ∧ block_get_flag_busy ((u0 ++ Y :: w0).getD j2 dummy) = false
      ∧ block_get_size_curr ((u0 ++ Y :: w0).getD j2 dummy) = key0 := by
  by_cases h1 : j < u0.length
  · refine ⟨j, by simp only [List.length_append, List.length_cons]; omega, ?_⟩
    rw [hpre j h1]
    exact ⟨hoffj, hbusyj, hkeyj⟩
  · by_cases h2 : j < lo
    · rcases hmid j (by omega) h2 hj with hb | hoffex
      · rw [hbusyj] at hb
        cases hb
      · rw [hoffj] at hoffex
        exact absurd hoffex hexx
    · obtain ⟨k, hk⟩ : ∃ k, j = lo + k := ⟨j - lo, by omega⟩
      subst hk
      obtain ⟨hlt2, ho2, hb2, hg2⟩ := hsuf k hj
      refine ⟨u0.length + 1 + (c + k),
        by simp only [List.length_append, List.length_cons]; omega, ?_⟩
      have hgg : (u0 ++ Y :: w0).getD (u0.length + 1 + (c + k)) dummy
          = w0.getD (c + k) dummy := by
        rw [show u0.length + 1 + (c + k) = u0.length + (1 + (c + k))
          from by omega, getD_append_add,
          show 1 + (c + k) = (c + k) + 1 from Nat.add_comm 1 (c + k),
          List.getD_cons_succ]
      rw [hgg]
      exact ⟨by rw [ho2, hoffj], by rw [hb2, hbusyj], by rw [hg2, hkeyj]⟩

theorem free_ht2 (st : AllocState) (a : Nat) (bs : List Block)
    (u0 w0 : List Block) (Y : Block) (t2 : List TreeEntry)
    (lo c : Nat) (ex : List Nat)
    (hbs : st.arenas.getD a none = some bs)
    (hInv : inv st = true)
    (hwfF : wfChain 0 0 (u0 ++ Y :: w0) = true)
    (hendF : endOffset (u0 ++ Y :: w0) = ARENA_SIZE)
    (hpre : ∀ j, j < u0.length →
      (u0 ++ Y :: w0).getD j dummy = bs.getD j dummy)
    (hsuf : ∀ k, lo + k < bs.length →
      c + k < w0.length
      ∧ (w0.getD (c + k) dummy).offset = (bs.getD (lo + k) dummy).offset
      ∧ block_get_flag_busy (w0.getD (c + k) dummy)
        = block_get_flag_busy (bs.getD (lo + k) dummy)
      ∧ block_get_size_curr (w0.getD (c + k) dummy)
        = block_get_size_curr (bs.getD (lo + k) dummy))
    (hmid : ∀ j, u0.length ≤ j → j < lo → j < bs.length →
      block_get_flag_busy (bs.getD j dummy) = true
        ∨ (bs.getD j dummy).offset ∈ ex)
    (hsub : ∀ e ∈ t2, e ∈ st.tree)
    (hex : ∀ e ∈ t2, e.loc.1 = a → e.loc.2 ∉ ex) :
    ∀ e ∈ t2,
      treeEntryOK ⟨st.arenas.set a (some (u0 ++ Y :: w0)), t2⟩ e = true := by
  intro e he
  by_cases hea : e.loc.1 = a
  · refine entry_transport st a bs _ t2 e hbs hwfF hendF
      ((inv_elim st hInv).2 e (hsub e he)) hea ?_
    intro j hj hoffj hbusyj hkeyj
    exact free_entry_map bs u0 w0 Y lo c ex hpre hsuf hmid j e.loc.2 e.key
      hj hoffj hbusyj hkeyj (hex e he hea)
  · exact treeEntryOK_set_arenas st a (some _) t2 e hea
      ((inv_elim st hInv).2 e (hsub e he))

theorem free_finish (st : AllocState) (a : Nat)
    (u0 w0 : List Block) (Y : Block) (t2 : List TreeEntry)
    (halt : a < st.arenas.length)
    (hInv : inv st = true)
    (hwfF : wfChain 0 0 (u0 ++ Y :: w0) = true)
    (hbusyY : block_get_flag_busy Y = false)
    (hnu : noAdjB u0 = true) (hnw : noAdjB w0 = true)
    (hbl : ∀ x, u0.getLast? = some x → block_get_flag_busy x = true)
    (hbr : ∀ y, w0.head? = some y → block_get_flag_busy y = true)
    (hend : endOffset (u0 ++ Y :: w0) = ARENA_SIZE)
    (ht2 : ∀ e ∈ t2,
      treeEntryOK ⟨st.arenas.set a (some (u0 ++ Y :: w0)), t2⟩ e = true)
    (hYnot : ∀ e ∈ t2, e.loc ≠ (a, Y.offset)) :
    inv (if (block_get_flag_first Y && block_get_flag_last Y) = true then
        (⟨st.arenas.set a none, t2⟩ : AllocState)
      else ⟨st.arenas.set a (some (u0 ++ Y :: w0)),
        tree_add t2 ⟨(a, Y.offset), block_get_size_curr Y⟩⟩) = true := by
  have hlenF : (u0 ++ Y :: w0).length = u0.length + 1 + w0.length := by
    simp only [List.length_append, List.length_cons]
    omega
  have hYat : (u0 ++ Y :: w0).getD u0.length dummy = Y := by
    rw [getD_append_len]
    rfl
  have hgetYmax : block_get_size_curr Y ≤ BLOCK_SIZE_MAX := by
    have hle := wfChain_end_le 0 0 _ hwfF u0.length (by omega)
    rw [hYat, hend] at hle
    have hA : ARENA_SIZE = 65536 := rfl
    have hS : BLOCK_STRUCT_SIZE = 32 := rfl
    have hM : BLOCK_SIZE_MAX = 65504 := rfl
    omega
  by_cases hc : (block_get_flag_first Y && block_get_flag_last Y) = true
  · rw [if_pos hc]
    rw [Bool.and_eq_true] at hc
    obtain ⟨hcf, hcl⟩ := hc
    have hu0 : u0 = [] := by
      cases u0 with
      | nil => rfl
      | cons x xs =>
        exfalso
        have hYsp := wfChain_interior_sp 0 0 _ hwfF (x :: xs).length
          (by simp) (by rw [hlenF]; omega)
        rw [hYat] at hYsp
        have hsp0 : Y.size_prev = 0 := by
          simpa [block_get_flag_first] using hcf
        have hM : BLOCK_SIZE_MIN = 48 := rfl
        omega
    have hw0 : w0 = [] := by
      cases w0 with
      | nil => rfl
      | cons y ys =>
        exfalso
        have hiff := wfChain_last_iff 0 0 _ hwfF u0.length (by rw [hlenF]; omega)
        rw [hYat] at hiff
        have h2 := hiff.mp hcl
        rw [hlenF] at h2
        simp only [List.length_cons] at h2
        omega
    subst hu0
    subst hw0
    apply inv_release_arena st a t2 hInv
    intro e he
    by_cases hea : e.loc.1 = a
    · exfalso
      have hOK := ht2 e he
      rcases treeEntryOK_elim _ e hOK with
        ⟨bs0, hbs0, hjlt, hoff0, hbusy0, _, _, _⟩
      dsimp only at hbs0
      rw [hea, getD_set_self st.arenas a _ none halt] at hbs0
      injection hbs0 with hbs0
      have hj0 : blockIdx bs0 e.loc.2 = 0 := by
        have : bs0.length = 1 := by rw [← hbs0]; rfl
        omega
      rw [hj0] at hoff0
      have hoffY : Y.offset = e.loc.2 := by
        rw [← hbs0] at hoff0
        simpa using hoff0
      have hpair : e.loc = (e.loc.1, e.loc.2) := rfl
      exact hYnot e he (by rw [hpair, hea, ← hoffY])
    · have hOK := ht2 e he
      simp only [treeEntryOK] at hOK ⊢
      rw [getD_set_ne _ a e.loc.1 _ none (by omega)] at hOK ⊢
      exact hOK
  · rw [if_neg hc]
    apply inv_update_arena st a (u0 ++ Y :: w0) _ hInv
    · rw [invArena_some_iff]
      refine ⟨hwfF, ?_, Or.inl hend⟩
      exact noAdjB_mid u0 w0 Y hnu hnw (fun x hx => Or.inl (hbl x hx))
        (fun y hy => Or.inr (hbr y hy))
    · intro e he
      rcases tree_add_mem t2 _ e he with he2 | he3
      · exact ht2 e he2
      · subst he3
        refine treeEntryOK_of_resolve _ _ _ (u0 ++ Y :: w0) u0.length
          ?_ hwfF (by omega) ?_ ?_ ?_ hgetYmax hend
        · exact getD_set_self st.arenas a _ none halt
        · rw [hYat]
        · rw [hYat]
          exact hbusyY
        · rw [hYat]

theorem inv_noAdjAll (st : AllocState) (h : inv st = true) :
    noAdjAll st = true := by
  rw [noAdjAll, List.all_eq_true]
  intro oa hoa
  have h2 := (inv_elim st h).1 oa hoa
  cases oa with
  | none => rfl
  | some bs =>
    rw [invArena_some_iff] at h2
    exact h2.2.1

theorem invArena_fresh (s0 : Nat) (h4 : s0 % 4 = 0)
    (hmin : BLOCK_SIZE_MIN ≤ s0) :
    invArena (some [arena_init s0]) = true := by
  rw [invArena_some_iff]
  refine ⟨?_, rfl, Or.inr ⟨rfl, ?_⟩⟩
  · rw [wfChain_single_iff]
    refine ⟨rfl, rfl, ?_, ?_⟩
    · rw [arena_init]
      exact last_set_flag_last _
    · rw [get_arena_init s0 h4]
      exact hmin
  · exact busy_arena_init s0 h4

theorem inv_append_arena (st : AllocState) (x : Option (List Block))
    (hInv : inv st = true) (hx : invArena x = true) :
    inv ⟨st.arenas ++ [x], st.tree⟩ = true := by
  apply inv_intro
  · intro oa hoa
    rcases List.mem_append.mp hoa with h | h
    · exact (inv_elim st hInv).1 oa h
    · rw [List.mem_singleton.mp h]
      exact hx
  · intro e he
    exact treeEntryOK_append_arenas st x st.tree e
      ((inv_elim st hInv).2 e he)

theorem ptrBusy_of_resolve (st : AllocState) (a off : Nat)
    (bs3 : List Block)
    (hbs3 : st.arenas.getD a none = some bs3)
    (hwf3 : wfChain 0 0 bs3 = true)
    (j : Nat) (hj : j < bs3.length)
    (hoff : (bs3.getD j dummy).offset = off)
    (hbusy : block_get_flag_busy (bs3.getD j dummy) = true) :
    ptrBusy st (Ptr.mk a off) = true := by
  unfold ptrBusy
  dsimp only
  rw [hbs3]
  dsimp only
  have hidx : blockIdx bs3 off = j := by
    rw [← hoff]
    exact blockIdx_getD 0 0 bs3 hwf3 j hj
  rw [hidx]
  simp only [Bool.and_eq_true, decide_eq_true_eq, beq_iff_eq]
  exact ⟨⟨hj, hoff⟩, hbusy⟩

theorem getD_transport_ne (bs u0 w0 : List Block) (Y : Block) (c : Nat)
    (hpre : ∀ j, j < u0.length →
      (u0 ++ Y :: w0).getD j dummy = bs.getD j dummy)
    (hsuf : ∀ k, u0.length + 1 + k < bs.length →
      c + k < w0.length
      ∧ (w0.getD (c + k) dummy).offset
        = (bs.getD (u0.length + 1 + k) dummy).offset
      ∧ block_get_flag_busy (w0.getD (c + k) dummy)
        = block_get_flag_busy (bs.getD (u0.length + 1 + k) dummy)
      ∧ block_get_size_curr (w0.getD (c + k) dummy)
        = block_get_size_curr (bs.getD (u0.length + 1 + k) dummy))
    (j : Nat) (hj : j < bs.length) (hne : j ≠ u0.length) :
    ∃ j2, j2 < (u0 ++ Y :: w0).length
      ∧ ((u0 ++ Y :: w0).getD j2 dummy).offset = (bs.getD j dummy).offset
      ∧ block_get_flag_busy ((u0 ++ Y :: w0).getD j2 dummy)
        = block_get_flag_busy (bs.getD j dummy)
      ∧ block_get_size_curr ((u0 ++ Y :: w0).getD j2 dummy)
        = block_get_size_curr (bs.getD j dummy) := by
  by_cases h1 : j < u0.length
  · refine ⟨j, by simp only [List.length_append, List.length_cons]; omega,
      ?_⟩
    rw [hpre j h1]
    exact ⟨rfl, rfl, rfl⟩
  · obtain ⟨k, hk⟩ : ∃ k, j = u0.length + 1 + k :=
      ⟨j - u0.length - 1, by omega⟩
    subst hk
    obtain ⟨hlt2, ho2, hb2, hg2⟩ := hsuf k hj
    refine ⟨u0.length + 1 + (c + k),
      by simp only [List.length_append, List.length_cons]; omega, ?_⟩
    have hgg : (u0 ++ Y :: w0).getD (u0.length + 1 + (c + k)) dummy
        = w0.getD (c + k) dummy := by
      rw [show u0.length + 1 + (c + k) = u0.length + (1 + (c + k))
        from by omega, getD_append_add,
        show 1 + (c + k) = (c + k) + 1 from Nat.add_comm 1 (c + k),
        List.getD_cons_succ]
    rw [hgg]
    exact ⟨ho2, hb2, hg2⟩

theorem inv_arena_facts (st : AllocState) (a : Nat) (bs : List Block)
    (hInv : inv st = true) (hbs : st.arenas.getD a none = some bs) :
    wfChain 0 0 bs = true ∧ noAdjB bs = true
    ∧ (endOffset bs = ARENA_SIZE
       ∨ (bs.length = 1
          ∧ block_get_flag_busy (bs.getD 0 dummy) = false)) := by
  have ha := getD_lt_length _ _ _ hbs
  have hmem : some bs ∈ st.arenas := by
    have h2 := getD_mem_of_lt st.arenas a none ha
    rw [hbs] at h2
    exact h2
  have h2 := (inv_elim st hInv).1 (some bs) hmem
  rw [invArena_some_iff] at h2
  exact h2

theorem ptrBusy_resolve_inv (st : AllocState) (hInv : inv st = true) :
    ∀ a2 off2 bs2, st.arenas.getD a2 none = some bs2 →
      ∀ j2, j2 < bs2.length →
      (bs2.getD j2 dummy).offset = off2 →
      block_get_flag_busy (bs2.getD j2 dummy) = true →
      ptrBusy st (Ptr.mk a2 off2) = true := by
  intro a2 off2 bs2 hbs2 j2 hj2 hoff2 hbusy2
  exact ptrBusy_of_resolve st a2 off2 bs2 hbs2
    (inv_arena_facts st a2 bs2 hInv hbs2).1 j2 hj2 hoff2 hbusy2

/-- C9: a request above BLOCK_SIZE_MAX whose size plus alignment slack
would overflow size_t makes mem_alloc return null at once, with no page
provider call and the state unchanged. -/
theorem mem_alloc_overflow_guard (st : AllocState) (oom : Bool) (s : Nat)
    (h1 : BLOCK_SIZE_MAX < s) (h2 : SIZE_MAX - (ALIGN - 1) < s) :
    mem_alloc st oom s = ⟨Ptr.null, st, []⟩ := by
  unfold mem_alloc
  rw [if_pos h1, if_pos h2]

/-- Witness for C9: mem_alloc of SIZE_MAX returns null with no provider
event, from the initial state. -/
theorem mem_alloc_overflow_guard_witness :
    BLOCK_SIZE_MAX < SIZE_MAX ∧ SIZE_MAX - (ALIGN - 1) < SIZE_MAX ∧
      mem_alloc emptyState false SIZE_MAX = ⟨Ptr.null, emptyState, []⟩ :=
  ⟨by decide, by decide,
   mem_alloc_overflow_guard emptyState false SIZE_MAX (by decide) (by decide)⟩

/-- C1: the code, not the claim.  On the oversized path with a failed
mapping, mem_alloc returns block_to_payload of a null block pointer, which
is the non-null invalid address BLOCK_STRUCT_SIZE, instead of the null the
claim (and the comment above mem_alloc in allocator.c) promises; the
internal state is indeed unchanged. -/
theorem mem_alloc_oversized_oom_not_null :
    (mem_alloc emptyState true 100000).ret = Ptr.bogus ∧
    Ptr.bogus ≠ Ptr.null ∧
    (mem_alloc emptyState true 100000).st = emptyState := by
  decide

/-- C2: the code, not the claim.  For the oversized request 100000 the C
rounds ROUND_BYTES of the request DOWN to a page multiple before adding the
header: it asks the provider for 98336 bytes, strictly less than the
102432 the claim describes (100000 rounded up to pages plus one header),
and the single block it initialises has payload 98304 < 100000; its busy
flag is not even set. -/
theorem mem_alloc_oversized_truncates :
    (mem_alloc emptyState false 100000).events = [KEvent.kalloc 98336 true] ∧
    98336 < (100000 + (ALLOCATOR_PAGE_SIZE - 1)) / ALLOCATOR_PAGE_SIZE
      * ALLOCATOR_PAGE_SIZE + BLOCK_STRUCT_SIZE ∧
    block_get_size_curr
      ((((mem_alloc emptyState false 100000).st.arenas.getD 0 none).getD
        []).getD 0 dummy) = 98304 ∧
    98304 < 100000 ∧
    block_get_flag_busy
      ((((mem_alloc emptyState false 100000).st.arenas.getD 0 none).getD
        []).getD 0 dummy) = false := by
  decide

/-- C5: the code, not the claim.  After the single operation
mem_alloc (BLOCK_SIZE_MAX + 1) the caller holds a block whose busy flag is
clear and whose masked size is at most BLOCK_SIZE_MAX, yet the size index
is empty: the claimed index invariant is violated, because the oversized
path undersizes the arena and never sets the busy flag. -/
theorem mem_alloc_breaks_index_invariant :
    (mem_alloc emptyState false (BLOCK_SIZE_MAX + 1)).ret = Ptr.mk 0 0 ∧
    block_get_flag_busy
      ((((mem_alloc emptyState false
        (BLOCK_SIZE_MAX + 1)).st.arenas.getD 0 none).getD []).getD 0 dummy)
      = false ∧
    block_get_size_curr
      ((((mem_alloc emptyState false
        (BLOCK_SIZE_MAX + 1)).st.arenas.getD 0 none).getD []).getD 0 dummy)
      ≤ BLOCK_SIZE_MAX ∧
    (mem_alloc emptyState false (BLOCK_SIZE_MAX + 1)).st.tree = [] := by
  decide

/-- C8: the code, not the claim.  Reallocating an oversized block to a
larger oversized size while the provider is out of memory: the internal
mem_alloc fails but returns the non-null invalid pointer, so the C does not
return null with the original intact; it copies into the invalid pointer,
frees the original block, and returns the invalid pointer. -/
theorem mem_realloc_move_oom_not_null :
    (mem_realloc (mem_alloc emptyState false 100000).st (Ptr.mk 0 0)
      true 200000).ret = Ptr.bogus ∧
    Ptr.bogus ≠ Ptr.null ∧
    (mem_realloc (mem_alloc emptyState false 100000).st (Ptr.mk 0 0)
      true 200000).events
      = [KEvent.kalloc 196640 false, KEvent.kcopy 98304,
         KEvent.kfree 98336] ∧
    (mem_realloc (mem_alloc emptyState false 100000).st (Ptr.mk 0 0)
      true 200000).st.arenas = [none] := by
  decide

/-- C3 counterexample: a busy, last, non-oversized block of size 65504,
reallocated to the smaller normalised size 48, does NOT keep its pointer:
the code falls through to the move path and returns a pointer into a fresh
arena while the original arena is released. -/
theorem mem_realloc_shrink_last_not_in_place :
    block_get_flag_busy
      (((((mem_alloc emptyState false 65504).st.arenas.getD 0 none).getD
        []).getD 0 dummy)) = true ∧
    block_get_flag_last
      (((((mem_alloc emptyState false 65504).st.arenas.getD 0 none).getD
        []).getD 0 dummy)) = true ∧
    block_get_size_curr
      (((((mem_alloc emptyState false 65504).st.arenas.getD 0 none).getD
        []).getD 0 dummy)) ≤ BLOCK_SIZE_MAX ∧
    normalizeSize 16 < 65504 ∧
    (mem_realloc (mem_alloc emptyState false 65504).st (Ptr.mk 0 0)
      false 16).ret = Ptr.mk 1 0 ∧
    (mem_realloc (mem_alloc emptyState false 65504).st (Ptr.mk 0 0)
      false 16).ret ≠ Ptr.mk 0 0 ∧
    ((mem_realloc (mem_alloc emptyState false 65504).st (Ptr.mk 0 0)
      false 16).st.arenas.getD 0 none) = none := by
  decide

/-- C10: for every free block past the size guard of block_dontneed (its
masked size at least sizeof_tree_node + ALLOCATOR_PAGE_SIZE, sizes being
size_t values), the page-rounded lower offset never exceeds the upper one,
their difference is a page multiple (the internal assert), the lower offset
is at or beyond the end of the embedded index node, and equal offsets mean
no kernel_reset call; unequal ones are exactly the range it passes on. -/
theorem block_dontneed_range_safe (b : Block)
    (hsz : b.size_curr < SIZE_T_MOD)
    (hguard : sizeof_tree_node + ALLOCATOR_PAGE_SIZE
      ≤ block_get_size_curr b) :
    (block_get_offset b + BLOCK_STRUCT_SIZE + sizeof_tree_node
        + (ALLOCATOR_PAGE_SIZE - 1)) / ALLOCATOR_PAGE_SIZE
        * ALLOCATOR_PAGE_SIZE
      ≤ (block_get_offset b + block_get_size_curr b + BLOCK_STRUCT_SIZE)
        / ALLOCATOR_PAGE_SIZE * ALLOCATOR_PAGE_SIZE
    ∧ ((block_get_offset b + block_get_size_curr b + BLOCK_STRUCT_SIZE)
        / ALLOCATOR_PAGE_SIZE * ALLOCATOR_PAGE_SIZE
      - (block_get_offset b + BLOCK_STRUCT_SIZE + sizeof_tree_node
        + (ALLOCATOR_PAGE_SIZE - 1)) / ALLOCATOR_PAGE_SIZE
        * ALLOCATOR_PAGE_SIZE) % ALLOCATOR_PAGE_SIZE = 0
    ∧ block_get_offset b + BLOCK_STRUCT_SIZE + sizeof_tree_node
      ≤ (block_get_offset b + BLOCK_STRUCT_SIZE + sizeof_tree_node
        + (ALLOCATOR_PAGE_SIZE - 1)) / ALLOCATOR_PAGE_SIZE
        * ALLOCATOR_PAGE_SIZE
    ∧ ((block_get_offset b + BLOCK_STRUCT_SIZE + sizeof_tree_node
        + (ALLOCATOR_PAGE_SIZE - 1)) / ALLOCATOR_PAGE_SIZE
        * ALLOCATOR_PAGE_SIZE
      = (block_get_offset b + block_get_size_curr b + BLOCK_STRUCT_SIZE)
        / ALLOCATOR_PAGE_SIZE * ALLOCATOR_PAGE_SIZE
      → block_dontneed b = none)
    ∧ ((block_get_offset b + BLOCK_STRUCT_SIZE + sizeof_tree_node
        + (ALLOCATOR_PAGE_SIZE - 1)) / ALLOCATOR_PAGE_SIZE
        * ALLOCATOR_PAGE_SIZE
      ≠ (block_get_offset b + block_get_size_curr b + BLOCK_STRUCT_SIZE)
        / ALLOCATOR_PAGE_SIZE * ALLOCATOR_PAGE_SIZE
      → block_dontneed b
        = some ((block_get_offset b + BLOCK_STRUCT_SIZE + sizeof_tree_node
            + (ALLOCATOR_PAGE_SIZE - 1)) / ALLOCATOR_PAGE_SIZE
            * ALLOCATOR_PAGE_SIZE,
          (block_get_offset b + block_get_size_curr b + BLOCK_STRUCT_SIZE)
            / ALLOCATOR_PAGE_SIZE * ALLOCATOR_PAGE_SIZE)) := by
  have hBSS : BLOCK_STRUCT_SIZE = 32 := by decide
  have hnode : sizeof_tree_node = 40 := by decide
  have hpage : ALLOCATOR_PAGE_SIZE = 4096 := by decide
  have hmod : SIZE_T_MOD = 18446744073709551616 := by decide
  have hub : block_get_size_curr b ≤ b.size_curr := by
    simp only [block_get_size_curr]; omega
  have hg : ¬ ((block_get_size_curr b + (SIZE_T_MOD - sizeof_tree_node))
      % SIZE_T_MOD < ALLOCATOR_PAGE_SIZE) := by
    simp only [hnode, hpage, hmod] at hguard hsz ⊢
    omega
  refine ⟨?_, ?_, ?_, ?_, ?_⟩
  · simp only [hBSS, hnode, hpage] at hguard ⊢
    omega
  · simp only [hBSS, hnode, hpage] at hguard ⊢
    omega
  · simp only [hBSS, hnode, hpage] at hguard ⊢
    omega
  · intro heq
    simp only [block_dontneed]
    rw [if_neg hg, if_pos]
    simpa [block_get_offset] using heq
  · intro hne
    simp only [block_dontneed]
    rw [if_neg hg, if_neg]
    simpa [block_get_offset] using hne

/-- Witness for C10: a concrete free block of size 8240 at the arena
start; block_dontneed discards exactly the pages from 4096 to 8192. -/
theorem block_dontneed_range_safe_witness :
    block_dontneed ⟨8240, 0, 0⟩ = some (4096, 8192) :=
  (block_dontneed_range_safe ⟨8240, 0, 0⟩ (by decide)
    (by decide)).2.2.2.2 (by decide)

/-- C6: block_split of the block B at position i of its arena, for an
aligned size s at most the size of B, marks B busy; it returns a remainder
exactly when the size of B minus s is at least one header plus
BLOCK_SIZE_MIN, and then the remainder is free, carries the last flag of B
(which B loses), has size equal to the size of B minus s minus one header,
boundary tag s, offset that of B plus s plus one header, and when B was
not last the following block gets the remainder size as its boundary tag;
without a remainder the arena keeps B, merely marked busy, at its size. -/
theorem block_split_spec (u v : List Block) (B : Block) (s : Nat)
    (hal : s % ALIGN = 0)
    (hle : s ≤ block_get_size_curr B)
    (hlastT : block_get_flag_last B = true → v = [])
    (hlastF : block_get_flag_last B = false → v ≠ []) :
    block_get_flag_busy
      ((block_split (u ++ B :: v) u.length s).1.getD u.length dummy) = true
    ∧ ((block_split (u ++ B :: v) u.length s).2.isSome = true
        ↔ BLOCK_STRUCT_SIZE + BLOCK_SIZE_MIN ≤ block_get_size_curr B - s)
    ∧ (∀ Br, (block_split (u ++ B :: v) u.length s).2 = some Br →
        block_get_flag_busy Br = false
        ∧ block_get_flag_last Br = block_get_flag_last B
        ∧ block_get_flag_last
            ((block_split (u ++ B :: v) u.length s).1.getD u.length dummy)
          = false
        ∧ block_get_size_curr Br
          = block_get_size_curr B - s - BLOCK_STRUCT_SIZE
        ∧ block_get_size_prev Br = s
        ∧ block_get_offset Br = block_get_offset B + s + BLOCK_STRUCT_SIZE
        ∧ (block_get_flag_last B = false →
            block_get_size_prev
              ((block_split (u ++ B :: v) u.length s).1.getD
                (u.length + 2) dummy)
            = block_get_size_curr Br))
    ∧ ((block_split (u ++ B :: v) u.length s).2 = none →
        (block_split (u ++ B :: v) u.length s).1
          = u ++ block_set_flag_busy B :: v
        ∧ block_get_size_curr
            ((block_split (u ++ B :: v) u.length s).1.getD u.length dummy)
          = block_get_size_curr B) := by
  have h4 : s % 4 = 0 := by
    have h16 : ALIGN = 16 := rfl
    rw [h16] at hal
    omega
  have hB4 := block_get_size_curr_mod4 B
  have hgetB : (u ++ B :: v).getD u.length dummy = B := by
    rw [getD_append_len]; rfl
  have htake : (u ++ B :: v).take u.length = u := take_append_len u _
  have hdrop : (u ++ B :: v).drop (u.length + 1) = v := drop_append_succ u B v
  simp only [block_split, hgetB, get_set_flag_busy, htake, hdrop,
    last_set_size_curr _ _ h4, last_set_flag_busy]
  by_cases hrem : BLOCK_STRUCT_SIZE + BLOCK_SIZE_MIN
      ≤ block_get_size_curr B - s
  · simp only [if_pos hrem]
    have hrest2 : (block_get_size_curr B - s - BLOCK_STRUCT_SIZE) % 2 = 0 := by
      have hBSS : BLOCK_STRUCT_SIZE = 32 := rfl
      omega
    cases hL : block_get_flag_last B with
    | true =>
      have hv : v = [] := hlastT hL
      subst hv
      rw [if_pos (by trivial)]
      dsimp only
      simp only [List.append_nil]
      refine ⟨?_, ?_, ?_, ?_⟩
      · rw [getD_append_len]
        simp only [List.getD_cons_zero, busy_clr_flag_last,
          busy_set_size_curr _ _ h4, busy_set_flag_busy]
      · simp [hrem]
      · intro Br hBr
        injection hBr with hBr
        subst hBr
        refine ⟨?_, ?_, ?_, ?_, ?_, ?_, ?_⟩
        · rw [busy_set_flag_last, busy_mk,
            show (block_get_size_curr B - s - BLOCK_STRUCT_SIZE) % 2 = 0
              from hrest2]
          rfl
        · rw [last_set_flag_last]
        · rw [getD_append_len]
          simp only [List.getD_cons_zero, last_clr_flag_last]
        · rw [get_set_flag_last, get_mk]
          have hBSS : BLOCK_STRUCT_SIZE = 32 := rfl
          rw [hBSS] at hrem ⊢
          omega
        · rfl
        · rfl
        · intro hc
          simp at hc
      · intro hnone
        cases hnone
    | false =>
      have hv : v ≠ [] := hlastF hL
      cases v with
      | nil => exact absurd rfl hv
      | cons n v' =>
        rw [if_neg (by simp)]
        dsimp only
        simp only [patchFirst]
        simp only [List.append_assoc, List.cons_append, List.nil_append]
        refine ⟨?_, ?_, ?_, ?_⟩
        · rw [getD_append_len]
          simp only [List.getD_cons_zero, busy_set_size_curr _ _ h4,
            busy_set_flag_busy]
        · simp [hrem]
        · intro Br hBr
          injection hBr with hBr
          subst hBr
          refine ⟨?_, ?_, ?_, ?_, ?_, ?_, ?_⟩
          · rw [busy_mk,
              show (block_get_size_curr B - s - BLOCK_STRUCT_SIZE) % 2 = 0
                from hrest2]
            rfl
          · rw [last_mk,
              show (block_get_size_curr B - s - BLOCK_STRUCT_SIZE) / 2 % 2
                = 0 from by
                  have hBSS : BLOCK_STRUCT_SIZE = 32 := rfl
                  rw [hBSS] at hrem ⊢
                  omega]
            rfl
          · rw [getD_append_len]
            simp only [List.getD_cons_zero, last_set_size_curr _ _ h4,
              last_set_flag_busy, hL]
          · rw [get_mk]
            have hBSS : BLOCK_STRUCT_SIZE = 32 := rfl
            rw [hBSS] at hrem ⊢
            omega
          · rfl
          · rfl
          · intro _
            rw [getD_append_add]
            have hBSS : BLOCK_STRUCT_SIZE = 32 := rfl
            simp only [List.getD_cons_succ, List.getD_cons_zero, hBSS,
              block_get_size_prev, block_set_size_prev, block_get_size_curr]
              at hrem ⊢
            omega
        · intro hnone
          cases hnone
  · simp only [if_neg hrem]
    simp only [List.append_assoc, List.cons_append, List.nil_append]
    refine ⟨?_, ?_, ?_, ?_⟩
    · rw [getD_append_len]
      simp only [List.getD_cons_zero, busy_set_flag_busy]
    · simp [hrem]
    · intro Br hBr
      cases hBr
    · intro _
      refine ⟨trivial, ?_⟩
      rw [getD_append_len]
      simp only [List.getD_cons_zero, get_set_flag_busy]

/-- Witness for C6: splitting a sole free last block of size 65504 at
size 48 yields the remainder block of size 65424 with boundary tag 48 at
offset 80, carrying the last flag. -/
theorem block_split_spec_witness :
    (block_split [⟨65506, 0, 0⟩] 0 48).2 = some ⟨65426, 48, 80⟩ ∧
    (block_split [⟨65506, 0, 0⟩] 0 48).1
      = [⟨49, 0, 0⟩, ⟨65426, 48, 80⟩] := by
  have h := block_split_spec [] [] ⟨65506, 0, 0⟩ 48 (by decide) (by decide)
    (fun _ => rfl) (by intro h; cases h)
  exact ⟨by decide, by decide⟩

/-- C7: block_merge of a block B with its immediate free right neighbour
at the next position sets the masked size of B to the sum of both masked
sizes plus one header, preserves the busy bit of B, transfers the last
flag when the neighbour was last, and otherwise writes the new size into
the boundary tag of the following block. -/
theorem block_merge_spec (u v : List Block) (B Br : Block)
    (hfree : block_get_flag_busy Br = false)
    (hlastT : block_get_flag_last Br = true → v = [])
    (hlastF : block_get_flag_last Br = false → v ≠ []) :
    block_get_size_curr
        ((block_merge (u ++ B :: Br :: v) u.length).getD u.length dummy)
      = block_get_size_curr B + block_get_size_curr Br + BLOCK_STRUCT_SIZE
    ∧ block_get_flag_busy
        ((block_merge (u ++ B :: Br :: v) u.length).getD u.length dummy)
      = block_get_flag_busy B
    ∧ (block_get_flag_last Br = true →
        block_get_flag_last
          ((block_merge (u ++ B :: Br :: v) u.length).getD u.length dummy)
        = true)
    ∧ (block_get_flag_last Br = false →
        block_get_size_prev
          ((block_merge (u ++ B :: Br :: v) u.length).getD
            (u.length + 1) dummy)
        = block_get_size_curr B + block_get_size_curr Br
          + BLOCK_STRUCT_SIZE) := by
  have h4 : (block_get_size_curr B + block_get_size_curr Br
      + BLOCK_STRUCT_SIZE) % 4 = 0 := by
    have hB4 := block_get_size_curr_mod4 B
    have hBr4 := block_get_size_curr_mod4 Br
    have hBSS : BLOCK_STRUCT_SIZE = 32 := rfl
    omega
  have hgetB : (u ++ B :: Br :: v).getD u.length dummy = B := by
    rw [getD_append_len]; rfl
  have hgetBr : (u ++ B :: Br :: v).getD (u.length + 1) dummy = Br := by
    rw [getD_append_add]; rfl
  have htake : (u ++ B :: Br :: v).take u.length = u := take_append_len u _
  have hdrop : (u ++ B :: Br :: v).drop (u.length + 2) = v := by
    rw [drop_append_add]
    simp
  simp only [block_merge, hgetB, hgetBr, htake, hdrop]
  cases hL : block_get_flag_last Br with
  | true =>
    have hv : v = [] := hlastT hL
    subst hv
    rw [if_pos (by trivial)]
    simp only [List.append_nil]
    refine ⟨?_, ?_, ?_, ?_⟩
    · rw [getD_append_len]
      simp only [List.getD_cons_zero, get_set_flag_last,
        get_set_size_curr _ _ h4]
    · rw [getD_append_len]
      simp only [List.getD_cons_zero, busy_set_flag_last,
        busy_set_size_curr _ _ h4]
    · intro _
      rw [getD_append_len]
      simp only [List.getD_cons_zero, last_set_flag_last]
    · intro hc
      simp at hc
  | false =>
    have hv : v ≠ [] := hlastF hL
    cases v with
    | nil => exact absurd rfl hv
    | cons n v' =>
      rw [if_neg (by simp)]
      simp only [patchFirst]
      simp only [List.append_assoc, List.cons_append, List.nil_append]
      refine ⟨?_, ?_, ?_, ?_⟩
      · rw [getD_append_len]
        simp only [List.getD_cons_zero, get_set_size_curr _ _ h4]
      · rw [getD_append_len]
        simp only [List.getD_cons_zero, busy_set_size_curr _ _ h4]
      · intro hc
        simp at hc
      · intro _
        rw [getD_append_add]
        simp only [List.getD_cons_succ, List.getD_cons_zero,
          block_get_size_prev, block_set_size_prev]

/-- Witness for C7: merging the busy block of size 48 with its free last
neighbour of size 65424 gives back the full 65504 payload. -/
theorem block_merge_spec_witness :
    block_get_size_curr
      ((block_merge [⟨49, 0, 0⟩, ⟨65426, 48, 80⟩] 0).getD 0 dummy)
      = 65504 := by
  have h := block_merge_spec [] [] ⟨49, 0, 0⟩ ⟨65426, 48, 80⟩ (by decide)
    (fun _ => rfl) (fun hc => absurd hc (by decide))
  exact h.1.trans (by decide)

/-- C3 as amended: a shrink of a non-oversized busy block whose block is
last-in-arena, or whose split yields no remainder, does not return the
pointer unchanged; mem_realloc falls through to the move path (allocate a
block of the normalised size, copy the smaller size, free the input
pointer, return the fresh pointer, or null on failure with the original
left intact). -/
theorem mem_realloc_shrink_fallthrough (st : AllocState) (a off : Nat)
    (bs : List Block) (B : Block) (oom : Bool) (s : Nat)
    (hbs : st.arenas.getD a none = some bs)
    (hlen : blockIdx bs off < bs.length)
    (hB : bs.getD (blockIdx bs off) dummy = B)
    (hbusy : block_get_flag_busy B = true)
    (hnov : block_get_size_curr B ≤ BLOCK_SIZE_MAX)
    (hs : normalizeSize s < block_get_size_curr B)
    (hcase : block_get_flag_last B = true
      ∨ block_get_size_curr B - normalizeSize s
        < BLOCK_STRUCT_SIZE + BLOCK_SIZE_MIN) :
    mem_realloc st (Ptr.mk a off) oom s
      = movePath st (Ptr.mk a off) oom (normalizeSize s)
        (block_get_size_curr B) := by
  simp only [mem_realloc, hbs, hB]
  rw [if_neg (by omega : ¬ BLOCK_SIZE_MAX < block_get_size_curr B)]
  rw [if_neg (by simp only [beq_iff_eq]; omega
    : ¬ ((normalizeSize s == block_get_size_curr B) = true))]
  rcases hcase with hL | hnorem
  · rw [if_neg (by simp [hL] : ¬ ((normalizeSize s < block_get_size_curr B
        && !block_get_flag_last B) = true))]
    rw [if_neg (by
      simp only [Bool.and_eq_true, decide_eq_true_eq]
      rintro ⟨h1, _⟩
      omega)]
  · cases hLb : block_get_flag_last B with
    | true =>
      rw [if_neg (by simp [hLb])]
      rw [if_neg (by simp [hLb])]
    | false =>
      rw [if_pos (by simp only [Bool.and_eq_true, decide_eq_true_eq, hLb,
          Bool.not_false, and_true]; omega)]
      have hsplit : block_split bs (blockIdx bs off) (normalizeSize s)
          = (bs.take (blockIdx bs off) ++ [block_set_flag_busy B]
              ++ bs.drop (blockIdx bs off + 1), none) := by
        simp only [block_split, hB, get_set_flag_busy]
        rw [if_neg (by omega)]
      rw [hsplit]
      have hlist : bs.take (blockIdx bs off) ++ [block_set_flag_busy B]
          ++ bs.drop (blockIdx bs off + 1) = bs := by
        rw [set_flag_busy_id B hbusy]
        conv_rhs => rw [decompose_at bs (blockIdx bs off) dummy hlen]
        rw [hB]
        simp
      rw [hlist]
      have haren : st.arenas.set a (some bs) = st.arenas := by
        conv_lhs => rw [← hbs]
        exact set_getD_self st.arenas a none (getD_lt_length _ _ _ hbs)
      rw [haren]

/-- Witness for the amended C3: the concrete busy, last, non-oversized
block of size 65504; realloc to 16 equals the move path at normalised size
48. -/
theorem mem_realloc_shrink_fallthrough_witness :
    mem_realloc ⟨[some [⟨65507, 0, 0⟩]], []⟩ (Ptr.mk 0 0) false 16
      = movePath ⟨[some [⟨65507, 0, 0⟩]], []⟩ (Ptr.mk 0 0) false 48 65504 :=
  mem_realloc_shrink_fallthrough ⟨[some [⟨65507, 0, 0⟩]], []⟩ 0 0
    [⟨65507, 0, 0⟩] ⟨65507, 0, 0⟩ false 16 (by decide) (by decide)
    (by decide) (by decide) (by decide) (by decide) (Or.inl (by decide))

theorem mem_free_inv (st : AllocState) (p : Ptr)
    (hInv : inv st = true) (hp : ptrBusy st p = true) :
    inv (mem_free st p).st = true := by
  cases p with
  | null =>
    simp only [mem_free]
    exact hInv
  | bogus =>
    simp only [mem_free]
    exact hInv
  | mk a off =>
    cases hbs : st.arenas.getD a none with
    | none =>
      simp only [mem_free, hbs]
      exact hInv
    | some bs =>
      have hp2 := hp
      unfold ptrBusy at hp2
      dsimp only at hp2
      rw [hbs] at hp2
      dsimp only at hp2
      simp only [Bool.and_eq_true, decide_eq_true_eq, beq_iff_eq] at hp2
      obtain ⟨⟨hlt, hoffeq⟩, hbusyB0⟩ := hp2
      obtain ⟨B, hB⟩ : ∃ B, bs.getD (blockIdx bs off) dummy = B := ⟨_, rfl⟩
      rw [hB] at hoffeq hbusyB0
      have ha : a < st.arenas.length := getD_lt_length _ _ _ hbs
      have hmem : some bs ∈ st.arenas := by
        have h2 := getD_mem_of_lt st.arenas a none ha
        rw [hbs] at h2
        exact h2
      have harena := (inv_elim st hInv).1 (some bs) hmem
      rw [invArena_some_iff] at harena
      obtain ⟨hwf, hnadj, hdisj⟩ := harena
      obtain ⟨u, v, hdec, hulen, h_take, h_drop⟩ :
          ∃ u v, bs = u ++ B :: v ∧ u.length = blockIdx bs off
            ∧ bs.take (blockIdx bs off) = u
            ∧ bs.drop (blockIdx bs off + 1) = v := by
        refine ⟨bs.take (blockIdx bs off), bs.drop (blockIdx bs off + 1),
          ?_, ?_, rfl, rfl⟩
        · conv_lhs => rw [decompose_at bs (blockIdx bs off) dummy hlt]
          rw [hB]
        · rw [List.length_take]
          omega
      have hwfdec : wfChain 0 0 (u ++ B :: v) = true := by
        rw [← hdec]
        exact hwf
      have hnadjdec : noAdjB (u ++ B :: v) = true := by
        rw [← hdec]
        exact hnadj
      rcases (noAdjB_append_iff u (B :: v)).mp hnadjdec with
        ⟨hnu, hnBv, hnbound⟩
      have hMAXc : BLOCK_SIZE_MAX = 65504 := rfl
      have hARENAc : ARENA_SIZE = 65536 := rfl
      have hBSSc : BLOCK_STRUCT_SIZE = 32 := rfl
      have hMINc : BLOCK_SIZE_MIN = 48 := rfl
      have hlenbs : bs.length = u.length + 1 + v.length := by
        rw [hdec]
        simp only [List.length_append, List.length_cons]
        omega
      have hgetBu : bs.getD u.length dummy = B := by
        rw [hdec, getD_append_len]
        rfl
      simp only [mem_free, hbs, hB, h_take, h_drop, get_clr_flag_busy,
        List.append_assoc, List.cons_append, List.nil_append]
      rw [← hulen]
      by_cases hov : BLOCK_SIZE_MAX < block_get_size_curr B
      · exfalso
        rcases hdisj with hend0 | ⟨h1, h2⟩
        · have hle := wfChain_end_le 0 0 bs hwf (blockIdx bs off) hlt
          rw [hB, hend0] at hle
          omega
        · have hi0 : blockIdx bs off = 0 := by omega
          rw [hi0] at hB
          rw [hB] at h2
          rw [hbusyB0] at h2
          exact absurd h2 (by decide)
      · rw [if_neg hov]
        have hovle : block_get_size_curr B ≤ BLOCK_SIZE_MAX := by omega
        have hendA : endOffset bs = ARENA_SIZE := by
          rcases hdisj with h | ⟨h1, h2⟩
          · exact h
          · exfalso
            have hi0 : blockIdx bs off = 0 := by omega
            rw [hi0] at hB
            rw [hB] at h2
            rw [hbusyB0] at h2
            exact absurd h2 (by decide)
        have hwf1 : wfChain 0 0 (u ++ block_clr_flag_busy B :: v) = true :=
          wfChain_mid_congr u v B _ (off_clr_flag_busy B)
            (sp_clr_flag_busy B) (last_clr_flag_busy B)
            (get_clr_flag_busy B) hwfdec
        have hend1 : endOffset (u ++ block_clr_flag_busy B :: v)
            = ARENA_SIZE := by
          rw [endOffset_mid_congr u v B _ (off_clr_flag_busy B)
            (get_clr_flag_busy B), ← hdec]
          exact hendA
        have hnotB : ∀ e ∈ st.tree, e.loc ≠ (a, B.offset) :=
          tree_no_entry_at st a bs (blockIdx bs off) B hInv hbs hwf hlt hB
            hbusyB0
        cases hL : block_get_flag_last B with
        | true =>
          have hv0 : v = [] := by
            cases v with
            | nil => rfl
            | cons c r =>
              rcases (wfChain_append_iff u _ 0 0 (by simp)).mp hwfdec with
                ⟨o2, s2, _, hch⟩
              rcases (wfChain_cons_ne o2 s2 B _ (by simp)).mp hch with
                ⟨_, _, hlf, _, _⟩
              rw [hL] at hlf
              cases hlf
          subst hv0
          simp only [List.length_nil] at hlenbs
          have hs1 : free_step1 a st.tree (block_clr_flag_busy B)
              (u ++ block_clr_flag_busy B :: []) u.length
              = (u ++ block_clr_flag_busy B :: [], st.tree) := by
            unfold free_step1
            rw [last_clr_flag_busy, hL]
            rw [if_neg (by decide : ¬((!true) = true))]
          rw [hs1]
          rcases List.eq_nil_or_concat u with hu0 | ⟨u2, P, hu2⟩
          · subst hu0
            simp only [List.nil_append, List.length_nil] at hlenbs ⊢
            have hsp0 : B.size_prev = 0 := by
              have h2 := wfChain_head_sp 0 0 bs hwf
              rw [hdec] at h2
              simpa using h2
            have hfB : block_get_flag_first B = true := by
              simp [block_get_flag_first, hsp0]
            have hs2 : free_step2 a (block_clr_flag_busy B :: [], st.tree) 0
                = (block_clr_flag_busy B :: [], st.tree, 0) := by
              unfold free_step2
              dsimp only
              rw [show (block_clr_flag_busy B :: ([] : List Block)).getD 0
                  dummy = block_clr_flag_busy B from rfl]
              rw [first_clr_flag_busy, hfB]
              rw [if_neg (by decide : ¬((!true) = true))]
            rw [hs2]
            unfold free_final
            dsimp only
            rw [show (block_clr_flag_busy B :: ([] : List Block)).getD 0
                dummy = block_clr_flag_busy B from rfl]
            rw [OpResult_st_ite]
            dsimp only
            refine free_finish st a [] [] (block_clr_flag_busy B) st.tree ha
              hInv hwf1 (busy_clr_flag_busy B) rfl rfl
              (fun x hx => by simp at hx) (fun y hy => by simp at hy)
              hend1 ?_ ?_
            · refine free_ht2 st a bs [] [] (block_clr_flag_busy B) st.tree
                1 0 [] hbs hInv hwf1 hend1 ?_ ?_ ?_ (fun e he => he) ?_
              · intro j hj
                simp at hj
              · intro k hk
                exact absurd hk (by omega)
              · intro j h1 h2 h3
                left
                have hj0 : j = 0 := by omega
                subst hj0
                have hg : bs.getD 0 dummy = B := by
                  rw [hdec]
                  rfl
                rw [hg]
                exact hbusyB0
              · intro e he hea
                simp
            · intro e he
              exact hnotB e he
          · rw [List.concat_eq_append] at hu2
            have hulen2 : u.length = u2.length + 1 := by
              rw [hu2]
              simp
            have hspmin : BLOCK_SIZE_MIN ≤ B.size_prev := by
              have h2 := wfChain_interior_sp 0 0 bs hwf u.length (by omega)
                (by omega)
              rw [hgetBu] at h2
              exact h2
            have hfB : block_get_flag_first B = false := by
              simp only [block_get_flag_first]
              simp only [beq_eq_false_iff_ne, ne_eq]
              omega
            have hassocA : u ++ block_clr_flag_busy B :: ([] : List Block)
                = u2 ++ (P :: block_clr_flag_busy B :: []) := by
              rw [hu2, List.append_assoc]
              rfl
            have hlenm1 : u.length - 1 = u2.length := by omega
            have hgetP : (u ++ block_clr_flag_busy B
                :: ([] : List Block)).getD (u.length - 1) dummy = P := by
              rw [hlenm1, hassocA, getD_append_len]
              rfl
            have hgetPbs : bs.getD u2.length dummy = P := by
              rw [hdec, hu2, List.append_assoc, getD_append_len]
              rfl
            have hgetB2 : bs.getD (u2.length + 1) dummy = B := by
              rw [hdec, hu2, List.append_assoc, getD_append_add]
              rfl
            cases hPb : block_get_flag_busy P with
            | true =>
              have hs2 : free_step2 a
                  (u ++ block_clr_flag_busy B :: [], st.tree) u.length
                  = (u ++ block_clr_flag_busy B :: [], st.tree,
                     u.length) := by
                unfold free_step2
                dsimp only
                rw [show (u ++ block_clr_flag_busy B
                    :: ([] : List Block)).getD u.length dummy
                    = block_clr_flag_busy B from by
                  rw [getD_append_len]; rfl]
                rw [first_clr_flag_busy, hfB]
                rw [if_pos (by decide : (!false) = true)]
                rw [hgetP, hPb]
                rw [if_neg (by decide : ¬((!true) = true))]
              rw [hs2]
              unfold free_final
              dsimp only
              rw [show (u ++ block_clr_flag_busy B
                  :: ([] : List Block)).getD u.length dummy
                  = block_clr_flag_busy B from by
                rw [getD_append_len]; rfl]
              rw [OpResult_st_ite]
              dsimp only
              refine free_finish st a u [] (block_clr_flag_busy B) st.tree
                ha hInv hwf1 (busy_clr_flag_busy B) hnu rfl
                ?_ (fun y hy => by simp at hy) hend1 ?_ ?_
              · intro x hx
                rw [hu2, List.getLast?_concat] at hx
                cases hx
                exact hPb
              · refine free_ht2 st a bs u [] (block_clr_flag_busy B)
                  st.tree (u.length + 1) 0 [] hbs hInv hwf1 hend1 ?_ ?_ ?_
                  (fun e he => he) ?_
                · intro j hj
                  rw [hdec]
                  exact getD_prefix_eq u _ _ j hj
                · intro k hk
                  exact absurd hk (by omega)
                · intro j h1 h2 h3
                  left
                  have hj0 : j = u.length := by omega
                  subst hj0
                  rw [hgetBu]
                  exact hbusyB0
                · intro e he hea
                  simp
              · intro e he
                exact hnotB e he
            | false =>
              have hs2 : free_step2 a
                  (u ++ block_clr_flag_busy B :: [], st.tree) u.length
                  = (block_merge (u ++ block_clr_flag_busy B :: [])
                      (u.length - 1),
                     tree_remove st.tree (a, P.offset), u.length - 1) := by
                unfold free_step2
                dsimp only
                rw [show (u ++ block_clr_flag_busy B
                    :: ([] : List Block)).getD u.length dummy
                    = block_clr_flag_busy B from by
                  rw [getD_append_len]; rfl]
                rw [first_clr_flag_busy, hfB]
                rw [if_pos (by decide : (!false) = true)]
                rw [hgetP, hPb]
                rw [if_pos (by decide : (!false) = true)]
              rw [hs2]
              rw [hlenm1, hassocA]
              have hwfP : wfChain 0 0 (u2 ++ (P :: block_clr_flag_busy B
                  :: [])) = true := by
                rw [← hassocA]
                exact hwf1
              rcases merge_state u2 P (block_clr_flag_busy B) [] hwfP with
                ⟨X2, hm2, hX2off, hX2sp, hX2busy, hX2get, hX2last, hX2wf,
                 hX2end, hX2len⟩
              simp only [patchFirst] at hm2 hX2wf hX2end
              rw [hm2]
              unfold free_final
              dsimp only
              rw [show (u2 ++ X2 :: ([] : List Block)).getD u2.length dummy
                  = X2 from by rw [getD_append_len]; rfl]
              rw [OpResult_st_ite]
              dsimp only
              have hnu2 := (noAdjB_append_iff u2 [P]).mp (by
                rw [← hu2]
                exact hnu)
              refine free_finish st a u2 [] X2
                (tree_remove st.tree (a, P.offset)) ha hInv hX2wf
                (by rw [hX2busy]; exact hPb) hnu2.1 rfl
                ?_ (fun y hy => by simp at hy) ?_ ?_ ?_
              · intro x hx
                rcases hnu2.2.2 x hx P (by rw [List.head?_cons]) with h | h
                · exact h
                · rw [hPb] at h
                  cases h
              · rw [hX2end, ← hassocA]
                exact hend1
              · refine free_ht2 st a bs u2 [] X2 _ (u.length + 1) 0
                  [P.offset] hbs hInv hX2wf
                  (by rw [hX2end, ← hassocA]; exact hend1) ?_ ?_ ?_
                  (fun e he => (tree_remove_mem _ _ e he).1) ?_
                · intro j hj
                  rw [hdec, hu2, List.append_assoc]
                  exact getD_prefix_eq u2 _ _ j hj
                · intro k hk
                  exact absurd hk (by omega)
                · intro j h1 h2 h3
                  have hj2 : j = u2.length ∨ j = u2.length + 1 := by omega
                  rcases hj2 with hj2 | hj2
                  · subst hj2
                    right
                    rw [hgetPbs]
                    exact List.mem_cons_self _ _
                  · subst hj2
                    left
                    rw [hgetB2]
                    exact hbusyB0
                · intro e he hea
                  have hne := (tree_remove_mem _ _ e he).2
                  simp only [List.mem_cons, List.not_mem_nil, or_false]
                  intro h2
                  refine hne ?_
                  have hpair : e.loc = (e.loc.1, e.loc.2) := rfl
                  rw [hpair, hea, h2]
              · intro e he
                rw [hX2off]
                exact (tree_remove_mem _ _ e he).2
        | false =>
          cases v with
          | nil =>
            exfalso
            rcases (wfChain_append_iff u _ 0 0 (by simp)).mp hwfdec with
              ⟨o2, s2, _, hch⟩
            rcases (wfChain_single_iff o2 s2 B).mp hch with ⟨_, _, hlf, _⟩
            rw [hL] at hlf
            cases hlf
          | cons N v2 =>
            simp only [List.length_cons] at hlenbs
            have hnNv2 : noAdjB (N :: v2) = true := noAdjB_tail B _ hnBv
            have hgetNbs : bs.getD (u.length + 1) dummy = N := by
              rw [hdec, getD_append_add]
              rfl
            have hgetv2 : ∀ k, bs.getD (u.length + 2 + k) dummy
                = v2.getD k dummy := by
              intro k
              rw [hdec, show u.length + 2 + k = u.length + (2 + k) from by
                omega, getD_append_add, show 2 + k = (1 + k) + 1 from by
                omega, List.getD_cons_succ, show 1 + k = k + 1 from by
                omega, List.getD_cons_succ]
            cases hNb : block_get_flag_busy N with
            | true =>
              have hs1 : free_step1 a st.tree (block_clr_flag_busy B)
                  (u ++ block_clr_flag_busy B :: N :: v2) u.length
                  = (u ++ block_clr_flag_busy B :: N :: v2, st.tree) := by
                unfold free_step1
                rw [last_clr_flag_busy, hL]
                rw [if_pos (by decide : (!false) = true)]
                dsimp only
                rw [show (u ++ block_clr_flag_busy B :: N :: v2).getD
                    (u.length + 1) dummy = N from by
                  rw [getD_append_add]; rfl]
                rw [hNb]
                rw [if_neg (by decide : ¬((!true) = true))]
              rw [hs1]
              have hheadw : ∀ y, (N :: v2).head? = some y →
                  block_get_flag_busy y = true := by
                intro y hy
                rw [List.head?_cons] at hy
                cases hy
                exact hNb
              rcases List.eq_nil_or_concat u with hu0 | ⟨u2, P, hu2⟩
              · subst hu0
                simp only [List.nil_append, List.length_nil] at hlenbs ⊢
                have hsp0 : B.size_prev = 0 := by
                  have h2 := wfChain_head_sp 0 0 bs hwf
                  rw [hdec] at h2
                  simpa using h2
                have hfB : block_get_flag_first B = true := by
                  simp [block_get_flag_first, hsp0]
                have hs2 : free_step2 a
                    (block_clr_flag_busy B :: N :: v2, st.tree) 0
                    = (block_clr_flag_busy B :: N :: v2, st.tree, 0) := by
                  unfold free_step2
                  dsimp only
                  rw [show (block_clr_flag_busy B :: N :: v2).getD 0 dummy
                      = block_clr_flag_busy B from rfl]
                  rw [first_clr_flag_busy, hfB]
                  rw [if_neg (by decide : ¬((!true) = true))]
                rw [hs2]
                unfold free_final
                dsimp only
                rw [show (block_clr_flag_busy B :: N :: v2).getD 0 dummy
                    = block_clr_flag_busy B from rfl]
                rw [OpResult_st_ite]
                dsimp only
                refine free_finish st a [] (N :: v2)
                  (block_clr_flag_busy B) st.tree ha hInv hwf1
                  (busy_clr_flag_busy B) rfl hnNv2
                  (fun x hx => by simp at hx) hheadw hend1 ?_ ?_
                · refine free_ht2 st a bs [] (N :: v2)
                    (block_clr_flag_busy B) st.tree 2 1 [] hbs hInv hwf1
                    hend1 ?_ ?_ ?_ (fun e he => he) ?_
                  · intro j hj
                    simp at hj
                  · intro k hk
                    refine ⟨by simp only [List.length_cons]; omega, ?_⟩
                    have hg2 : bs.getD (2 + k) dummy = v2.getD k dummy := by
                      have := hgetv2 k
                      simpa using this
                    rw [hg2, show (1 : Nat) + k = k + 1 from by omega,
                      List.getD_cons_succ]
                    exact ⟨rfl, rfl, rfl⟩
                  · intro j h1 h2 h3
                    left
                    have hj2 : j = 0 ∨ j = 1 := by omega
                    rcases hj2 with hj2 | hj2
                    · subst hj2
                      have hg : bs.getD 0 dummy = B := by
                        rw [hdec]
                        rfl
                      rw [hg]
                      exact hbusyB0
                    · subst hj2
                      have hg : bs.getD 1 dummy = N := by
                        rw [hdec]
                        rfl
                      rw [hg]
                      exact hNb
                  · intro e he hea
                    simp
                · intro e he
                  exact hnotB e he
              · rw [List.concat_eq_append] at hu2
                have hulen2 : u.length = u2.length + 1 := by
                  rw [hu2]
                  simp
                have hspmin : BLOCK_SIZE_MIN ≤ B.size_prev := by
                  have h2 := wfChain_interior_sp 0 0 bs hwf u.length
                    (by omega) (by omega)
                  rw [hgetBu] at h2
                  exact h2
                have hfB : block_get_flag_first B = false := by
                  simp only [block_get_flag_first]
                  simp only [beq_eq_false_iff_ne, ne_eq]
                  omega
                have hassocB : u ++ block_clr_flag_busy B :: N :: v2
                    = u2 ++ (P :: block_clr_flag_busy B :: N :: v2) := by
                  rw [hu2, List.append_assoc]
                  rfl
                have hlenm1 : u.length - 1 = u2.length := by omega
                have hgetP : (u ++ block_clr_flag_busy B :: N :: v2).getD
                    (u.length - 1) dummy = P := by
                  rw [hlenm1, hassocB, getD_append_len]
                  rfl
                have hgetPbs : bs.getD u2.length dummy = P := by
                  rw [hdec, hu2, List.append_assoc, getD_append_len]
                  rfl
                have hgetB2 : bs.getD (u2.length + 1) dummy = B := by
                  rw [hdec, hu2, List.append_assoc, getD_append_add]
                  rfl
                have hgetN2 : bs.getD (u2.length + 2) dummy = N := by
                  rw [hdec, hu2, List.append_assoc, getD_append_add]
                  rfl
                cases hPb : block_get_flag_busy P with
                | true =>
                  have hs2 : free_step2 a
                      (u ++ block_clr_flag_busy B :: N :: v2, st.tree)
                      u.length
                      = (u ++ block_clr_flag_busy B :: N :: v2, st.tree,
                         u.length) := by
                    unfold free_step2
                    dsimp only
                    rw [show (u ++ block_clr_flag_busy B :: N :: v2).getD
                        u.length dummy = block_clr_flag_busy B from by
                      rw [getD_append_len]; rfl]
                    rw [first_clr_flag_busy, hfB]
                    rw [if_pos (by decide : (!false) = true)]
                    rw [hgetP, hPb]
                    rw [if_neg (by decide : ¬((!true) = true))]
                  rw [hs2]
                  unfold free_final
                  dsimp only
                  rw [show (u ++ block_clr_flag_busy B :: N :: v2).getD
                      u.length dummy = block_clr_flag_busy B from by
                    rw [getD_append_len]; rfl]
                  rw [OpResult_st_ite]
                  dsimp only
                  refine free_finish st a u (N :: v2)
                    (block_clr_flag_busy B) st.tree ha hInv hwf1
                    (busy_clr_flag_busy B) hnu hnNv2 ?_ hheadw hend1 ?_ ?_
                  · intro x hx
                    rw [hu2, List.getLast?_concat] at hx
                    cases hx
                    exact hPb
                  · refine free_ht2 st a bs u (N :: v2)
                      (block_clr_flag_busy B) st.tree (u.length + 2) 1 []
                      hbs hInv hwf1 hend1 ?_ ?_ ?_ (fun e he => he) ?_
                    · intro j hj
                      rw [hdec]
                      exact getD_prefix_eq u _ _ j hj
                    · intro k hk
                      refine ⟨by simp only [List.length_cons]; omega, ?_⟩
                      rw [hgetv2 k, show (1 : Nat) + k = k + 1 from by
                        omega, List.getD_cons_succ]
                      exact ⟨rfl, rfl, rfl⟩
                    · intro j h1 h2 h3
                      have hj2 : j = u.length ∨ j = u.length + 1 := by
                        omega
                      rcases hj2 with hj2 | hj2
                      · subst hj2
                        left
                        rw [hgetBu]
                        exact hbusyB0
                      · subst hj2
                        left
                        rw [hgetNbs]
                        exact hNb
                    · intro e he hea
                      simp
                  · intro e he
                    exact hnotB e he
                | false =>
                  have hs2 : free_step2 a
                      (u ++ block_clr_flag_busy B :: N :: v2, st.tree)
                      u.length
                      = (block_merge (u ++ block_clr_flag_busy B :: N :: v2)
                          (u.length - 1),
                         tree_remove st.tree (a, P.offset),
                         u.length - 1) := by
                    unfold free_step2
                    dsimp only
                    rw [show (u ++ block_clr_flag_busy B :: N :: v2).getD
                        u.length dummy = block_clr_flag_busy B from by
                      rw [getD_append_len]; rfl]
                    rw [first_clr_flag_busy, hfB]
                    rw [if_pos (by decide : (!false) = true)]
                    rw [hgetP, hPb]
                    rw [if_pos (by decide : (!false) = true)]
                  rw [hs2]
                  rw [hlenm1, hassocB]
                  have hwfP : wfChain 0 0 (u2 ++ (P :: block_clr_flag_busy
                      B :: N :: v2)) = true := by
                    rw [← hassocB]
                    exact hwf1
                  rcases merge_state u2 P (block_clr_flag_busy B) (N :: v2)
                      hwfP with
                    ⟨X2, hm2, hX2off, hX2sp, hX2busy, hX2get, hX2last,
                     hX2wf, hX2end, hX2len⟩
                  simp only [patchFirst] at hm2 hX2wf hX2end
                  rw [hm2]
                  unfold free_final
                  dsimp only
                  rw [show (u2 ++ X2 :: block_set_size_prev N
                      (block_get_size_curr P
                        + block_get_size_curr (block_clr_flag_busy B)
                        + BLOCK_STRUCT_SIZE) :: v2).getD u2.length dummy
                      = X2 from by rw [getD_append_len]; rfl]
                  rw [OpResult_st_ite]
                  dsimp only
                  have hnu2 := (noAdjB_append_iff u2 [P]).mp (by
                    rw [← hu2]
                    exact hnu)
                  refine free_finish st a u2 (block_set_size_prev N
                      (block_get_size_curr P
                        + block_get_size_curr (block_clr_flag_busy B)
                        + BLOCK_STRUCT_SIZE) :: v2) X2
                    (tree_remove st.tree (a, P.offset)) ha hInv hX2wf
                    (by rw [hX2busy]; exact hPb) hnu2.1 ?_ ?_ ?_ ?_ ?_ ?_
                  · exact noAdjB_head_congr N _ v2
                      (busy_set_size_prev N _) hnNv2
                  · intro x hx
                    rcases hnu2.2.2 x hx P (by rw [List.head?_cons]) with
                      h | h
                    · exact h
                    · rw [hPb] at h
                      cases h
                  · intro y hy
                    rw [List.head?_cons] at hy
                    cases hy
                    rw [busy_set_size_prev N _]
                    exact hNb
                  · rw [hX2end, ← hassocB]
                    exact hend1
                  · refine free_ht2 st a bs u2 (block_set_size_prev N
                        (block_get_size_curr P
                          + block_get_size_curr (block_clr_flag_busy B)
                          + BLOCK_STRUCT_SIZE) :: v2) X2 _
                      (u.length + 2) 1 [P.offset] hbs hInv hX2wf
                      (by rw [hX2end, ← hassocB]; exact hend1) ?_ ?_ ?_
                      (fun e he => (tree_remove_mem _ _ e he).1) ?_
                    · intro j hj
                      rw [hdec, hu2, List.append_assoc]
                      exact getD_prefix_eq u2 _ _ j hj
                    · intro k hk
                      refine ⟨by simp only [List.length_cons]; omega, ?_⟩
                      rw [hgetv2 k, show (1 : Nat) + k = k + 1 from by
                        omega, List.getD_cons_succ]
                      exact ⟨rfl, rfl, rfl⟩
                    · intro j h1 h2 h3
                      have hj2 : j = u2.length ∨ j = u2.length + 1
                          ∨ j = u2.length + 2 := by omega
                      rcases hj2 with hj2 | hj2 | hj2
                      · subst hj2
                        right
                        rw [hgetPbs]
                        exact List.mem_cons_self _ _
                      · subst hj2
                        left
                        rw [hgetB2]
                        exact hbusyB0
                      · subst hj2
                        left
                        rw [hgetN2]
                        exact hNb
                    · intro e he hea
                      have hne := (tree_remove_mem _ _ e he).2
                      simp only [List.mem_cons, List.not_mem_nil, or_false]
                      intro h2
                      refine hne ?_
                      have hpair : e.loc = (e.loc.1, e.loc.2) := rfl
                      rw [hpair, hea, h2]
                  · intro e he
                    rw [hX2off]
                    exact (tree_remove_mem _ _ e he).2
            | false =>
              have hs1 : free_step1 a st.tree (block_clr_flag_busy B)
                  (u ++ block_clr_flag_busy B :: N :: v2) u.length
                  = (block_merge (u ++ block_clr_flag_busy B :: N :: v2)
                      u.length,
                     tree_remove st.tree (a, N.offset)) := by
                unfold free_step1
                rw [last_clr_flag_busy, hL]
                rw [if_pos (by decide : (!false) = true)]
                dsimp only
                rw [show (u ++ block_clr_flag_busy B :: N :: v2).getD
                    (u.length + 1) dummy = N from by
                  rw [getD_append_add]; rfl]
                rw [hNb]
                rw [if_pos (by decide : (!false) = true)]
              rw [hs1]
              have hv2head : ∀ y, v2.head? = some y →
                  block_get_flag_busy y = true := by
                intro y hy
                cases v2 with
                | nil => simp at hy
                | cons c r =>
                  rw [List.head?_cons] at hy
                  injection hy with hy2
                  rw [← hy2]
                  rcases ((noAdjB_cons_cons N c r).mp hnNv2).1 with h | h
                  · rw [hNb] at h
                    cases h
                  · exact h
              rcases merge_state u (block_clr_flag_busy B) N v2 hwf1 with
                ⟨X1, hm1, hX1off, hX1sp, hX1busy, hX1get, hX1last, hX1wf,
                 hX1end, hX1len⟩
              rw [busy_clr_flag_busy] at hX1busy
              rw [hm1]
              have hprevX1 : ∀ b, block_get_flag_busy
                  ((fun m => block_set_size_prev m
                    (block_get_size_curr (block_clr_flag_busy B)
                      + block_get_size_curr N + BLOCK_STRUCT_SIZE)) b)
                  = block_get_flag_busy b := fun b => busy_set_size_prev b _
              have hnw1 : noAdjB (patchFirst
                  (fun m => block_set_size_prev m
                    (block_get_size_curr (block_clr_flag_busy B)
                      + block_get_size_curr N + BLOCK_STRUCT_SIZE)) v2)
                  = true :=
                noAdjB_patchFirst _ hprevX1 v2 (noAdjB_tail N v2 hnNv2)
              have hheadw1 := head_busy_patchFirst _ hprevX1 v2 hv2head
              have hendX1 : endOffset (u ++ X1 :: patchFirst
                  (fun m => block_set_size_prev m
                    (block_get_size_curr (block_clr_flag_busy B)
                      + block_get_size_curr N + BLOCK_STRUCT_SIZE)) v2)
                  = ARENA_SIZE := by
                rw [hX1end]
                exact hend1
              have hfirstX1 : block_get_flag_first X1
                  = block_get_flag_first B := by
                simp only [block_get_flag_first, hX1sp, sp_clr_flag_busy]
              have hsufX1 : ∀ k, u.length + 2 + k < bs.length →
                  0 + k < (patchFirst (fun m => block_set_size_prev m
                    (block_get_size_curr (block_clr_flag_busy B)
                      + block_get_size_curr N + BLOCK_STRUCT_SIZE))
                    v2).length
                  ∧ ((patchFirst (fun m => block_set_size_prev m
                      (block_get_size_curr (block_clr_flag_busy B)
                        + block_get_size_curr N + BLOCK_STRUCT_SIZE))
                      v2).getD (0 + k) dummy).offset
                    = (bs.getD (u.length + 2 + k) dummy).offset
                  ∧ block_get_flag_busy ((patchFirst
                      (fun m => block_set_size_prev m
                        (block_get_size_curr (block_clr_flag_busy B)
                          + block_get_size_curr N + BLOCK_STRUCT_SIZE))
                      v2).getD (0 + k) dummy)
                    = block_get_flag_busy (bs.getD (u.length + 2 + k) dummy)
                  ∧ block_get_size_curr ((patchFirst
                      (fun m => block_set_size_prev m
                        (block_get_size_curr (block_clr_flag_busy B)
                          + block_get_size_curr N + BLOCK_STRUCT_SIZE))
                      v2).getD (0 + k) dummy)
                    = block_get_size_curr
                      (bs.getD (u.length + 2 + k) dummy) := by
                intro k hk
                have hpp := patchFirst_getD_pres _
                  (fun b => off_set_size_prev b _) hprevX1
                  (fun b => get_set_size_prev b _) v2 k
                rw [hgetv2 k]
                rw [patchFirst_length]
                rw [show (0 : Nat) + k = k from by omega]
                exact ⟨by omega, hpp.1, hpp.2.1, hpp.2.2⟩
              rcases List.eq_nil_or_concat u with hu0 | ⟨u2, P, hu2⟩
              · subst hu0
                simp only [List.nil_append, List.length_nil] at hlenbs ⊢
                have hsp0 : B.size_prev = 0 := by
                  have h2 := wfChain_head_sp 0 0 bs hwf
                  rw [hdec] at h2
                  simpa using h2
                have hfB : block_get_flag_first B = true := by
                  simp [block_get_flag_first, hsp0]
                have hs2 : free_step2 a
                    (X1 :: patchFirst (fun m => block_set_size_prev m
                      (block_get_size_curr (block_clr_flag_busy B)
                        + block_get_size_curr N + BLOCK_STRUCT_SIZE)) v2,
                     tree_remove st.tree (a, N.offset)) 0
                    = (X1 :: patchFirst (fun m => block_set_size_prev m
                        (block_get_size_curr (block_clr_flag_busy B)
                          + block_get_size_curr N + BLOCK_STRUCT_SIZE)) v2,
                       tree_remove st.tree (a, N.offset), 0) := by
                  unfold free_step2
                  dsimp only
                  rw [show (X1 :: patchFirst
                      (fun m => block_set_size_prev m
                        (block_get_size_curr (block_clr_flag_busy B)
                          + block_get_size_curr N + BLOCK_STRUCT_SIZE))
                      v2).getD 0 dummy = X1 from rfl]
                  rw [hfirstX1, hfB]
                  rw [if_neg (by decide : ¬((!true) = true))]
                rw [hs2]
                unfold free_final
                dsimp only
                rw [show (X1 :: patchFirst
                    (fun m => block_set_size_prev m
                      (block_get_size_curr (block_clr_flag_busy B)
                        + block_get_size_curr N + BLOCK_STRUCT_SIZE))
                    v2).getD 0 dummy = X1 from rfl]
                rw [OpResult_st_ite]
                dsimp only
                refine free_finish st a [] _ X1
                  (tree_remove st.tree (a, N.offset)) ha hInv hX1wf hX1busy
                  rfl hnw1 (fun x hx => by simp at hx) hheadw1 hendX1 ?_ ?_
                · refine free_ht2 st a bs [] _ X1 _ 2 0 [N.offset] hbs hInv
                    hX1wf hendX1 ?_ ?_ ?_
                    (fun e he => (tree_remove_mem _ _ e he).1) ?_
                  · intro j hj
                    simp at hj
                  · intro k hk
                    have := hsufX1 k (by simpa using hk)
                    simpa using this
                  · intro j h1 h2 h3
                    have hj2 : j = 0 ∨ j = 1 := by omega
                    rcases hj2 with hj2 | hj2
                    · subst hj2
                      left
                      have hg : bs.getD 0 dummy = B := by
                        rw [hdec]
                        rfl
                      rw [hg]
                      exact hbusyB0
                    · subst hj2
                      right
                      have hg : bs.getD 1 dummy = N := by
                        rw [hdec]
                        rfl
                      rw [hg]
                      exact List.mem_cons_self _ _
                  · intro e he hea
                    have hne := (tree_remove_mem _ _ e he).2
                    simp only [List.mem_cons, List.not_mem_nil, or_false]
                    intro h2
                    refine hne ?_
                    have hpair : e.loc = (e.loc.1, e.loc.2) := rfl
                    rw [hpair, hea, h2]
                · intro e he
                  have hX1offB : X1.offset
                      = (block_clr_flag_busy B).offset := hX1off
                  rw [hX1offB, off_clr_flag_busy]
                  exact hnotB e ((tree_remove_mem _ _ e he).1)
              · rw [List.concat_eq_append] at hu2
                have hulen2 : u.length = u2.length + 1 := by
                  rw [hu2]
                  simp
                have hspmin : BLOCK_SIZE_MIN ≤ B.size_prev := by
                  have h2 := wfChain_interior_sp 0 0 bs hwf u.length
                    (by omega) (by omega)
                  rw [hgetBu] at h2
                  exact h2
                have hfB : block_get_flag_first B = false := by
                  simp only [block_get_flag_first]
                  simp only [beq_eq_false_iff_ne, ne_eq]
                  omega
                have hassocB : u ++ X1 :: patchFirst
                    (fun m => block_set_size_prev m
                      (block_get_size_curr (block_clr_flag_busy B)
                        + block_get_size_curr N + BLOCK_STRUCT_SIZE)) v2
                    = u2 ++ (P :: X1 :: patchFirst
                      (fun m => block_set_size_prev m
                        (block_get_size_curr (block_clr_flag_busy B)
                          + block_get_size_curr N + BLOCK_STRUCT_SIZE))
                      v2) := by
                  rw [hu2, List.append_assoc]
                  rfl
                have hlenm1 : u.length - 1 = u2.length := by omega
                have hgetP : (u ++ X1 :: patchFirst
                    (fun m => block_set_size_prev m
                      (block_get_size_curr (block_clr_flag_busy B)
                        + block_get_size_curr N + BLOCK_STRUCT_SIZE))
                    v2).getD (u.length - 1) dummy = P := by
                  rw [hlenm1, hassocB, getD_append_len]
                  rfl
                have hgetPbs : bs.getD u2.length dummy = P := by
                  rw [hdec, hu2, List.append_assoc, getD_append_len]
                  rfl
                have hgetB2 : bs.getD (u2.length + 1) dummy = B := by
                  rw [hdec, hu2, List.append_assoc, getD_append_add]
                  rfl
                have hgetN2 : bs.getD (u2.length + 2) dummy = N := by
                  rw [hdec, hu2, List.append_assoc, getD_append_add]
                  rfl
                cases hPb : block_get_flag_busy P with
                | true =>
                  have hs2 : free_step2 a
                      (u ++ X1 :: patchFirst
                        (fun m => block_set_size_prev m
                          (block_get_size_curr (block_clr_flag_busy B)
                            + block_get_size_curr N + BLOCK_STRUCT_SIZE))
                        v2,
                       tree_remove st.tree (a, N.offset)) u.length
                      = (u ++ X1 :: patchFirst
                          (fun m => block_set_size_prev m
                            (block_get_size_curr (block_clr_flag_busy B)
                              + block_get_size_curr N + BLOCK_STRUCT_SIZE))
                          v2,
                         tree_remove st.tree (a, N.offset), u.length) := by
                    unfold free_step2
                    dsimp only
                    rw [show (u ++ X1 :: patchFirst
                        (fun m => block_set_size_prev m
                          (block_get_size_curr (block_clr_flag_busy B)
                            + block_get_size_curr N + BLOCK_STRUCT_SIZE))
                        v2).getD u.length dummy = X1 from by
                      rw [getD_append_len]; rfl]
                    rw [hfirstX1, hfB]
                    rw [if_pos (by decide : (!false) = true)]
                    rw [hgetP, hPb]
                    rw [if_neg (by decide : ¬((!true) = true))]
                  rw [hs2]
                  unfold free_final
                  dsimp only
                  rw [show (u ++ X1 :: patchFirst
                      (fun m => block_set_size_prev m
                        (block_get_size_curr (block_clr_flag_busy B)
                          + block_get_size_curr N + BLOCK_STRUCT_SIZE))
                      v2).getD u.length dummy = X1 from by
                    rw [getD_append_len]; rfl]
                  rw [OpResult_st_ite]
                  dsimp only
                  refine free_finish st a u _ X1
                    (tree_remove st.tree (a, N.offset)) ha hInv hX1wf
                    hX1busy hnu hnw1 ?_ hheadw1 hendX1 ?_ ?_
                  · intro x hx
                    rw [hu2, List.getLast?_concat] at hx
                    cases hx
                    exact hPb
                  · refine free_ht2 st a bs u _ X1 _ (u.length + 2) 0
                      [N.offset] hbs hInv hX1wf hendX1 ?_ hsufX1 ?_
                      (fun e he => (tree_remove_mem _ _ e he).1) ?_
                    · intro j hj
                      rw [hdec]
                      exact getD_prefix_eq u _ _ j hj
                    · intro j h1 h2 h3
                      have hj2 : j = u.length ∨ j = u.length + 1 := by
                        omega
                      rcases hj2 with hj2 | hj2
                      · subst hj2
                        left
                        rw [hgetBu]
                        exact hbusyB0
                      · subst hj2
                        right
                        rw [hgetNbs]
                        exact List.mem_cons_self _ _
                    · intro e he hea
                      have hne := (tree_remove_mem _ _ e he).2
                      simp only [List.mem_cons, List.not_mem_nil, or_false]
                      intro h2
                      refine hne ?_
                      have hpair : e.loc = (e.loc.1, e.loc.2) := rfl
                      rw [hpair, hea, h2]
                  · intro e he
                    have hX1offB : X1.offset
                        = (block_clr_flag_busy B).offset := hX1off
                    rw [hX1offB, off_clr_flag_busy]
                    exact hnotB e ((tree_remove_mem _ _ e he).1)
                | false =>
                  have hs2 : free_step2 a
                      (u ++ X1 :: patchFirst
                        (fun m => block_set_size_prev m
                          (block_get_size_curr (block_clr_flag_busy B)
                            + block_get_size_curr N + BLOCK_STRUCT_SIZE))
                        v2,
                       tree_remove st.tree (a, N.offset)) u.length
                      = (block_merge (u ++ X1 :: patchFirst
                          (fun m => block_set_size_prev m
                            (block_get_size_curr (block_clr_flag_busy B)
                              + block_get_size_curr N + BLOCK_STRUCT_SIZE))
                          v2) (u.length - 1),
                         tree_remove (tree_remove st.tree (a, N.offset))
                           (a, P.offset),
                         u.length - 1) := by
                    unfold free_step2
                    dsimp only
                    rw [show (u ++ X1 :: patchFirst
                        (fun m => block_set_size_prev m
                          (block_get_size_curr (block_clr_flag_busy B)
                            + block_get_size_curr N + BLOCK_STRUCT_SIZE))
                        v2).getD u.length dummy = X1 from by
                      rw [getD_append_len]; rfl]
                    rw [hfirstX1, hfB]
                    rw [if_pos (by decide : (!false) = true)]
                    rw [hgetP, hPb]
                    rw [if_pos (by decide : (!false) = true)]
                  rw [hs2]
                  rw [hlenm1, hassocB]
                  have hwfP : wfChain 0 0 (u2 ++ (P :: X1 :: patchFirst
                      (fun m => block_set_size_prev m
                        (block_get_size_curr (block_clr_flag_busy B)
                          + block_get_size_curr N + BLOCK_STRUCT_SIZE))
                      v2)) = true := by
                    rw [← hassocB]
                    exact hX1wf
                  rcases merge_state u2 P X1 (patchFirst
                      (fun m => block_set_size_prev m
                        (block_get_size_curr (block_clr_flag_busy B)
                          + block_get_size_curr N + BLOCK_STRUCT_SIZE))
                      v2) hwfP with
                    ⟨X2, hm2, hX2off, hX2sp, hX2busy, hX2get, hX2last,
                     hX2wf, hX2end, hX2len⟩
                  rw [hm2]
                  unfold free_final
                  dsimp only
                  rw [show (u2 ++ X2 :: patchFirst
                      (fun m => block_set_size_prev m
                        (block_get_size_curr P + block_get_size_curr X1
                          + BLOCK_STRUCT_SIZE))
                      (patchFirst (fun m => block_set_size_prev m
                        (block_get_size_curr (block_clr_flag_busy B)
                          + block_get_size_curr N + BLOCK_STRUCT_SIZE))
                        v2)).getD u2.length dummy = X2 from by
                    rw [getD_append_len]; rfl]
                  rw [OpResult_st_ite]
                  dsimp only
                  have hprevX2 : ∀ b, block_get_flag_busy
                      ((fun m => block_set_size_prev m
                        (block_get_size_curr P + block_get_size_curr X1
                          + BLOCK_STRUCT_SIZE)) b)
                      = block_get_flag_busy b :=
                    fun b => busy_set_size_prev b _
                  have hnu2 := (noAdjB_append_iff u2 [P]).mp (by
                    rw [← hu2]
                    exact hnu)
                  refine free_finish st a u2 _ X2
                    (tree_remove (tree_remove st.tree (a, N.offset))
                      (a, P.offset)) ha hInv hX2wf
                    (by rw [hX2busy]; exact hPb) hnu2.1
                    (noAdjB_patchFirst _ hprevX2 _ hnw1) ?_
                    (head_busy_patchFirst _ hprevX2 _ hheadw1) ?_ ?_ ?_
                  · intro x hx
                    rcases hnu2.2.2 x hx P (by rw [List.head?_cons]) with
                      h | h
                    · exact h
                    · rw [hPb] at h
                      cases h
                  · rw [hX2end, ← hassocB]
                    exact hendX1
                  · refine free_ht2 st a bs u2 _ X2 _ (u.length + 2) 0
                      [N.offset, P.offset] hbs hInv hX2wf
                      (by rw [hX2end, ← hassocB]; exact hendX1) ?_ ?_ ?_
                      (fun e he => (tree_remove_mem _ _ e
                        ((tree_remove_mem _ _ e he).1)).1) ?_
                    · intro j hj
                      rw [hdec, hu2, List.append_assoc]
                      exact getD_prefix_eq u2 _ _ j hj
                    · intro k hk
                      have hs1k := hsufX1 k hk
                      have hpp := patchFirst_getD_pres _
                        (fun b => off_set_size_prev b _) hprevX2
                        (fun b => get_set_size_prev b _)
                        (patchFirst (fun m => block_set_size_prev m
                          (block_get_size_curr (block_clr_flag_busy B)
                            + block_get_size_curr N + BLOCK_STRUCT_SIZE))
                          v2) (0 + k)
                      rw [patchFirst_length]
                      refine ⟨hs1k.1, ?_, ?_, ?_⟩
                      · rw [hpp.1]
                        exact hs1k.2.1
                      · rw [hpp.2.1]
                        exact hs1k.2.2.1
                      · rw [hpp.2.2]
                        exact hs1k.2.2.2
                    · intro j h1 h2 h3
                      have hj2 : j = u2.length ∨ j = u2.length + 1
                          ∨ j = u2.length + 2 := by omega
                      rcases hj2 with hj2 | hj2 | hj2
                      · subst hj2
                        right
                        rw [hgetPbs]
                        simp
                      · subst hj2
                        left
                        rw [hgetB2]
                        exact hbusyB0
                      · subst hj2
                        right
                        rw [hgetN2]
                        simp
                    · intro e he hea
                      have hneP := (tree_remove_mem _ _ e he).2
                      have hneN := (tree_remove_mem _ _ e
                        ((tree_remove_mem _ _ e he).1)).2
                      simp only [List.mem_cons, List.not_mem_nil, or_false]
                      intro h2
                      have hpair : e.loc = (e.loc.1, e.loc.2) := rfl
                      rcases h2 with h2 | h2
                      · refine hneN ?_
                        rw [hpair, hea, h2]
                      · refine hneP ?_
                        rw [hpair, hea, h2]
                  · intro e he
                    rw [hX2off]
                    exact (tree_remove_mem _ _ e he).2


theorem mem_alloc_inv_pres (st : AllocState) (oom : Bool) (size : Nat)
    (hInv : inv st = true) :
    inv (mem_alloc st oom size).st = true
    ∧ ∀ a2 off2 bs2, st.arenas.getD a2 none = some bs2 →
        ∀ j2, j2 < bs2.length →
        (bs2.getD j2 dummy).offset = off2 →
        block_get_flag_busy (bs2.getD j2 dummy) = true →
        ptrBusy (mem_alloc st oom size).st (Ptr.mk a2 off2) = true := by
  by_cases hbig : BLOCK_SIZE_MAX < size
  · simp only [mem_alloc]
    rw [if_pos hbig]
    by_cases hovf : SIZE_MAX - (ALIGN - 1) < size
    · rw [if_pos hovf]
      exact ⟨hInv, ptrBusy_resolve_inv st hInv⟩
    · rw [if_neg hovf]
      obtain ⟨asz, hasz⟩ : ∃ z, ROUND_BYTES size / ALLOCATOR_PAGE_SIZE
          * ALLOCATOR_PAGE_SIZE + BLOCK_STRUCT_SIZE = z := ⟨_, rfl⟩
      rw [hasz]
      cases oom with
      | true =>
        obtain ⟨ev, haa⟩ : ∃ ev, arena_alloc true asz = (none, ev) := by
          unfold arena_alloc
          by_cases h : BLOCK_SIZE_MAX < asz
          · rw [if_pos h, if_pos rfl]
            exact ⟨_, rfl⟩
          · rw [if_neg h, if_pos rfl]
            exact ⟨_, rfl⟩
        rw [haa]
        exact ⟨hInv, ptrBusy_resolve_inv st hInv⟩
      | false =>
        obtain ⟨Z, ev, haa, hZ4, hZmin⟩ : ∃ Z ev,
            arena_alloc false asz = (some [arena_init Z], ev)
            ∧ Z % 4 = 0 ∧ BLOCK_SIZE_MIN ≤ Z := by
          unfold arena_alloc
          have hPG : ALLOCATOR_PAGE_SIZE = 4096 := rfl
          have hBSSc : BLOCK_STRUCT_SIZE = 32 := rfl
          have hMAXc : BLOCK_SIZE_MAX = 65504 := rfl
          rw [hPG, hBSSc] at hasz
          by_cases h : BLOCK_SIZE_MAX < asz
          · rw [if_pos h, if_neg (by decide : ¬(false = true))]
            refine ⟨asz - BLOCK_STRUCT_SIZE, _, rfl, ?_, ?_⟩
            · omega
            · have hMINc : BLOCK_SIZE_MIN = 48 := rfl
              omega
          · rw [if_neg h, if_neg (by decide : ¬(false = true))]
            exact ⟨ARENA_SIZE - BLOCK_STRUCT_SIZE, _, rfl, by decide,
              by decide⟩
        rw [haa]
        dsimp only
        refine ⟨?_, ?_⟩
        · exact inv_append_arena st _ hInv (invArena_fresh Z hZ4 hZmin)
        · intro a2 off2 bs2 hbs2 j2 hj2 hoff2 hbusy2
          refine ptrBusy_of_resolve _ a2 off2 bs2 ?_
            (inv_arena_facts st a2 bs2 hInv hbs2).1 j2 hj2 hoff2 hbusy2
          rw [getD_append_lt _ _ _ _ (getD_lt_length _ _ _ hbs2)]
          exact hbs2
  · simp only [mem_alloc]
    rw [if_neg hbig]
    obtain ⟨s1, hs1⟩ : ∃ s1,
        (if size < BLOCK_SIZE_MIN then BLOCK_SIZE_MIN else size) = s1 :=
      ⟨_, rfl⟩
    rw [hs1]
    obtain ⟨A, hA⟩ : ∃ A, ROUND_BYTES s1 = A := ⟨_, rfl⟩
    rw [hA]
    have hMAXc : BLOCK_SIZE_MAX = 65504 := rfl
    have hMINc : BLOCK_SIZE_MIN = 48 := rfl
    have hBSSc : BLOCK_STRUCT_SIZE = 32 := rfl
    have hARENAc : ARENA_SIZE = 65536 := rfl
    have hs1b : BLOCK_SIZE_MIN ≤ s1 ∧ s1 ≤ BLOCK_SIZE_MAX := by
      by_cases h : size < BLOCK_SIZE_MIN
      · rw [if_pos h] at hs1
        omega
      · rw [if_neg h] at hs1
        omega
    have hAfacts : A % 4 = 0 ∧ BLOCK_SIZE_MIN ≤ A ∧ A ≤ BLOCK_SIZE_MAX := by
      have h2 := hA
      rw [ROUND_BYTES] at h2
      have hMOD : SIZE_T_MOD = 18446744073709551616 := rfl
      have hAL : ALIGN = 16 := rfl
      rw [hMOD, hAL] at h2
      omega
    obtain ⟨hA4, hAmin, hAmax⟩ := hAfacts
    cases hfind : tree_find_best st.tree A with
    | none =>
      dsimp only
      cases oom with
      | true =>
        obtain ⟨ev, haa⟩ : ∃ ev, arena_alloc true A = (none, ev) := by
          unfold arena_alloc
          rw [if_neg (by omega), if_pos rfl]
          exact ⟨_, rfl⟩
        rw [haa]
        exact ⟨hInv, ptrBusy_resolve_inv st hInv⟩
      | false =>
        obtain ⟨ev, haa⟩ : ∃ ev, arena_alloc false A
            = (some [arena_init (ARENA_SIZE - BLOCK_STRUCT_SIZE)], ev) := by
          unfold arena_alloc
          rw [if_neg (by omega), if_neg (by decide : ¬(false = true))]
          exact ⟨_, rfl⟩
        rw [haa]
        dsimp only
        have hB0get : block_get_size_curr
            (arena_init (ARENA_SIZE - BLOCK_STRUCT_SIZE)) = 65504 := by
          rw [show ARENA_SIZE - BLOCK_STRUCT_SIZE = 65504 from rfl]
          exact get_arena_init 65504 (by decide)
        have hwf0 : wfChain 0 0
            ([] ++ arena_init (ARENA_SIZE - BLOCK_STRUCT_SIZE) :: []) = true := by
          simp only [List.nil_append]
          rw [wfChain_single_iff]
          refine ⟨rfl, rfl, ?_, ?_⟩
          · rw [arena_init]
            exact last_set_flag_last _
          · rw [hB0get]
            decide
        have hend65 : endOffset
            [arena_init (ARENA_SIZE - BLOCK_STRUCT_SIZE)] = ARENA_SIZE := by
          rw [endOffset_single, hB0get]
          rfl
        by_cases hrem : BLOCK_STRUCT_SIZE + BLOCK_SIZE_MIN
            ≤ block_get_size_curr (arena_init (ARENA_SIZE
              - BLOCK_STRUCT_SIZE)) - A
        · rcases split_state_rem [] []
              (arena_init (ARENA_SIZE - BLOCK_STRUCT_SIZE)) A hwf0
              hA4 hAmin hrem with
            ⟨B2, Br, heq, hB2busy, hB2off, hB2sp, hB2get, hBrbusy, hBrget,
             hBroff, hBrsp, hwfL, hendL, hlenL⟩
          simp only [List.nil_append, List.length_nil, patchFirst] at heq hwfL hendL
          have hnadjL : noAdjB [B2, Br] = true :=
            noAdjB_cons_of_busy B2 [Br] hB2busy rfl
          rw [heq]
          dsimp only
          refine ⟨?_, ?_⟩
          · apply inv_intro
            · intro oa hoa
              rcases List.mem_append.mp hoa with h | h
              · exact (inv_elim st hInv).1 oa h
              · rw [List.mem_singleton.mp h]
                rw [invArena_some_iff]
                refine ⟨hwfL, hnadjL, Or.inl ?_⟩
                rw [hendL]
                exact hend65
            · intro e2 he2
              rcases tree_add_mem _ _ e2 he2 with h | h
              · exact treeEntryOK_append_arenas st _ _ e2
                  ((inv_elim st hInv).2 e2 h)
              · subst h
                refine treeEntryOK_of_resolve _ _ _ (B2 :: Br :: []) 1
                  ?_ hwfL (by simp) ?_ ?_ ?_ ?_ ?_
                · dsimp only
                  rw [getD_append_len]
                  rfl
                · rfl
                · exact hBrbusy
                · rfl
                · dsimp only
                  rw [hBrget, hB0get]
                  omega
                · rw [hendL]
                  exact hend65
          · intro a2 off2 bs2 hbs2 j2 hj2 hoff2 hbusy2
            refine ptrBusy_of_resolve _ a2 off2 bs2 ?_
              (inv_arena_facts st a2 bs2 hInv hbs2).1 j2 hj2 hoff2 hbusy2
            rw [getD_append_lt _ _ _ _ (getD_lt_length _ _ _ hbs2)]
            exact hbs2
        · rcases split_state_norem [] []
              (arena_init (ARENA_SIZE - BLOCK_STRUCT_SIZE)) A hwf0 rfl
              (by omega) with ⟨heq, hwfL, hnadjL, hendL, hlenL⟩
          simp only [List.nil_append, List.length_nil] at heq hwfL hnadjL hendL
          rw [heq]
          dsimp only
          refine ⟨?_, ?_⟩
          · refine inv_append_arena st _ hInv ?_
            rw [invArena_some_iff]
            refine ⟨hwfL, hnadjL, Or.inl ?_⟩
            rw [hendL]
            exact hend65
          · intro a2 off2 bs2 hbs2 j2 hj2 hoff2 hbusy2
            refine ptrBusy_of_resolve _ a2 off2 bs2 ?_
              (inv_arena_facts st a2 bs2 hInv hbs2).1 j2 hj2 hoff2 hbusy2
            rw [getD_append_lt _ _ _ _ (getD_lt_length _ _ _ hbs2)]
            exact hbs2
    | some e =>
      dsimp only
      rcases tree_find_best_mem st.tree A e hfind with ⟨heMem, heKey⟩
      have hOK := (inv_elim st hInv).2 e heMem
      rcases treeEntryOK_elim st e hOK with
        ⟨bs3, hbs3, hjlt, hoffj, hbusyj, hkeyj, hkeymax, hendb⟩
      rw [hbs3, Option.getD_some]
      obtain ⟨B, hB⟩ : ∃ B, bs3.getD (blockIdx bs3 e.loc.2) dummy = B :=
        ⟨_, rfl⟩
      rw [hB] at hoffj hbusyj hkeyj
      obtain ⟨u, v, hdec, hulen⟩ :
          ∃ u v, bs3 = u ++ B :: v
            ∧ u.length = blockIdx bs3 e.loc.2 := by
        refine ⟨bs3.take (blockIdx bs3 e.loc.2),
          bs3.drop (blockIdx bs3 e.loc.2 + 1), ?_, ?_⟩
        · conv_lhs => rw [decompose_at bs3 (blockIdx bs3 e.loc.2) dummy hjlt]
          rw [hB]
        · rw [List.length_take]
          omega
      rw [← hulen, hdec]
      rcases inv_arena_facts st e.loc.1 bs3 hInv hbs3 with ⟨hwf, hnadj, _⟩
      have hwfdec : wfChain 0 0 (u ++ B :: v) = true := by
        rw [← hdec]
        exact hwf
      have hnadjdec : noAdjB (u ++ B :: v) = true := by
        rw [← hdec]
        exact hnadj
      rcases (noAdjB_append_iff u (B :: v)).mp hnadjdec with
        ⟨hnu, hnBv, hnbound⟩
      have hv : ∀ y, v.head? = some y → block_get_flag_busy y = true := by
        intro y hy
        cases v with
        | nil => simp at hy
        | cons c r =>
          rw [List.head?_cons] at hy
          injection hy with hy2
          rw [← hy2]
          rcases ((noAdjB_cons_cons B c r).mp hnBv).1 with h | h
          · rw [hbusyj] at h
            exact absurd h (by decide)
          · exact h
      have hgetBu : bs3.getD u.length dummy = B := by
        rw [hdec, getD_append_len]
        rfl
      have hlenbs : bs3.length = u.length + 1 + v.length := by
        rw [hdec]
        simp only [List.length_append, List.length_cons]
        omega
      have hAkey : A ≤ block_get_size_curr B := by
        rw [hkeyj]
        exact heKey
      by_cases hrem : BLOCK_STRUCT_SIZE + BLOCK_SIZE_MIN
          ≤ block_get_size_curr B - A
      · rcases split_state_rem u v B A hwfdec hA4 hAmin hrem
            with ⟨B2, Br, heq, hB2busy, hB2off, hB2sp, hB2get, hBrbusy,
              hBrget, hBroff, hBrsp, hwfL, hendL, hlenL⟩
        have hnadjL : noAdjB (u ++ B2 :: Br :: patchFirst
            (fun n => block_set_size_prev n
              (block_get_size_curr B - A - BLOCK_STRUCT_SIZE)) v) = true := by
          refine noAdjB_split_shape u _ B2 Br hnu hB2busy ?_ ?_
          · exact noAdjB_patchFirst _ (fun b => busy_set_size_prev b _) v
              (noAdjB_tail B v hnBv)
          · intro y hy
            exact Or.inr (head_busy_patchFirst _
              (fun b => busy_set_size_prev b _) v hv y hy)
        rw [heq]
        dsimp only
        have hendL2 : endOffset (u ++ B2 :: Br :: patchFirst
            (fun n => block_set_size_prev n
              (block_get_size_curr B - A - BLOCK_STRUCT_SIZE)) v)
            = ARENA_SIZE := by
          rw [hendL, ← hdec]
          exact hendb
        have hpreL : ∀ j4, j4 < u.length →
            (u ++ B2 :: Br :: patchFirst
              (fun n => block_set_size_prev n
                (block_get_size_curr B - A - BLOCK_STRUCT_SIZE)) v).getD
              j4 dummy = bs3.getD j4 dummy := by
          intro j4 hj4
          rw [hdec]
          exact getD_prefix_eq u _ _ j4 hj4
        have hsufL : ∀ k, u.length + 1 + k < bs3.length →
            1 + k < (Br :: patchFirst
              (fun n => block_set_size_prev n
                (block_get_size_curr B - A - BLOCK_STRUCT_SIZE)) v).length
            ∧ ((Br :: patchFirst (fun n => block_set_size_prev n
                (block_get_size_curr B - A - BLOCK_STRUCT_SIZE)) v).getD
                (1 + k) dummy).offset
              = (bs3.getD (u.length + 1 + k) dummy).offset
            ∧ block_get_flag_busy ((Br :: patchFirst
                (fun n => block_set_size_prev n
                  (block_get_size_curr B - A - BLOCK_STRUCT_SIZE)) v).getD
                (1 + k) dummy)
              = block_get_flag_busy (bs3.getD (u.length + 1 + k) dummy)
            ∧ block_get_size_curr ((Br :: patchFirst
                (fun n => block_set_size_prev n
                  (block_get_size_curr B - A - BLOCK_STRUCT_SIZE)) v).getD
                (1 + k) dummy)
              = block_get_size_curr
                (bs3.getD (u.length + 1 + k) dummy) := by
          intro k hk
          have hbsk : bs3.getD (u.length + 1 + k) dummy = v.getD k dummy := by
            rw [hdec, show u.length + 1 + k = u.length + (1 + k) from by
              omega, getD_append_add, show 1 + k = k + 1 from by omega,
              List.getD_cons_succ]
          have hwk : (Br :: patchFirst (fun n => block_set_size_prev n
              (block_get_size_curr B - A - BLOCK_STRUCT_SIZE)) v).getD
              (1 + k) dummy
              = (patchFirst (fun n => block_set_size_prev n
                (block_get_size_curr B - A - BLOCK_STRUCT_SIZE)) v).getD
                k dummy := by
            rw [show 1 + k = k + 1 from by omega, List.getD_cons_succ]
          have hpp := patchFirst_getD_pres
            (fun n => block_set_size_prev n
              (block_get_size_curr B - A - BLOCK_STRUCT_SIZE))
            (fun b => off_set_size_prev b _)
            (fun b => busy_set_size_prev b _)
            (fun b => get_set_size_prev b _) v k
          rw [hbsk, hwk]
          refine ⟨?_, hpp.1, hpp.2.1, hpp.2.2⟩
          simp only [List.length_cons, patchFirst_length]
          omega
        refine ⟨?_, ?_⟩
        · apply inv_update_arena st e.loc.1 _ _ hInv
          · rw [invArena_some_iff]
            exact ⟨hwfL, hnadjL, Or.inl hendL2⟩
          · intro e2 he2
            rcases tree_add_mem _ _ e2 he2 with h | h
            · have hsub := (tree_remove_mem _ _ e2 h).1
              have hne := (tree_remove_mem _ _ e2 h).2
              by_cases hea : e2.loc.1 = e.loc.1
              · refine entry_transport st e.loc.1 bs3 _ _ e2 hbs3 hwfL
                  hendL2 ((inv_elim st hInv).2 e2 hsub) hea ?_
                intro j3 hj3 hoffj3 hbusyj3 hkeyj3
                refine free_entry_map bs3 u _ B2 (u.length + 1) 1
                  [e.loc.2] hpreL hsufL ?_ j3 e2.loc.2 e2.key hj3 hoffj3
                  hbusyj3 hkeyj3 ?_
                · intro j4 h1 h2 h3
                  have hj4 : j4 = u.length := by omega
                  subst hj4
                  right
                  rw [hgetBu, hoffj]
                  exact List.mem_cons_self _ _
                · simp only [List.mem_cons, List.not_mem_nil, or_false]
                  intro hq
                  refine hne ?_
                  have hpair : e2.loc = (e2.loc.1, e2.loc.2) := rfl
                  rw [hpair, hea, hq]
              · exact treeEntryOK_set_arenas st _ _ _ e2 hea
                  ((inv_elim st hInv).2 e2 hsub)
            · subst h
              refine treeEntryOK_of_resolve _ _ _ _ (u.length + 1) ?_ hwfL
                ?_ ?_ ?_ ?_ ?_ ?_
              · dsimp only
                exact getD_set_self _ _ _ _ (getD_lt_length _ _ _ hbs3)
              · simp only [List.length_append, List.length_cons]
                omega
              · rw [getD_append_add]
                rfl
              · rw [getD_append_add]
                exact hBrbusy
              · rw [getD_append_add]
                rfl
              · dsimp only
                rw [hBrget]
                omega
              · exact hendL2
        · intro a2 off2 bs2 hbs2 j2 hj2 hoff2 hbusy2
          by_cases hea2 : a2 = e.loc.1
          · subst hea2
            have hbseq : bs2 = bs3 := by
              rw [hbs2] at hbs3
              injection hbs3
            subst hbseq
            have hne2 : j2 ≠ u.length := by
              intro h
              subst h
              rw [hgetBu] at hbusy2
              rw [hbusyj] at hbusy2
              exact absurd hbusy2 (by decide)
            rcases getD_transport_ne bs2 u _ B2 1 hpreL hsufL j2 hj2 hne2
              with ⟨j5, hj5, ho5, hb5, hg5⟩
            refine ptrBusy_of_resolve _ e.loc.1 off2 _ ?_ hwfL j5 hj5 ?_ ?_
            · exact getD_set_self _ _ _ _ (getD_lt_length _ _ _ hbs2)
            · rw [ho5, hoff2]
            · rw [hb5, hbusy2]
          · refine ptrBusy_of_resolve _ a2 off2 bs2 ?_
              (inv_arena_facts st a2 bs2 hInv hbs2).1 j2 hj2 hoff2 hbusy2
            rw [getD_set_ne _ _ _ _ _ (by omega)]
            exact hbs2
      · rcases split_state_norem u v B A hwfdec hnadjdec (by omega) with
          ⟨heq, hwfL, hnadjL, hendL, hlenL⟩
        rw [heq]
        dsimp only
        have hendL2 : endOffset (u ++ block_set_flag_busy B :: v)
            = ARENA_SIZE := by
          rw [hendL, ← hdec]
          exact hendb
        have hpreL : ∀ j4, j4 < u.length →
            (u ++ block_set_flag_busy B :: v).getD j4 dummy
            = bs3.getD j4 dummy := by
          intro j4 hj4
          rw [hdec]
          exact getD_prefix_eq u _ _ j4 hj4
        have hsufL : ∀ k, u.length + 1 + k < bs3.length →
            0 + k < v.length
            ∧ (v.getD (0 + k) dummy).offset
              = (bs3.getD (u.length + 1 + k) dummy).offset
            ∧ block_get_flag_busy (v.getD (0 + k) dummy)
              = block_get_flag_busy (bs3.getD (u.length + 1 + k) dummy)
            ∧ block_get_size_curr (v.getD (0 + k) dummy)
              = block_get_size_curr
                (bs3.getD (u.length + 1 + k) dummy) := by
          intro k hk
          have hbsk : bs3.getD (u.length + 1 + k) dummy = v.getD k dummy := by
            rw [hdec, show u.length + 1 + k = u.length + (1 + k) from by
              omega, getD_append_add, show 1 + k = k + 1 from by omega,
              List.getD_cons_succ]
          rw [hbsk, show (0 : Nat) + k = k from by omega]
          exact ⟨by omega, rfl, rfl, rfl⟩
        refine ⟨?_, ?_⟩
        · apply inv_update_arena st e.loc.1 _ _ hInv
          · rw [invArena_some_iff]
            exact ⟨hwfL, hnadjL, Or.inl hendL2⟩
          · intro e2 he2
            have hsub := (tree_remove_mem _ _ e2 he2).1
            have hne := (tree_remove_mem _ _ e2 he2).2
            by_cases hea : e2.loc.1 = e.loc.1
            · refine entry_transport st e.loc.1 bs3 _ _ e2 hbs3 hwfL
                hendL2 ((inv_elim st hInv).2 e2 hsub) hea ?_
              intro j3 hj3 hoffj3 hbusyj3 hkeyj3
              refine free_entry_map bs3 u v (block_set_flag_busy B)
                (u.length + 1) 0 [e.loc.2] hpreL hsufL ?_ j3 e2.loc.2
                e2.key hj3 hoffj3 hbusyj3 hkeyj3 ?_
              · intro j4 h1 h2 h3
                have hj4 : j4 = u.length := by omega
                subst hj4
                right
                rw [hgetBu, hoffj]
                exact List.mem_cons_self _ _
              · simp only [List.mem_cons, List.not_mem_nil, or_false]
                intro hq
                refine hne ?_
                have hpair : e2.loc = (e2.loc.1, e2.loc.2) := rfl
                rw [hpair, hea, hq]
            · exact treeEntryOK_set_arenas st _ _ _ e2 hea
                ((inv_elim st hInv).2 e2 hsub)
        · intro a2 off2 bs2 hbs2 j2 hj2 hoff2 hbusy2
          by_cases hea2 : a2 = e.loc.1
          · subst hea2
            have hbseq : bs2 = bs3 := by
              rw [hbs2] at hbs3
              injection hbs3
            subst hbseq
            have hne2 : j2 ≠ u.length := by
              intro h
              subst h
              rw [hgetBu] at hbusy2
              rw [hbusyj] at hbusy2
              exact absurd hbusy2 (by decide)
            rcases getD_transport_ne bs2 u v (block_set_flag_busy B) 0
              hpreL hsufL j2 hj2 hne2 with ⟨j5, hj5, ho5, hb5, hg5⟩
            refine ptrBusy_of_resolve _ e.loc.1 off2 _ ?_ hwfL j5 hj5 ?_ ?_
            · exact getD_set_self _ _ _ _ (getD_lt_length _ _ _ hbs2)
            · rw [ho5, hoff2]
            · rw [hb5, hbusy2]
          · refine ptrBusy_of_resolve _ a2 off2 bs2 ?_
              (inv_arena_facts st a2 bs2 hInv hbs2).1 j2 hj2 hoff2 hbusy2
            rw [getD_set_ne _ _ _ _ _ (by omega)]
            exact hbs2


theorem movePath_inv (st : AllocState) (a off : Nat) (oom : Bool)
    (size sc : Nat) (bs : List Block)
    (hInv : inv st = true)
    (hbs : st.arenas.getD a none = some bs)
    (hlt : blockIdx bs off < bs.length)
    (hoff : (bs.getD (blockIdx bs off) dummy).offset = off)
    (hbusy : block_get_flag_busy (bs.getD (blockIdx bs off) dummy) = true) :
    inv (movePath st (Ptr.mk a off) oom size sc).st = true := by
  obtain ⟨hInvR, hpres⟩ := mem_alloc_inv_pres st oom size hInv
  unfold movePath
  by_cases hret : ((mem_alloc st oom size).ret == Ptr.null) = true
  · rw [if_pos hret]
    exact hInvR
  · rw [if_neg hret]
    exact mem_free_inv _ _ hInvR
      (hpres a off bs hbs (blockIdx bs off) hlt hoff hbusy)


theorem sizeCurr_le_max (bs3 : List Block) (j : Nat)
    (hwf3 : wfChain 0 0 bs3 = true)
    (hend3 : endOffset bs3 = ARENA_SIZE)
    (hj : j < bs3.length) :
    block_get_size_curr (bs3.getD j dummy) ≤ BLOCK_SIZE_MAX := by
  have hle := wfChain_end_le 0 0 bs3 hwf3 j hj
  rw [hend3] at hle
  have h1 : ARENA_SIZE = 65536 := rfl
  have h2 : BLOCK_STRUCT_SIZE = 32 := rfl
  have h3 : BLOCK_SIZE_MAX = 65504 := rfl
  omega

theorem mem_realloc_inv (st : AllocState) (p : Ptr) (oom : Bool)
    (size0 : Nat) (hsz : size0 ≤ SIZE_MAX - (ALIGN - 1))
    (hInv : inv st = true) (hp : ptrBusy st p = true) :
    inv (mem_realloc st p oom size0).st = true := by
  have hMAXc : BLOCK_SIZE_MAX = 65504 := rfl
  have hARENAc : ARENA_SIZE = 65536 := rfl
  have hBSSc : BLOCK_STRUCT_SIZE = 32 := rfl
  have hMINc : BLOCK_SIZE_MIN = 48 := rfl
  have hnorm : BLOCK_SIZE_MIN ≤ normalizeSize size0
      ∧ normalizeSize size0 % 4 = 0 := by
    have hSMc : SIZE_MAX = 18446744073709551615 := by norm_num [SIZE_MAX, SIZE_T_MOD]
    have hALc : ALIGN = 16 := rfl
    have hTc : SIZE_T_MOD = 18446744073709551616 := by norm_num [SIZE_T_MOD]
    rw [hSMc, hALc] at hsz
    unfold normalizeSize ROUND_BYTES
    rw [hTc, hALc, hMINc]
    by_cases h0 : size0 < 48
    · rw [if_pos h0]
      constructor <;> omega
    · rw [if_neg h0]
      constructor <;> omega
  obtain ⟨hsmin, hs4⟩ := hnorm
  cases p with
  | null =>
    simp only [mem_realloc]
    exact (mem_alloc_inv_pres st oom (normalizeSize size0) hInv).1
  | bogus =>
    simp only [mem_realloc]
    exact hInv
  | mk a off =>
    cases hbs : st.arenas.getD a none with
    | none =>
      simp only [mem_realloc, hbs]
      exact hInv
    | some bs =>
      have hp2 := hp
      unfold ptrBusy at hp2
      dsimp only at hp2
      rw [hbs] at hp2
      dsimp only at hp2
      simp only [Bool.and_eq_true, decide_eq_true_eq, beq_iff_eq] at hp2
      obtain ⟨⟨hlt, hoffeq⟩, hbusyB0⟩ := hp2
      obtain ⟨B, hB⟩ : ∃ B, bs.getD (blockIdx bs off) dummy = B := ⟨_, rfl⟩
      rw [hB] at hoffeq hbusyB0
      have ha : a < st.arenas.length := getD_lt_length _ _ _ hbs
      rcases inv_arena_facts st a bs hInv hbs with ⟨hwf, hnadj, hdisj⟩
      have hnotover : ¬ BLOCK_SIZE_MAX < block_get_size_curr B := by
        intro hov
        rcases hdisj with hend0 | ⟨h1, h2⟩
        · have hle := wfChain_end_le 0 0 bs hwf (blockIdx bs off) hlt
          rw [hB, hend0] at hle
          omega
        · have hi0 : blockIdx bs off = 0 := by omega
          rw [hi0] at hB
          rw [hB] at h2
          rw [hbusyB0] at h2
          exact absurd h2 (by decide)
      have hendA : endOffset bs = ARENA_SIZE := by
        rcases hdisj with h | ⟨h1, h2⟩
        · exact h
        · exfalso
          have hi0 : blockIdx bs off = 0 := by omega
          rw [hi0] at hB
          rw [hB] at h2
          rw [hbusyB0] at h2
          exact absurd h2 (by decide)
      obtain ⟨u, v, hdec, hulen⟩ :
          ∃ u v, bs = u ++ B :: v ∧ u.length = blockIdx bs off := by
        refine ⟨bs.take (blockIdx bs off), bs.drop (blockIdx bs off + 1),
          ?_, ?_⟩
        · conv_lhs => rw [decompose_at bs (blockIdx bs off) dummy hlt]
          rw [hB]
        · rw [List.length_take]
          omega
      have hwfdec : wfChain 0 0 (u ++ B :: v) = true := by
        rw [← hdec]
        exact hwf
      have hnadjdec : noAdjB (u ++ B :: v) = true := by
        rw [← hdec]
        exact hnadj
      rcases (noAdjB_append_iff u (B :: v)).mp hnadjdec with
        ⟨hnu, hnBv, hnbound⟩
      have hlenbs : bs.length = u.length + 1 + v.length := by
        rw [hdec]
        simp only [List.length_append, List.length_cons]
        omega
      have hgetBu : bs.getD u.length dummy = B := by
        rw [hdec, getD_append_len]
        rfl
      simp only [mem_realloc, hbs, hB]
      rw [if_neg hnotover]
      by_cases hsec : (normalizeSize size0 == block_get_size_curr B) = true
      · rw [if_pos hsec]
        exact hInv
      · rw [if_neg hsec]
        rw [← hulen, hdec]
        by_cases hlast : block_get_flag_last B = true
        · rw [if_neg (by rw [hlast]; simp), if_neg (by rw [hlast]; simp)]
          exact movePath_inv st a off oom _ _ bs hInv hbs hlt
            (by rw [hB]; exact hoffeq) (by rw [hB]; exact hbusyB0)
        · have hlastF : block_get_flag_last B = false := by
            simpa using hlast
          have hvne : v ≠ [] := by
            intro h0
            subst h0
            simp only [List.length_nil] at hlenbs
            have hiff := wfChain_last_iff 0 0 bs hwf u.length
              (by omega)
            rw [hgetBu] at hiff
            have h2 := hiff.mpr (by omega)
            rw [hlastF] at h2
            cases h2
          cases v with
          | nil => exact absurd rfl hvne
          | cons n v3 =>
            simp only [List.length_cons] at hlenbs
            have hsne : normalizeSize size0 ≠ block_get_size_curr B := by
              simpa using hsec
            have hnadjnv3 : noAdjB (n :: v3) = true :=
              noAdjB_tail B (n :: v3) hnBv
            have hnadjv3 : noAdjB v3 = true := noAdjB_tail n v3 hnadjnv3
            rcases Nat.lt_trichotomy (normalizeSize size0)
              (block_get_size_curr B) with hAB | hAB | hAB
            · -- shrink
              rw [if_pos (by
                simp only [Bool.and_eq_true, decide_eq_true_eq]
                exact ⟨hAB, by rw [hlastF]; rfl⟩)]
              by_cases hrem : BLOCK_STRUCT_SIZE + BLOCK_SIZE_MIN
                  ≤ block_get_size_curr B - normalizeSize size0
              · obtain ⟨B2, Br, heq, hB2busy, hB2off, hB2sp, hB2get,
                  hBrbusy, hBrget, hBroff, hBrsp, hwfL, hendL, hlenL⟩ :=
                  split_state_rem u (n :: v3) B (normalizeSize size0)
                    hwfdec hs4 hsmin hrem
                rw [heq]
                dsimp only
                have hbn : (u ++ B2 :: Br :: patchFirst
                    (fun x => block_set_size_prev x
                      (block_get_size_curr B - normalizeSize size0
                        - BLOCK_STRUCT_SIZE)) (n :: v3)).getD
                    (u.length + 2) dummy
                    = block_set_size_prev n (block_get_size_curr B
                      - normalizeSize size0 - BLOCK_STRUCT_SIZE) := by
                  rw [getD_append_add]
                  rfl
                rw [hbn, busy_set_size_prev]
                by_cases hbusyn : block_get_flag_busy n = true
                · rw [hbusyn, if_neg (by simp)]
                  dsimp only
                  have hbr2 : (u ++ B2 :: Br :: patchFirst
                      (fun x => block_set_size_prev x
                        (block_get_size_curr B - normalizeSize size0
                          - BLOCK_STRUCT_SIZE)) (n :: v3)).getD
                      (u.length + 1) dummy = Br := by
                    rw [getD_append_add]
                    rfl
                  rw [hbr2]
                  have hendL2 : endOffset (u ++ B2 :: Br :: patchFirst
                      (fun x => block_set_size_prev x
                        (block_get_size_curr B - normalizeSize size0
                          - BLOCK_STRUCT_SIZE)) (n :: v3)) = ARENA_SIZE := by
                    rw [hendL, ← hdec]
                    exact hendA
                  apply inv_update_arena st a _ _ hInv
                  · rw [invArena_some_iff]
                    refine ⟨hwfL, ?_, Or.inl hendL2⟩
                    refine noAdjB_split_shape u _ B2 Br hnu hB2busy ?_ ?_
                    · exact noAdjB_patchFirst _
                        (fun b => busy_set_size_prev b _) (n :: v3) hnadjnv3
                    · intro y hy
                      right
                      refine head_busy_patchFirst _
                        (fun b => busy_set_size_prev b _) (n :: v3) ?_ y hy
                      intro z hz
                      rw [List.head?_cons] at hz
                      injection hz with hz2
                      rw [← hz2]
                      exact hbusyn
                  · intro e2 he2
                    rcases tree_add_mem _ _ e2 he2 with hin | hnew
                    · refine free_ht2 st a bs u _ B2 st.tree (u.length + 1) 1
                        [] hbs hInv hwfL hendL2 ?_ ?_ ?_
                        (fun e h => h) (fun e _ _ => by simp) e2 hin
                      · intro j4 hj4
                        rw [hdec]
                        exact getD_prefix_eq u _ _ j4 hj4
                      · intro k hk
                        have hbsk : bs.getD (u.length + 1 + k) dummy
                            = (n :: v3).getD k dummy := by
                          rw [hdec, show u.length + 1 + k
                              = u.length + (1 + k) from by omega,
                            getD_append_add, show 1 + k = k + 1 from by
                              omega, List.getD_cons_succ]
                        have hwk : (Br :: patchFirst
                            (fun x => block_set_size_prev x
                              (block_get_size_curr B - normalizeSize size0
                                - BLOCK_STRUCT_SIZE)) (n :: v3)).getD
                            (1 + k) dummy
                            = (patchFirst (fun x => block_set_size_prev x
                              (block_get_size_curr B - normalizeSize size0
                                - BLOCK_STRUCT_SIZE)) (n :: v3)).getD
                              k dummy := by
                          rw [show 1 + k = k + 1 from by omega,
                            List.getD_cons_succ]
                        have hpp := patchFirst_getD_pres
                          (fun x => block_set_size_prev x
                            (block_get_size_curr B - normalizeSize size0
                              - BLOCK_STRUCT_SIZE))
                          (fun b => off_set_size_prev b _)
                          (fun b => busy_set_size_prev b _)
                          (fun b => get_set_size_prev b _) (n :: v3) k
                        rw [hbsk, hwk]
                        refine ⟨?_, hpp.1, hpp.2.1, hpp.2.2⟩
                        simp only [List.length_cons, patchFirst_length]
                        omega
                      · intro j4 h1 h2 h3
                        have hj4 : j4 = u.length := by omega
                        subst hj4
                        left
                        rw [hgetBu]
                        exact hbusyB0
                    · subst hnew
                      refine treeEntryOK_of_resolve _ _ _ _ (u.length + 1)
                        ?_ hwfL ?_ ?_ ?_ ?_ ?_ hendL2
                      · dsimp only
                        exact getD_set_self _ _ _ _ ha
                      · simp only [List.length_append, List.length_cons,
                          patchFirst_length]
                        omega
                      · rw [getD_append_add]
                        rfl
                      · rw [getD_append_add]
                        exact hBrbusy
                      · rw [getD_append_add]
                        rfl
                      · dsimp only
                        rw [hBrget]
                        omega
                · have hbusynF : block_get_flag_busy n = false := by
                    simpa using hbusyn
                  rw [hbusynF, if_pos (by simp)]
                  dsimp only
                  rw [off_set_size_prev]
                  simp only [patchFirst]
                  have hwfL2 : wfChain 0 0 ((u ++ [B2]) ++ Br
                      :: block_set_size_prev n (block_get_size_curr B
                        - normalizeSize size0 - BLOCK_STRUCT_SIZE) :: v3)
                      = true := by
                    simp only [List.append_assoc, List.cons_append,
                      List.nil_append]
                    simpa only [patchFirst] using hwfL
                  rw [show u ++ B2 :: Br :: block_set_size_prev n
                      (block_get_size_curr B - normalizeSize size0
                        - BLOCK_STRUCT_SIZE) :: v3
                      = (u ++ [B2]) ++ Br :: block_set_size_prev n
                        (block_get_size_curr B - normalizeSize size0
                          - BLOCK_STRUCT_SIZE) :: v3 from by simp,
                    show u.length + 1 = (u ++ [B2]).length from by simp]
                  obtain ⟨X', hmeq, hXoff, hXsp, hXbusy, hXget, hXlast,
                      hwfM, hendM, hlenM⟩ :=
                    merge_state (u ++ [B2]) Br (block_set_size_prev n
                      (block_get_size_curr B - normalizeSize size0
                        - BLOCK_STRUCT_SIZE)) v3 hwfL2
                  rw [hmeq, getD_append_len, List.getD_cons_zero]
                  simp only [get_set_size_prev, List.append_assoc, List.cons_append, List.nil_append] at hmeq hwfM hendM hlenM hXget ⊢
                  have hXbusyF : block_get_flag_busy X' = false := by
                    rw [hXbusy]
                    exact hBrbusy
                  have hv3head : ∀ z, v3.head? = some z →
                      block_get_flag_busy z = true := by
                    intro z hz
                    cases v3 with
                    | nil => simp at hz
                    | cons c r =>
                      rw [List.head?_cons] at hz
                      injection hz with hz2
                      rw [← hz2]
                      rcases ((noAdjB_cons_cons n c r).mp hnadjnv3).1 with
                        h | h
                      · rw [hbusynF] at h
                        exact absurd h (by decide)
                      · exact h
                  have hendM2 : endOffset (u ++ B2 :: X' :: patchFirst
                      (fun m => block_set_size_prev m
                        (block_get_size_curr Br + block_get_size_curr n
                          + BLOCK_STRUCT_SIZE)) v3) = ARENA_SIZE := by
                    rw [hendM]
                    have h9 := hendL
                    simp only [patchFirst] at h9
                    rw [h9, ← hdec]
                    exact hendA
                  apply inv_update_arena st a _ _ hInv
                  · rw [invArena_some_iff]
                    refine ⟨hwfM, ?_, Or.inl hendM2⟩
                    refine noAdjB_split_shape u _ B2 X' hnu hB2busy ?_ ?_
                    · exact noAdjB_patchFirst _
                        (fun b => busy_set_size_prev b _) v3 hnadjv3
                    · intro y hy
                      right
                      exact head_busy_patchFirst _
                        (fun b => busy_set_size_prev b _) v3 hv3head y hy
                  · intro e2 he2
                    rcases tree_add_mem _ _ e2 he2 with hin | hnew
                    · refine free_ht2 st a bs u _ B2
                        (tree_remove st.tree (a, n.offset)) (u.length + 2) 1
                        [n.offset] hbs hInv hwfM hendM2 ?_ ?_ ?_ ?_ ?_ e2 hin
                      · intro j4 hj4
                        rw [hdec]
                        exact getD_prefix_eq u _ _ j4 hj4
                      · intro k hk
                        have hbsk : bs.getD (u.length + 2 + k) dummy
                            = v3.getD k dummy := by
                          rw [hdec, show u.length + 2 + k
                              = u.length + (2 + k) from by omega,
                            getD_append_add, show 2 + k = k + 1 + 1 from by
                              omega, List.getD_cons_succ,
                            List.getD_cons_succ]
                        have hpp := patchFirst_getD_pres
                          (fun m => block_set_size_prev m
                            (block_get_size_curr Br + block_get_size_curr n
                              + BLOCK_STRUCT_SIZE))
                          (fun b => off_set_size_prev b _)
                          (fun b => busy_set_size_prev b _)
                          (fun b => get_set_size_prev b _) v3 k
                        have hwk : (X' :: patchFirst
                            (fun m => block_set_size_prev m
                              (block_get_size_curr Br + block_get_size_curr n
                                + BLOCK_STRUCT_SIZE)) v3).getD (1 + k) dummy
                            = (patchFirst (fun m => block_set_size_prev m
                              (block_get_size_curr Br + block_get_size_curr n
                                + BLOCK_STRUCT_SIZE)) v3).getD k dummy := by
                          rw [show 1 + k = k + 1 from by omega,
                            List.getD_cons_succ]
                        rw [hbsk, hwk]
                        refine ⟨?_, hpp.1, hpp.2.1, hpp.2.2⟩
                        simp only [List.length_cons, patchFirst_length]
                        omega
                      · intro j4 h1 h2 h3
                        rcases (show j4 = u.length ∨ j4 = u.length + 1 from
                          by omega) with h4 | h4
                        · subst h4
                          left
                          rw [hgetBu]
                          exact hbusyB0
                        · subst h4
                          right
                          have hbsn : bs.getD (u.length + 1) dummy = n := by
                            rw [hdec, getD_append_add]
                            rfl
                          rw [hbsn]
                          exact List.mem_cons_self _ _
                      · exact fun e h => (tree_remove_mem _ _ e h).1
                      · intro e h hea
                        have hne := (tree_remove_mem _ _ e h).2
                        simp only [List.mem_cons, List.not_mem_nil, or_false]
                        intro hq
                        refine hne ?_
                        have hpair : e.loc = (e.loc.1, e.loc.2) := rfl
                        rw [hpair, hea, hq]
                    · subst hnew
                      refine treeEntryOK_of_resolve _ _ _ _ (u.length + 1)
                        ?_ hwfM ?_ ?_ ?_ ?_ ?_ hendM2
                      · dsimp only
                        exact getD_set_self _ _ _ _ ha
                      · simp only [List.length_append, List.length_cons,
                          patchFirst_length]
                        omega
                      · rw [getD_append_add]
                        rfl
                      · rw [getD_append_add]
                        exact hXbusyF
                      · rw [getD_append_add]
                        rfl
                      · dsimp only
                        have h9 := sizeCurr_le_max _ (u.length + 1) hwfM
                          hendM2 (by
                            simp only [List.length_append, List.length_cons,
                              patchFirst_length]
                            omega)
                        rw [getD_append_add] at h9
                        exact h9
              · obtain ⟨heqn, hwfn, hnadjn, hendn, hlenn⟩ :=
                  split_state_norem u (n :: v3) B (normalizeSize size0)
                    hwfdec hnadjdec (by omega)
                rw [heqn]
                dsimp only
                rw [set_flag_busy_id B hbusyB0, ← hdec]
                have hInv2 : inv (⟨st.arenas.set a (some bs),
                    st.tree⟩ : AllocState) = true := by
                  apply inv_update_arena st a bs st.tree hInv
                  · rw [invArena_some_iff]
                    exact ⟨hwf, hnadj, Or.inl hendA⟩
                  · intro e2 he2
                    by_cases hea : e2.loc.1 = a
                    · refine entry_transport st a bs bs st.tree e2 hbs hwf
                        hendA ((inv_elim st hInv).2 e2 he2) hea ?_
                      intro j3 hj3 h1 h2 h3
                      exact ⟨j3, hj3, h1, h2, h3⟩
                    · exact treeEntryOK_set_arenas st a (some bs) st.tree e2
                        hea ((inv_elim st hInv).2 e2 he2)
                exact movePath_inv ⟨st.arenas.set a (some bs), st.tree⟩ a off
                  oom _ _ bs hInv2 (getD_set_self _ _ _ _ ha) hlt
                  (by rw [hB]; exact hoffeq) (by rw [hB]; exact hbusyB0)
            · exact absurd hAB hsne
            · -- grow
              rw [if_neg (by
                simp only [Bool.and_eq_true, decide_eq_true_eq]
                intro h
                exact absurd h.1 (by omega))]
              rw [if_pos (by
                simp only [Bool.and_eq_true, decide_eq_true_eq]
                exact ⟨hAB, by rw [hlastF]; rfl⟩)]
              have hbrn : (u ++ B :: n :: v3).getD (u.length + 1) dummy
                  = n := by
                rw [getD_append_add]
                rfl
              rw [hbrn]
              by_cases hbusyn : block_get_flag_busy n = true
              · rw [hbusyn, if_neg (by simp)]
                exact movePath_inv st a off oom _ _ bs hInv hbs hlt
                  (by rw [hB]; exact hoffeq) (by rw [hB]; exact hbusyB0)
              · have hbusynF : block_get_flag_busy n = false := by
                  simpa using hbusyn
                rw [hbusynF, if_pos (by simp)]
                by_cases htot : normalizeSize size0
                    ≤ block_get_size_curr B + block_get_size_curr n
                      + BLOCK_STRUCT_SIZE
                · rw [if_pos htot]
                  dsimp only
                  obtain ⟨X', hmeq, hXoff, hXsp, hXbusy, hXget, hXlast,
                      hwfM, hendM, hlenM⟩ := merge_state u B n v3 hwfdec
                  rw [hmeq]
                  have hXbusyT : block_get_flag_busy X' = true := by
                    rw [hXbusy]
                    exact hbusyB0
                  have hv3head : ∀ z, v3.head? = some z →
                      block_get_flag_busy z = true := by
                    intro z hz
                    cases v3 with
                    | nil => simp at hz
                    | cons c r =>
                      rw [List.head?_cons] at hz
                      injection hz with hz2
                      rw [← hz2]
                      rcases ((noAdjB_cons_cons n c r).mp hnadjnv3).1 with
                        h | h
                      · rw [hbusynF] at h
                        exact absurd h (by decide)
                      · exact h
                  have hendM2 : endOffset (u ++ X' :: patchFirst
                      (fun m => block_set_size_prev m
                        (block_get_size_curr B + block_get_size_curr n
                          + BLOCK_STRUCT_SIZE)) v3) = ARENA_SIZE := by
                    rw [hendM, ← hdec]
                    exact hendA
                  by_cases hrem2 : BLOCK_STRUCT_SIZE + BLOCK_SIZE_MIN
                      ≤ block_get_size_curr X' - normalizeSize size0
                  · obtain ⟨B2, Br, heq2, hB2busy, hB2off, hB2sp, hB2get,
                      hBrbusy, hBrget, hBroff, hBrsp, hwfL, hendL, hlenL⟩ :=
                      split_state_rem u (patchFirst (fun m =>
                        block_set_size_prev m (block_get_size_curr B
                          + block_get_size_curr n + BLOCK_STRUCT_SIZE)) v3)
                        X' (normalizeSize size0) hwfM hs4 hsmin hrem2
                    rw [heq2]
                    dsimp only
                    have hend3 : endOffset (u ++ B2 :: Br :: patchFirst
                        (fun x => block_set_size_prev x
                          (block_get_size_curr X' - normalizeSize size0
                            - BLOCK_STRUCT_SIZE))
                        (patchFirst (fun m => block_set_size_prev m
                          (block_get_size_curr B + block_get_size_curr n
                            + BLOCK_STRUCT_SIZE)) v3)) = ARENA_SIZE := by
                      rw [hendL]
                      exact hendM2
                    apply inv_update_arena st a _ _ hInv
                    · rw [invArena_some_iff]
                      refine ⟨hwfL, ?_, Or.inl hend3⟩
                      refine noAdjB_split_shape u _ B2 Br hnu hB2busy ?_ ?_
                      · exact noAdjB_patchFirst _
                          (fun b => busy_set_size_prev b _) _
                          (noAdjB_patchFirst _
                            (fun b => busy_set_size_prev b _) v3 hnadjv3)
                      · intro y hy
                        right
                        refine head_busy_patchFirst _
                          (fun b => busy_set_size_prev b _) _ ?_ y hy
                        exact head_busy_patchFirst _
                          (fun b => busy_set_size_prev b _) v3 hv3head
                    · intro e2 he2
                      rcases tree_add_mem _ _ e2 he2 with hin | hnew
                      · refine free_ht2 st a bs u _ B2
                          (tree_remove st.tree (a, n.offset))
                          (u.length + 2) 1 [n.offset] hbs hInv hwfL hend3
                          ?_ ?_ ?_ ?_ ?_ e2 hin
                        · intro j4 hj4
                          rw [hdec]
                          exact getD_prefix_eq u _ _ j4 hj4
                        · intro k hk
                          have hbsk : bs.getD (u.length + 2 + k) dummy
                              = v3.getD k dummy := by
                            rw [hdec, show u.length + 2 + k
                                = u.length + (2 + k) from by omega,
                              getD_append_add, show 2 + k = k + 1 + 1 from by
                                omega, List.getD_cons_succ,
                              List.getD_cons_succ]
                          have hpp1 := patchFirst_getD_pres
                            (fun x => block_set_size_prev x
                              (block_get_size_curr X' - normalizeSize size0
                                - BLOCK_STRUCT_SIZE))
                            (fun b => off_set_size_prev b _)
                            (fun b => busy_set_size_prev b _)
                            (fun b => get_set_size_prev b _)
                            (patchFirst (fun m => block_set_size_prev m
                              (block_get_size_curr B + block_get_size_curr n
                                + BLOCK_STRUCT_SIZE)) v3) k
                          have hpp2 := patchFirst_getD_pres
                            (fun m => block_set_size_prev m
                              (block_get_size_curr B + block_get_size_curr n
                                + BLOCK_STRUCT_SIZE))
                            (fun b => off_set_size_prev b _)
                            (fun b => busy_set_size_prev b _)
                            (fun b => get_set_size_prev b _) v3 k
                          have hwk : (Br :: patchFirst
                              (fun x => block_set_size_prev x
                                (block_get_size_curr X' - normalizeSize size0
                                  - BLOCK_STRUCT_SIZE))
                              (patchFirst (fun m => block_set_size_prev m
                                (block_get_size_curr B
                                  + block_get_size_curr n
                                  + BLOCK_STRUCT_SIZE)) v3)).getD
                              (1 + k) dummy
                              = (patchFirst
                                (fun x => block_set_size_prev x
                                  (block_get_size_curr X'
                                    - normalizeSize size0
                                    - BLOCK_STRUCT_SIZE))
                                (patchFirst (fun m => block_set_size_prev m
                                  (block_get_size_curr B
                                    + block_get_size_curr n
                                    + BLOCK_STRUCT_SIZE)) v3)).getD
                                k dummy := by
                            rw [show 1 + k = k + 1 from by omega,
                              List.getD_cons_succ]
                          rw [hbsk, hwk]
                          refine ⟨?_, ?_, ?_, ?_⟩
                          · simp only [List.length_cons, patchFirst_length]
                            omega
                          · rw [hpp1.1, hpp2.1]
                          · rw [hpp1.2.1, hpp2.2.1]
                          · rw [hpp1.2.2, hpp2.2.2]
                        · intro j4 h1 h2 h3
                          rcases (show j4 = u.length ∨ j4 = u.length + 1 from
                            by omega) with h4 | h4
                          · subst h4
                            left
                            rw [hgetBu]
                            exact hbusyB0
                          · subst h4
                            right
                            have hbsn : bs.getD (u.length + 1) dummy = n := by
                              rw [hdec, getD_append_add]
                              rfl
                            rw [hbsn]
                            exact List.mem_cons_self _ _
                        · exact fun e h => (tree_remove_mem _ _ e h).1
                        · intro e h hea
                          have hne := (tree_remove_mem _ _ e h).2
                          simp only [List.mem_cons, List.not_mem_nil,
                            or_false]
                          intro hq
                          refine hne ?_
                          have hpair : e.loc = (e.loc.1, e.loc.2) := rfl
                          rw [hpair, hea, hq]
                      · subst hnew
                        refine treeEntryOK_of_resolve _ _ _ _ (u.length + 1)
                          ?_ hwfL ?_ ?_ ?_ ?_ ?_ hend3
                        · dsimp only
                          exact getD_set_self _ _ _ _ ha
                        · simp only [List.length_append, List.length_cons,
                            patchFirst_length]
                          omega
                        · rw [getD_append_add]
                          rfl
                        · rw [getD_append_add]
                          exact hBrbusy
                        · rw [getD_append_add]
                          rfl
                        · dsimp only
                          have h9 := sizeCurr_le_max _ (u.length + 1) hwfL
                            hend3 (by
                              simp only [List.length_append,
                                List.length_cons, patchFirst_length]
                              omega)
                          rw [getD_append_add] at h9
                          exact h9
                  · have hnadjM : noAdjB (u ++ X' :: patchFirst
                        (fun m => block_set_size_prev m
                          (block_get_size_curr B + block_get_size_curr n
                            + BLOCK_STRUCT_SIZE)) v3) = true :=
                      noAdjB_mid u _ X' hnu
                        (noAdjB_patchFirst _
                          (fun b => busy_set_size_prev b _) v3 hnadjv3)
                        (fun x _ => Or.inr hXbusyT)
                        (fun y _ => Or.inl hXbusyT)
                    obtain ⟨heqn2, hwfn2, hnadjn2, hendn2, hlenn2⟩ :=
                      split_state_norem u (patchFirst (fun m =>
                        block_set_size_prev m (block_get_size_curr B
                          + block_get_size_curr n + BLOCK_STRUCT_SIZE)) v3)
                        X' (normalizeSize size0) hwfM hnadjM (by omega)
                    rw [heqn2]
                    dsimp only
                    rw [set_flag_busy_id X' hXbusyT]
                    apply inv_update_arena st a _ _ hInv
                    · rw [invArena_some_iff]
                      exact ⟨hwfM, hnadjM, Or.inl hendM2⟩
                    · intro e2 he2
                      refine free_ht2 st a bs u _ X'
                        (tree_remove st.tree (a, n.offset))
                        (u.length + 2) 0 [n.offset] hbs hInv hwfM hendM2
                        ?_ ?_ ?_ ?_ ?_ e2 he2
                      · intro j4 hj4
                        rw [hdec]
                        exact getD_prefix_eq u _ _ j4 hj4
                      · intro k hk
                        have hbsk : bs.getD (u.length + 2 + k) dummy
                            = v3.getD k dummy := by
                          rw [hdec, show u.length + 2 + k
                              = u.length + (2 + k) from by omega,
                            getD_append_add, show 2 + k = k + 1 + 1 from by
                              omega, List.getD_cons_succ,
                            List.getD_cons_succ]
                        have hpp := patchFirst_getD_pres
                          (fun m => block_set_size_prev m
                            (block_get_size_curr B + block_get_size_curr n
                              + BLOCK_STRUCT_SIZE))
                          (fun b => off_set_size_prev b _)
                          (fun b => busy_set_size_prev b _)
                          (fun b => get_set_size_prev b _) v3 k
                        rw [hbsk, show (0 : Nat) + k = k from by omega]
                        refine ⟨?_, hpp.1, hpp.2.1, hpp.2.2⟩
                        simp only [patchFirst_length]
                        omega
                      · intro j4 h1 h2 h3
                        rcases (show j4 = u.length ∨ j4 = u.length + 1 from
                          by omega) with h4 | h4
                        · subst h4
                          left
                          rw [hgetBu]
                          exact hbusyB0
                        · subst h4
                          right
                          have hbsn : bs.getD (u.length + 1) dummy = n := by
                            rw [hdec, getD_append_add]
                            rfl
                          rw [hbsn]
                          exact List.mem_cons_self _ _
                      · exact fun e h => (tree_remove_mem _ _ e h).1
                      · intro e h hea
                        have hne := (tree_remove_mem _ _ e h).2
                        simp only [List.mem_cons, List.not_mem_nil, or_false]
                        intro hq
                        refine hne ?_
                        have hpair : e.loc = (e.loc.1, e.loc.2) := rfl
                        rw [hpair, hea, hq]
                · rw [if_neg htot]
                  exact movePath_inv st a off oom _ _ bs hInv hbs hlt
                    (by rw [hB]; exact hoffeq) (by rw [hB]; exact hbusyB0)


/-- C4: after any single alloc, free or realloc operation completes on a
state satisfying the allocator invariant — with pointers that resolve to
busy blocks for free and realloc, and a realloc request whose size plus
alignment slack does not overflow size_t — no two adjacent free blocks
exist within the same arena. -/
theorem mem_ops_no_adjacent_free (st : AllocState) (oom : Bool)
    (sizeA : Nat) (p q : Ptr) (sizeR : Nat)
    (hInv : inv st = true)
    (hp : ptrBusy st p = true) (hq : ptrBusy st q = true)
    (hsz : sizeR ≤ SIZE_MAX - (ALIGN - 1)) :
    noAdjAll (mem_alloc st oom sizeA).st = true
    ∧ noAdjAll (mem_free st p).st = true
    ∧ noAdjAll (mem_realloc st q oom sizeR).st = true :=
  ⟨inv_noAdjAll _ (mem_alloc_inv_pres st oom sizeA hInv).1,
   inv_noAdjAll _ (mem_free_inv st p hInv hp),
   inv_noAdjAll _ (mem_realloc_inv st q oom sizeR hsz hInv hq)⟩

/-- Witness for C4 at a one-arena state holding a single busy block of
masked size 65504, exercised by alloc(100), free and realloc(16) of its
payload pointer. -/
theorem mem_ops_no_adjacent_free_witness :
    inv (⟨[some [⟨65507, 0, 0⟩]], []⟩ : AllocState) = true
    ∧ ptrBusy (⟨[some [⟨65507, 0, 0⟩]], []⟩ : AllocState)
        (Ptr.mk 0 0) = true
    ∧ 16 ≤ SIZE_MAX - (ALIGN - 1)
    ∧ noAdjAll (mem_alloc ⟨[some [⟨65507, 0, 0⟩]], []⟩ false 100).st = true
    ∧ noAdjAll (mem_free ⟨[some [⟨65507, 0, 0⟩]], []⟩ (Ptr.mk 0 0)).st
      = true
    ∧ noAdjAll (mem_realloc ⟨[some [⟨65507, 0, 0⟩]], []⟩ (Ptr.mk 0 0)
        false 16).st = true := by
  have h1 : inv (⟨[some [⟨65507, 0, 0⟩]], []⟩ : AllocState) = true := by
    decide
  have h2 : ptrBusy (⟨[some [⟨65507, 0, 0⟩]], []⟩ : AllocState)
      (Ptr.mk 0 0) = true := by decide
  have h3 : (16 : Nat) ≤ SIZE_MAX - (ALIGN - 1) := by
    norm_num [SIZE_MAX, SIZE_T_MOD, ALIGN]
  have h4 := mem_ops_no_adjacent_free ⟨[some [⟨65507, 0, 0⟩]], []⟩ false
    100 (Ptr.mk 0 0) (Ptr.mk 0 0) 16 h1 h2 h2 h3
  exact ⟨h1, h2, h3, h4.1, h4.2.1, h4.2.2⟩

end AllocModel
